import Mathlib

/-!
# Treemap layout and cushion surfaces of k4dirstat

A shallow embedding of `src/src/ktreemaptile.cpp` (namespace `KDirStat`) and of
the size field of the cache file in `src/src/kdirtreecache.cpp`.

Conventions of the embedding:

* C++ `double` values are rationals (`ℚ`). The definitions outside the namespace
  `Ieee` compute with them exactly. The namespace `Ieee` repeats the geometry of
  both layout strategies with every operation rounded to the nearest binary64
  number (`roundDouble`); what is claimed about single extents, the unfilled
  strip and the comparison of aspect ratios is stated and proved there. A
  division of a double by zero, which yields an infinity or a NaN in C++, is
  modelled case by case where the source can reach it.
* C++ `int` and `KFileSize` (`long long`) are unbounded integers: no overflow.
  `totalSize()` is a byte count and is a natural number. Only the section on
  the cache file keeps `long long` to 64 bits.
* Rectangles have integer coordinates (every child rectangle is built as a
  `QRect`; the conversion `QRect -> QRectF` keeps `x, y, width, height`).
* One call of `createChildren` is modelled as the list of child tiles it
  constructs, in construction order; each entry records the arguments of the
  `new KTreemapTile(...)` call and the ridge the parent adds afterwards.
-/

namespace KDirStat

/-! ## Data model -/

/-- The part of `KFileInfo` the layout reads: `totalSize()`, `child(i)` for
`i < numChildren()`, and `dotEntry()`. The field `ident` stands for the identity
of the C++ object (the layout handles `KFileInfo *` pointers). -/
inductive KFileInfo where
  | mk (ident : Nat) (totalSize : Nat) (children : List KFileInfo)
      (dotEntry : Option KFileInfo)

namespace KFileInfo

/-- Identity of the object. -/
def ident : KFileInfo → Nat
  | mk i _ _ _ => i

/-- Value of `totalSize()`. -/
def totalSize : KFileInfo → Nat
  | mk _ s _ _ => s

/-- The children `child(0), ..., child(numChildren()-1)`. -/
def children : KFileInfo → List KFileInfo
  | mk _ _ c _ => c

/-- Value of `dotEntry()` (`none` for a null pointer). -/
def dotEntry : KFileInfo → Option KFileInfo
  | mk _ _ _ d => d

/-- Sum of the weights of the children and of the dot entry. -/
def childrenSize (info : KFileInfo) : Nat :=
  (info.children.map totalSize).sum +
    (match info.dotEntry with
     | some d => d.totalSize
     | none => 0)

/-- A file: no children, no dot entry. -/
def leaf (ident size : Nat) : KFileInfo := mk ident size [] none

end KFileInfo

/-- The enum `KOrientation`. -/
inductive KOrientation where
  | KTreemapHorizontal
  | KTreemapVertical
  | KTreemapAuto
  deriving DecidableEq, Repr

open KOrientation

/-- A rectangle with integer coordinates (`QRect`, or a `QRectF` holding whole
numbers). -/
structure Rect where
  x : Int
  y : Int
  width : Int
  height : Int
  deriving DecidableEq, Repr

namespace Rect

/-- Value of `QRectF::left()`. -/
def left (r : Rect) : Int := r.x

/-- Value of `QRectF::right()`, which is `x + width` for a `QRectF`. -/
def right (r : Rect) : Int := r.x + r.width

/-- Value of `QRectF::top()`. -/
def top (r : Rect) : Int := r.y

/-- Value of `QRectF::bottom()`, which is `y + height` for a `QRectF`. -/
def bottom (r : Rect) : Int := r.y + r.height

/-- Area `width * height`. -/
def area (r : Rect) : Int := r.width * r.height

/-- The rectangle `a` lies within `b` (and has non-negative extents). -/
def Within (a b : Rect) : Prop :=
  0 ≤ a.width ∧ 0 ≤ a.height ∧ b.x ≤ a.x ∧ b.y ≤ a.y ∧
    a.x + a.width ≤ b.x + b.width ∧ a.y + a.height ≤ b.y + b.height

/-- The rectangles `a` and `b` share a region of positive area. -/
def Overlaps (a b : Rect) : Prop :=
  max a.x b.x < min (a.x + a.width) (b.x + b.width) ∧
    max a.y b.y < min (a.y + a.height) (b.y + b.height)

instance (a b : Rect) : Decidable (Within a b) := by
  unfold Within; infer_instance

instance (a b : Rect) : Decidable (Overlaps a b) := by
  unfold Overlaps; infer_instance

end Rect

/-- Conversion of a finite `double` to an integer type: truncation toward
zero. -/
def truncate (q : ℚ) : Int := if 0 ≤ q then ⌊q⌋ else ⌈q⌉

/-! ## Cushion surfaces -/

/-- The class `KCushionSurface`: four coefficients and the stored height. -/
structure KCushionSurface where
  xx2 : ℚ
  xx1 : ℚ
  yy2 : ℚ
  yy1 : ℚ
  height : ℚ
  deriving DecidableEq

namespace KCushionSurface

/-- The method `squareRidge`. -/
def squareRidge (squareCoefficient height : ℚ) (x1 x2 : Int) : ℚ :=
  if x2 ≠ x1 then squareCoefficient - 4 * height / ((x2 - x1 : Int) : ℚ)
  else squareCoefficient

/-- The method `linearRidge`. -/
def linearRidge (linearCoefficient height : ℚ) (x1 x2 : Int) : ℚ :=
  if x2 ≠ x1 then
    linearCoefficient + 4 * height * ((x2 + x1 : Int) : ℚ) / ((x2 - x1 : Int) : ℚ)
  else linearCoefficient

/-- The method `addRidge`: the stored height is overwritten first, then the two
coefficients of one axis are updated (the `else` branch serves every `dim`
other than `KTreemapHorizontal`). -/
def addRidge (s : KCushionSurface) (dim : KOrientation) (height : ℚ) (rect : Rect) :
    KCushionSurface :=
  if dim = KTreemapHorizontal then
    { s with
      height := height
      xx2 := squareRidge s.xx2 height rect.left rect.right
      xx1 := linearRidge s.xx1 height rect.left rect.right }
  else
    { s with
      height := height
      yy2 := squareRidge s.yy2 height rect.top rect.bottom
      yy1 := linearRidge s.yy1 height rect.top rect.bottom }

end KCushionSurface

/-! ## Configuration and platform -/

/-- The settings of `KTreemapView` the layout reads. -/
structure KTreemapView where
  squarify : Bool
  minTileSize : Int
  heightScaleFactor : ℚ

/-- What the source leaves to the C++ implementation.

* `ndebug`: whether `assert` is compiled out (`NDEBUG`).
* `divZeroToSize n`: the `KFileSize` obtained from the double `n / 0.0`
  (an infinity or a NaN; the conversion is undefined behaviour in C++).
* `stdSort`: the rearrangement `std::sort(r.begin(), r.end(),
  childSizeComparator())` performs. -/
structure Platform where
  ndebug : Bool
  divZeroToSize : Int → Int
  stdSort : List KFileInfo → List KFileInfo

/-- The functor `childSizeComparator`. -/
def childSizeComparator (f1 f2 : KFileInfo) : Bool :=
  decide (f1.totalSize > f2.totalSize)

/-- What the C++ standard guarantees of `std::sort` with `childSizeComparator`:
the result is a rearrangement of the input in which no later element compares
before an earlier one. The order of equivalent elements is not specified. -/
def Platform.SortConforms (p : Platform) : Prop :=
  ∀ l : List KFileInfo, (p.stdSort l).Perm l ∧
    (p.stdSort l).Pairwise (fun a b => childSizeComparator b a = false)

/-- Insertion sort that keeps equal elements in input order (the behaviour of
libstdc++ on ranges of at most 16 elements). -/
def stableSort (l : List KFileInfo) : List KFileInfo :=
  l.insertionSort (fun a b => b.totalSize ≤ a.totalSize)

/-- A platform with assertions enabled and the stable insertion sort. -/
def Platform.debug : Platform := ⟨false, fun _ => 0, stableSort⟩

/-- A platform with `NDEBUG` and the stable insertion sort. -/
def Platform.release : Platform := ⟨true, fun _ => 0, stableSort⟩

/-- The node of the worked example: weight 100, four leaf children of weights
50, 30, 15 and 5. -/
def exampleRoot : KFileInfo :=
  .mk 0 100 [.leaf 1 50, .leaf 2 30, .leaf 3 15, .leaf 4 5] none

/-- The `KFileSize` value of `minTileSize / scale` (int divided by double,
converted to `KFileSize`), with the quotient computed exactly;
`Ieee.minSizeFor` rounds it to a double first. -/
def minSizeFor (p : Platform) (minTileSize : Int) (scale : ℚ) : Int :=
  if scale = 0 then p.divZeroToSize minTileSize
  else truncate ((minTileSize : ℚ) / scale)

/-! ## sortedChildBySize -/

/-- The vector `r` of `sortedChildBySize` before `std::sort`: the children with
`totalSize() >= minSize` in index order, then the dot entry if it exists and
has `totalSize() >= minSize`. -/
def sortCandidates (info : KFileInfo) (minSize : Int) : List KFileInfo :=
  info.children.filter (fun c => decide (minSize ≤ (c.totalSize : Int))) ++
    (match info.dotEntry with
     | some d => if minSize ≤ (d.totalSize : Int) then [d] else []
     | none => [])

/-- The function `sortedChildBySize`. -/
def sortedChildBySize (p : Platform) (info : KFileInfo) (minSize : Int) :
    List KFileInfo :=
  p.stdSort (sortCandidates info minSize)

/-! ## Child tiles -/

/-- One `new KTreemapTile(parentView, this, orig, rect, ...)` made by a parent
tile, with what the parent does to the new tile afterwards.

* `seed`: the cushion surface the constructor starts from (a copy of the
  parent's surface for the first constructor, the row surface passed to the
  second one).
* `orientation`: the orientation handed to the constructor.
* `ridgeDir`, `ridgeHeight`: the arguments of the
  `tile->cushionSurface().addRidge(dir, height, childRect)` call that follows
  the construction. -/
structure ChildTile where
  orig : KFileInfo
  rect : Rect
  orientation : KOrientation
  seed : KCushionSurface
  ridgeDir : KOrientation
  ridgeHeight : ℚ

/-- The node and the rectangle of a child tile. -/
def ChildTile.place (t : ChildTile) : KFileInfo × Rect := (t.orig, t.rect)

/-- Outcome of one layout call on a tile: the tile's own cushion surface after
the call and the child tiles constructed, in order. -/
structure Children where
  surface : KCushionSurface
  tiles : List ChildTile

/-- Default value of the `orientation` parameter of the second constructor
(the one taking a cushion surface), as declared in `ktreemaptile.h`. -/
def defaultOrientation : KOrientation := KTreemapAuto

/-! ## Simple strategy -/

/-- The `for` loop of `createChildrenSimple` over `sorted`, starting at
`offset`. The result is `none` when the `assert` fails (unless `NDEBUG`). The
product `scale * totalSize()` is exact here; `Ieee.createChildrenSimpleLoop`
is the loop with the product rounded to a double. -/
def createChildrenSimpleLoop (p : Platform) (view : KTreemapView)
    (dir childDir : KOrientation) (rect : Rect) (scale : ℚ)
    (surface : KCushionSurface) :
    List KFileInfo → Int → Option (List ChildTile)
  | [], _ => some []
  | c :: rest, offset =>
    let childSize : Int := truncate (scale * (c.totalSize : ℚ))
    if !p.ndebug && decide (childSize < view.minTileSize) then none
    else
      let childRect : Rect :=
        if dir = KTreemapHorizontal then ⟨rect.x + offset, rect.y, childSize, rect.height⟩
        else ⟨rect.x, rect.y + offset, rect.width, childSize⟩
      let tile : ChildTile :=
        ⟨c, childRect, childDir, surface, dir,
          surface.height * view.heightScaleFactor⟩
      (createChildrenSimpleLoop p view dir childDir rect scale surface rest
        (offset + childSize)).map (fun ts => tile :: ts)

/-- Sum of the extents `(int)(scale * totalSize())` the simple strategy gives to
the members of `l`. -/
def simpleExtent (scale : ℚ) (l : List KFileInfo) : Int :=
  (l.map (fun c => truncate (scale * (c.totalSize : ℚ)))).sum

/-- The direction `dir` along which `createChildrenSimple` lays out. -/
def simpleDir (rect : Rect) (orientation : KOrientation) : KOrientation :=
  if orientation = KTreemapAuto then
    (if rect.width > rect.height then KTreemapHorizontal else KTreemapVertical)
  else orientation

/-- The orientation `childDir` which `createChildrenSimple` hands on. -/
def simpleChildDir (orientation : KOrientation) : KOrientation :=
  if orientation = KTreemapHorizontal then KTreemapVertical
  else if orientation = KTreemapVertical then KTreemapHorizontal
  else orientation

/-- The method `createChildrenSimple` (reached from `createChildren` only with
`totalSize() != 0`). -/
def createChildrenSimple (p : Platform) (view : KTreemapView) (orig : KFileInfo)
    (surface : KCushionSurface) (rect : Rect) (orientation : KOrientation) :
    Option Children :=
  let dir := simpleDir rect orientation
  let childDir := simpleChildDir orientation
  let size : Int := if dir = KTreemapHorizontal then rect.width else rect.height
  let scale : ℚ := (size : ℚ) / (orig.totalSize : ℚ)
  let surface1 := surface.addRidge childDir surface.height rect
  let sorted := sortedChildBySize p orig (minSizeFor p view.minTileSize scale)
  (createChildrenSimpleLoop p view dir childDir rect scale surface1 sorted 0).map
    (fun ts => ⟨surface1, ts⟩)

/-! ## Squarified strategy -/

/-- The values the variables `worstAspectRatio` and `lastWorstAspectRatio` of
`squarify` can take: a finite number, `+inf`, or NaN. -/
inductive AspectValue where
  | fin (q : ℚ)
  | inf
  | nan
  deriving DecidableEq

namespace AspectValue

/-- The test `v >= 0.0`. -/
def geZero : AspectValue → Bool
  | fin q => decide (0 ≤ q)
  | inf => true
  | nan => false

/-- The test `a > b`. -/
def gt : AspectValue → AspectValue → Bool
  | fin a, fin b => decide (b < a)
  | inf, fin _ => true
  | _, _ => false

end AspectValue

/-- The expression
`max(scaledLengthSquare * row[0]->totalSize() / sumSquare,
     sumSquare / (scaledLengthSquare * (*it)->totalSize()))`
with `scaledLengthSquare = length * (double)length / scale`, evaluated where the
source evaluates it: `length != 0`, `sum != 0` and `(*it)->totalSize() != 0`.
For `scale = 0` the double `scaledLengthSquare` is `+inf`: the first operand is
`+inf` (NaN when `row[0]->totalSize()` is 0), the second is 0, and
`std::max(a, b)`, which is `(a < b) ? b : a`, returns the first. The products
and quotients are exact here; `Ieee.worstAspectRatio` rounds each of them. -/
def worstAspectRatio (length : Int) (scale : ℚ) (first : Nat) (sum : ℚ) (cur : Nat) :
    AspectValue :=
  if scale = 0 then (if first = 0 then AspectValue.nan else AspectValue.inf)
  else
    let scaledLengthSquare : ℚ := (length : ℚ) * (length : ℚ) / scale
    let sumSquare : ℚ := sum * sum
    AspectValue.fin (max (scaledLengthSquare * (first : ℚ) / sumSquare)
      (sumSquare / (scaledLengthSquare * (cur : ℚ))))

/-- The `while` loop of `squarify`. State: the row built so far, `sum`,
`lastWorstAspectRatio`, and the range `[it, end)`. Returns the row and the
range left when the loop exits. The ratios compared are the exact ones;
`Ieee.squarifyLoop` compares the doubles. -/
def squarifyLoop (length : Int) (scale : ℚ) :
    List KFileInfo → ℚ → AspectValue → List KFileInfo → List KFileInfo × List KFileInfo
  | row, _, _, [] => (row, [])
  | row, sum, lastWorst, c :: rest =>
    let sum1 : ℚ := sum + (c.totalSize : ℚ)
    match row with
    | first :: _ =>
      if sum1 ≠ 0 ∧ c.totalSize ≠ 0 then
        let worst := worstAspectRatio length scale first.totalSize sum1 c.totalSize
        if lastWorst.geZero && worst.gt lastWorst then (row, c :: rest)
        else squarifyLoop length scale (row ++ [c]) sum1 worst rest
      else squarifyLoop length scale (row ++ [c]) sum1 lastWorst rest
    | [] => squarifyLoop length scale (row ++ [c]) sum1 lastWorst rest

/-- The method `squarify`, called with an empty `row`: returns the row and the
new position of the iterator `it` (as the range `[it, end)`). -/
def squarify (rect : Rect) (scale : ℚ) (it : List KFileInfo) :
    List KFileInfo × List KFileInfo :=
  let length : Int := max rect.width rect.height
  if length = 0 then ([], it.tail)
  else squarifyLoop length scale [] 0 (AspectValue.fin (-1)) it

/-- The `foreach` loop of `layoutRow`, with the current `offset` and
`remaining`. The expression converted to `childSize` is exact here;
`Ieee.layoutRowLoop` is the loop with each operation rounded to a double. -/
def layoutRowLoop (view : KTreemapView) (dir : KOrientation) (rect : Rect)
    (secondary : Int) (sum : Nat) (primary : Int) (rowCushionSurface : KCushionSurface) :
    List KFileInfo → Int → Int → List ChildTile
  | [], _, _ => []
  | c :: rest, offset, remaining =>
    let childSize0 : Int :=
      truncate ((c.totalSize : ℚ) / (sum : ℚ) * (primary : ℚ) + 1 / 2)
    let childSize : Int := if childSize0 > remaining then remaining else childSize0
    let remaining1 := remaining - childSize
    if childSize ≥ view.minTileSize then
      let childRect : Rect :=
        if dir = KTreemapHorizontal then ⟨rect.x + offset, rect.y, childSize, secondary⟩
        else ⟨rect.x, rect.y + offset, secondary, childSize⟩
      let tile : ChildTile :=
        ⟨c, childRect, defaultOrientation, rowCushionSurface, dir,
          rowCushionSurface.height * view.heightScaleFactor⟩
      tile :: layoutRowLoop view dir rect secondary sum primary rowCushionSurface rest
        (offset + childSize) remaining1
    else
      layoutRowLoop view dir rect secondary sum primary rowCushionSurface rest
        offset remaining1

/-- The secondary extent `(int)(sum * scale / primary)` of a row, with the
product and the quotient computed exactly; `Ieee.rowSecondary` rounds them and
treats `primary = 0`. -/
def rowSecondary (rect : Rect) (scale : ℚ) (row : List KFileInfo) : Int :=
  truncate (((row.map KFileInfo.totalSize).sum : ℚ) * scale /
    ((max rect.width rect.height : Int) : ℚ))

/-- The method `layoutRow`: the tiles created for `row` and the rectangle
returned. (`primary` is non-zero whenever `squarify` returned a non-empty
row.) -/
def layoutRow (view : KTreemapView) (surface : KCushionSurface) (rect : Rect)
    (scale : ℚ) (row : List KFileInfo) : List ChildTile × Rect :=
  if row.isEmpty then ([], rect)
  else
    let dir : KOrientation :=
      if rect.width > rect.height then KTreemapHorizontal else KTreemapVertical
    let primary : Int := max rect.width rect.height
    let sum : Nat := (row.map KFileInfo.totalSize).sum
    let secondary : Int := rowSecondary rect scale row
    if sum = 0 then ([], rect)
    else if secondary < view.minTileSize then ([], rect)
    else
      let rowCushionSurface :=
        surface.addRidge
          (if dir = KTreemapHorizontal then KTreemapVertical else KTreemapHorizontal)
          (surface.height * view.heightScaleFactor) rect
      let tiles :=
        layoutRowLoop view dir rect secondary sum primary rowCushionSurface row 0 primary
      let newRect : Rect :=
        if dir = KTreemapHorizontal then
          ⟨rect.x, rect.y + secondary, rect.width, rect.height - secondary⟩
        else ⟨rect.x + secondary, rect.y, rect.width - secondary, rect.height⟩
      (tiles, newRect)

/-- One turn of the `while` loop of `createSquarifiedChildren`: the row that
`squarify` built on `rect` and the tiles `layoutRow` created for it. -/
structure RowLayout where
  rect : Rect
  row : List KFileInfo
  tiles : List ChildTile

theorem squarifyLoop_length (length : Int) (scale : ℚ) (it : List KFileInfo) :
    ∀ (row : List KFileInfo) (sum : ℚ) (lastWorst : AspectValue),
      (squarifyLoop length scale row sum lastWorst it).1.length +
        (squarifyLoop length scale row sum lastWorst it).2.length = row.length + it.length ∧
      row.length ≤ (squarifyLoop length scale row sum lastWorst it).1.length := by
  induction it with
  | nil => intro row sum lastWorst; simp [squarifyLoop]
  | cons c rest ih =>
    intro row sum lastWorst
    cases row with
    | nil =>
      have h := ih [c] (sum + (c.totalSize : ℚ)) lastWorst
      simp only [squarifyLoop, List.nil_append]
      simp only [List.length_cons, List.length_nil] at h ⊢
      omega
    | cons first tl =>
      simp only [squarifyLoop]
      split
      · split
        · simp
        · have h := ih (first :: tl ++ [c]) (sum + (c.totalSize : ℚ))
            (worstAspectRatio length scale first.totalSize (sum + (c.totalSize : ℚ))
              c.totalSize)
          simp only [List.length_cons, List.length_append, List.length_nil] at h ⊢
          omega
      · have h := ih (first :: tl ++ [c]) (sum + (c.totalSize : ℚ)) lastWorst
        simp only [List.length_cons, List.length_append, List.length_nil] at h ⊢
        omega

theorem squarify_snd_length_lt (rect : Rect) (scale : ℚ) (c : KFileInfo)
    (rest : List KFileInfo) :
    (squarify rect scale (c :: rest)).2.length < (c :: rest).length := by
  unfold squarify
  simp only
  split
  · simp
  · have h := squarifyLoop_length (max rect.width rect.height) scale rest [c]
      (0 + (c.totalSize : ℚ)) (AspectValue.fin (-1))
    simp only [squarifyLoop, List.nil_append]
    simp only [List.length_cons, List.length_nil] at h ⊢
    omega

/-- The `while (it != sorted.end())` loop of `createSquarifiedChildren`, from
the state `childrenRect = rect`, `it = [it, end)`. -/
def squarifiedRows (view : KTreemapView) (surface : KCushionSurface) (scale : ℚ) :
    Rect → List KFileInfo → List RowLayout
  | _, [] => []
  | rect, c :: rest =>
    let r := squarify rect scale (c :: rest)
    let l := layoutRow view surface rect scale r.1
    ⟨rect, r.1, l.1⟩ :: squarifiedRows view surface scale l.2 r.2
termination_by _ it => it.length
decreasing_by exact squarify_snd_length_lt _ _ _ _

/-- The method `createSquarifiedChildren`. -/
def createSquarifiedChildren (p : Platform) (view : KTreemapView) (orig : KFileInfo)
    (surface : KCushionSurface) (rect : Rect) : Children :=
  if orig.totalSize = 0 then ⟨surface, []⟩
  else
    let scale : ℚ := (rect.width : ℚ) * (rect.height : ℚ) / (orig.totalSize : ℚ)
    let minSize : Int := minSizeFor p view.minTileSize scale
    let sorted := sortedChildBySize p orig minSize
    ⟨surface, ((squarifiedRows view surface scale rect sorted).map RowLayout.tiles).flatten⟩

/-- The rows committed by `createSquarifiedChildren` (for a node with
`totalSize() != 0`), one per turn of its `while` loop. -/
def createSquarifiedRows (p : Platform) (view : KTreemapView) (orig : KFileInfo)
    (surface : KCushionSurface) (rect : Rect) : List RowLayout :=
  let scale : ℚ := (rect.width : ℚ) * (rect.height : ℚ) / (orig.totalSize : ℚ)
  squarifiedRows view surface scale rect
    (sortedChildBySize p orig (minSizeFor p view.minTileSize scale))

/-- The method `createChildren`; `none` stands for an `assert` failure. -/
def createChildren (p : Platform) (view : KTreemapView) (orig : KFileInfo)
    (surface : KCushionSurface) (rect : Rect) (orientation : KOrientation) :
    Option Children :=
  if orig.totalSize = 0 then some ⟨surface, []⟩
  else if view.squarify then some (createSquarifiedChildren p view orig surface rect)
  else createChildrenSimple p view orig surface rect orientation

/-! ## Vocabulary of the claims about the simple strategy -/

/-- Extent of a rectangle along the direction `dir`: the width for
`KTreemapHorizontal`, the height otherwise. -/
def primaryExtent (dir : KOrientation) (r : Rect) : Int :=
  if dir = KTreemapHorizontal then r.width else r.height

/-- Extent of a rectangle across the direction `dir`. -/
def secondaryExtent (dir : KOrientation) (r : Rect) : Int :=
  if dir = KTreemapHorizontal then r.height else r.width

/-- Offset of the rectangle `r` inside `parent` along the direction `dir`. -/
def primaryOffset (dir : KOrientation) (parent r : Rect) : Int :=
  if dir = KTreemapHorizontal then r.x - parent.x else r.y - parent.y

/-- The variable `scale` of `createChildrenSimple`. -/
def simpleScale (orig : KFileInfo) (rect : Rect) (orientation : KOrientation) : ℚ :=
  ((primaryExtent (simpleDir rect orientation) rect : Int) : ℚ) / (orig.totalSize : ℚ)

/-- Rounding to the nearest integer (halves upward). -/
def roundNearest (q : ℚ) : Int := ⌊q + 1 / 2⌋

/-! ## Aspect ratios -/

/-- Aspect ratio `max(w, h) / min(w, h)` of a rectangle. -/
def aspectRatio (r : Rect) : ℚ :=
  ((max r.width r.height : Int) : ℚ) / ((min r.width r.height : Int) : ℚ)

/-- Largest aspect ratio among the rectangles of a list of tiles (0 for no
tile). -/
def maxAspectRatio (tiles : List ChildTile) : ℚ :=
  (tiles.map (fun t => aspectRatio t.rect)).foldr max 0

/-! ## Worst aspect ratio of a row -/

/-- The value `worstAspectRatio` that `squarify` computes for the candidate row
`row` (its first member, its sum, its last member); -1, the initial value of
`lastWorstAspectRatio`, for the empty row. -/
def rowWorst (length : Int) (scale : ℚ) (row : List KFileInfo) : AspectValue :=
  match row.head?, row.getLast? with
  | some first, some last =>
    worstAspectRatio length scale first.totalSize
      (((row.map KFileInfo.totalSize).sum : Nat) : ℚ) last.totalSize
  | _, _ => AspectValue.fin (-1)

/-- Unrounded thickness `scale * sum / L` of a row of weight `sum` laid along a
side of length `L`. -/
def rowThickness (scale sum L : ℚ) : ℚ := scale * sum / L

/-- Unrounded length `weight * L / sum` of a member of the row. -/
def memberLength (weight sum L : ℚ) : ℚ := weight * L / sum

/-- Aspect ratio `max(len/thick, thick/len)` of a member of the row. -/
def memberAspect (scale sum L weight : ℚ) : ℚ :=
  max (memberLength weight sum L / rowThickness scale sum L)
    (rowThickness scale sum L / memberLength weight sum L)

/-- Maximum of the members' aspect ratios over the row. -/
def trueWorstAspect (scale L : ℚ) (row : List KFileInfo) : ℚ :=
  (row.map (fun c => memberAspect scale (((row.map KFileInfo.totalSize).sum : Nat) : ℚ) L
    (c.totalSize : ℚ))).foldr max 0

/-- A node of weight 11 with children of weights 3, 2, 2, 2, 2. -/
def narrowRowNode : KFileInfo :=
  .mk 0 11 [.leaf 1 3, .leaf 2 2, .leaf 3 2, .leaf 4 2, .leaf 5 2] none

/-! ## Images and colours -/

/-- The Qt function `qRed`: bits 16..23 of a `QRgb`. -/
def qRed (rgb : Nat) : Int := ((rgb / 65536 % 256 : Nat) : Int)

/-- The Qt function `qGreen`: bits 8..15 of a `QRgb`. -/
def qGreen (rgb : Nat) : Int := ((rgb / 256 % 256 : Nat) : Int)

/-- The Qt function `qBlue`: bits 0..7 of a `QRgb`. -/
def qBlue (rgb : Nat) : Int := ((rgb % 256 : Nat) : Int)

/-- The Qt function `qRgb(r, g, b)`:
`0xff000000 | (r & 0xff) << 16 | (g & 0xff) << 8 | (b & 0xff)`. -/
def qRgb (r g b : Int) : Nat :=
  4278190080 + (r % 256).toNat * 65536 + (g % 256).toNat * 256 + (b % 256).toNat

/-- The Qt function `qGray(rgb)`: `(r * 11 + g * 16 + b * 5) / 32`. -/
def qGray (rgb : Nat) : Int := (qRed rgb * 11 + qGreen rgb * 16 + qBlue rgb * 5) / 32

/-- The method `KTreemapTile::contrastingColor`. -/
def contrastingColor (col : Nat) : Nat :=
  if qGray col < 128 then qRgb (qRed col * 2) (qGreen col * 2) (qBlue col * 2)
  else qRgb (qRed col / 2) (qGreen col / 2) (qBlue col / 2)

/-- A `QImage` of format RGB32: its size and the value of `pixel(x, y)`. -/
structure QImage where
  width : Nat
  height : Nat
  pixel : Nat → Nat → Nat

/-- The method `QImage::setPixel`; coordinates outside the image are ignored. -/
def QImage.setPixel (image : QImage) (x y : Nat) (value : Nat) : QImage :=
  if x < image.width ∧ y < image.height then
    { image with pixel := fun a b => if a = x ∧ b = y then value else image.pixel a b }
  else image

/-- The sampling loops of `ensureContrast`,
`for (int y = interval; y < limit; y += interval) if (same(y)) sameColorCount++;`,
from the position `y` with `sameColorCount = count`; `fuel` bounds the number
of turns. -/
def countSameSamples (same : Nat → Bool) (interval limit : Nat) : Nat → Nat → Nat → Nat
  | 0, _, count => count
  | fuel + 1, y, count =>
    if y < limit then
      countSameSamples same interval limit fuel (y + interval)
        (if same y then count + 1 else count)
    else count

/-- The loop `for (int y = 0; y < image.height(); y++) image.setPixel(x, y, val);`. -/
def fillColumn (image : QImage) (x : Nat) (value : Nat) : QImage :=
  (List.range image.height).foldl (fun img y => img.setPixel x y value) image

/-- The loop `for (int x = 0; x < image.width(); x++) image.setPixel(x, y, val);`. -/
def fillRow (image : QImage) (y : Nat) (value : Nat) : QImage :=
  (List.range image.width).foldl (fun img x => img.setPixel x y value) image

/-- The right-boundary block of `ensureContrast`. The samples are at most
`image.height()` many, since `interval >= 5`. -/
def ensureContrastRight (image : QImage) : QImage :=
  if image.width > 5 then
    let x1 := image.width - 6
    let x2 := image.width - 1
    let interval := max (image.height / 10) 5
    let sameColorCount :=
      countSameSamples (fun y => image.pixel x1 y == image.pixel x2 y) interval
        image.height image.height interval 0
    if sameColorCount * 10 > image.height then
      fillColumn image x2 (contrastingColor (image.pixel x2 (image.height / 2)))
    else image
  else image

/-- The bottom-boundary block of `ensureContrast`; the count is compared with
`image.height()` here as well. -/
def ensureContrastBottom (image : QImage) : QImage :=
  if image.height > 5 then
    let y1 := image.height - 6
    let y2 := image.height - 1
    let interval := max (image.width / 10) 5
    let sameColorCount :=
      countSameSamples (fun x => image.pixel x y1 == image.pixel x y2) interval
        image.width image.width interval 0
    if sameColorCount * 10 > image.height then
      fillRow image y2 (contrastingColor (image.pixel (image.width / 2) y2))
    else image
  else image

/-- The method `KTreemapTile::ensureContrast`: the right boundary first, then
the bottom boundary on the image as the first block left it. -/
def ensureContrast (image : QImage) : QImage :=
  ensureContrastBottom (ensureContrastRight image)

/-! ## Cushion shading of one pixel -/

mutual
/-- Height of the tree of `KFileInfo` objects below a node (1 for a node
without children and dot entry). -/
def KFileInfo.depth : KFileInfo → Nat
  | .mk _ _ cs d => 1 + max (KFileInfo.depthList cs) (KFileInfo.depthOption d)
/-- Largest height among a list of nodes. -/
def KFileInfo.depthList : List KFileInfo → Nat
  | [] => 0
  | c :: cs => max (KFileInfo.depth c) (KFileInfo.depthList cs)
/-- Height of an optional node. -/
def KFileInfo.depthOption : Option KFileInfo → Nat
  | none => 0
  | some d => KFileInfo.depth d
end

/-- A constructed `KTreemapTile`: its node, its rectangle, its cushion surface
and its child tiles, in the order of construction. -/
inductive KTreemapTile where
  | mk (orig : KFileInfo) (rect : Rect) (cushionSurface : KCushionSurface)
      (children : List KTreemapTile)

namespace KTreemapTile

/-- The member `_orig`. -/
def orig : KTreemapTile → KFileInfo
  | mk o _ _ _ => o

/-- The rectangle of the tile. -/
def rect : KTreemapTile → Rect
  | mk _ r _ _ => r

/-- The member `_cushionSurface`. -/
def cushionSurface : KTreemapTile → KCushionSurface
  | mk _ _ s _ => s

/-- The child tiles. -/
def children : KTreemapTile → List KTreemapTile
  | mk _ _ _ c => c

/-- The call `tile->cushionSurface().addRidge(dim, height, rect)` a parent makes
on a tile it has constructed. -/
def addRidge (t : KTreemapTile) (dim : KOrientation) (height : ℚ) (rect : Rect) :
    KTreemapTile :=
  mk t.orig t.rect (t.cushionSurface.addRidge dim height rect) t.children

end KTreemapTile

/-- All values of a list of optional values, if none is missing. -/
def allSome {α : Type} : List (Option α) → Option (List α)
  | [] => some []
  | none :: _ => none
  | some a :: rest => (allSome rest).map (fun l => a :: l)

/-- The constructors of `KTreemapTile`, both of which set the tile's surface
(`seed`: the parent's surface, or the surface passed in) and then call
`createChildren(rect, orientation)`; every child tile is constructed in turn,
with its whole subtree, and only then receives the parent's ridge. The result
is `none` when an `assert` fails somewhere in the subtree. `fuel` bounds the
nesting of constructor calls. -/
def KTreemapTile.construct (p : Platform) (view : KTreemapView) :
    Nat → KFileInfo → Rect → KCushionSurface → KOrientation → Option KTreemapTile
  | 0, orig, rect, seed, _ => some (KTreemapTile.mk orig rect seed [])
  | fuel + 1, orig, rect, seed, orientation =>
    match createChildren p view orig seed rect orientation with
    | none => none
    | some ch =>
      (allSome (ch.tiles.map (fun t =>
        (KTreemapTile.construct p view fuel t.orig t.rect t.seed t.orientation).map
          (fun tile => tile.addRidge t.ridgeDir t.ridgeHeight t.rect)))).map
        (fun children => KTreemapTile.mk orig rect ch.surface children)

/-- The tile tree built for the node `orig` in `rect`, starting from the
surface `seed` (for the root tile: the default surface, of height
`CushionHeight`). The nesting of constructor calls is the height of the tree
below `orig`. -/
def KTreemapTile.build (p : Platform) (view : KTreemapView) (orig : KFileInfo) (rect : Rect)
    (seed : KCushionSurface) (orientation : KOrientation) : Option KTreemapTile :=
  KTreemapTile.construct p view orig.depth orig rect seed orientation

/-- The tile `x` is `d` levels below the tile `t` in its tree (`d = 0`: `t`
itself). -/
inductive KTreemapTile.AtDepth : KTreemapTile → Nat → KTreemapTile → Prop
  | self (t : KTreemapTile) : KTreemapTile.AtDepth t 0 t
  | under {t c x : KTreemapTile} {d : Nat} :
      c ∈ t.children → KTreemapTile.AtDepth c d x → KTreemapTile.AtDepth t (d + 1) x

/-- A chain of three nodes of weight 4: root, child, grandchild. -/
def chainNode : KFileInfo := .mk 0 4 [.mk 1 4 [.leaf 2 4] none] none

/-! ## The sample counts of ensureContrast -/

/-- The value of `sameColorCount` after the sampling loop of the
right-boundary block of `ensureContrast`. -/
def rightSameColorCount (image : QImage) : Nat :=
  countSameSamples
    (fun y => image.pixel (image.width - 6) y == image.pixel (image.width - 1) y)
    (max (image.height / 10) 5) image.height image.height (max (image.height / 10) 5) 0

/-- The number of sample pairs the sampling loop of the right-boundary block
compares (its number of turns). -/
def rightSampleCount (image : QImage) : Nat :=
  countSameSamples (fun _ => true)
    (max (image.height / 10) 5) image.height image.height (max (image.height / 10) 5) 0

/-- The value of `sameColorCount` after the sampling loop of the
bottom-boundary block of `ensureContrast`. -/
def bottomSameColorCount (image : QImage) : Nat :=
  countSameSamples
    (fun x => image.pixel x (image.height - 6) == image.pixel x (image.height - 1))
    (max (image.width / 10) 5) image.width image.width (max (image.width / 10) 5) 0

/-- The number of sample pairs the sampling loop of the bottom-boundary block
compares. -/
def bottomSampleCount (image : QImage) : Nat :=
  countSameSamples (fun _ => true)
    (max (image.width / 10) 5) image.width image.width (max (image.width / 10) 5) 0

/-- An image 6 wide and 100 high in which every pixel is the grey
`0xff808080`. -/
def uniformImage : QImage := ⟨6, 100, fun _ _ => 4286611584⟩

/-- The contrast rule applied to one channel by itself: `c * 2` when `c < 128`,
`c / 2` otherwise. -/
def perChannelContrast (c : Int) : Int := if c < 128 then c * 2 else c / 2

/-- A node of weight 10 with children of weights 7 and 3. -/
def thresholdNode : KFileInfo := .mk 0 10 [.leaf 1 7, .leaf 2 3] none

/-! ## Sizes in the cache file (`src/src/kdirtreecache.cpp`)

Strings are lists of characters. In this section `KFileSize` is a 64-bit
`long long`: `strtoll` clamps to its range, and the products of the reader are
reduced to that range. -/

/-- The macro `KB`. -/
def KB : Int := 1024

/-- The macro `MB`. -/
def MB : Int := 1024 * 1024

/-- The macro `GB`. -/
def GB : Int := 1024 * 1024 * 1024

/-- The constant `LLONG_MAX`. -/
def LLONG_MAX : Int := 9223372036854775807

/-- The constant `LLONG_MIN`. -/
def LLONG_MIN : Int := -9223372036854775808

/-- Reduction of an integer to the range of `long long` (two's complement). -/
def wrapLongLong (z : Int) : Int :=
  (z + 9223372036854775808) % 18446744073709551616 - 9223372036854775808

/-- Decimal digits of a natural number, most significant first. -/
def decimalDigits (n : Nat) : List Char :=
  if n < 10 then [Nat.digitChar n]
  else decimalDigits (n / 10) ++ [Nat.digitChar (n % 10)]
termination_by n
decreasing_by omega

/-- The conversion `%lld` of `sprintf`. -/
def formatLongLong (v : Int) : List Char :=
  if v < 0 then '-' :: decimalDigits v.natAbs else decimalDigits v.toNat

/-- The method `KCacheWriter::formatSize`; `/` and `%` of C++ round toward
zero. -/
def KCacheWriter.formatSize (size : Int) : List Char :=
  if size ≥ GB ∧ size.tmod GB = 0 then formatLongLong (size.tdiv GB) ++ ['G']
  else if size ≥ MB ∧ size.tmod MB = 0 then formatLongLong (size.tdiv MB) ++ ['M']
  else if size ≥ KB ∧ size.tmod KB = 0 then formatLongLong (size.tdiv KB) ++ ['K']
  else formatLongLong size

/-- The C function `isspace` (in the "C" locale): space, and the characters
9 to 13. -/
def isspace (c : Char) : Bool := c.toNat = 32 || (9 ≤ c.toNat && c.toNat ≤ 13)

/-- The C function `isdigit`. -/
def isdigit (c : Char) : Bool := 48 ≤ c.toNat && c.toNat ≤ 57

/-- The digit loop of `strtoll` in base 10: the value of the longest run of
digits at the start of the string, continued from `acc`, and the rest of the
string. -/
def strtollDigits : List Char → Nat → Nat × List Char
  | [], acc => (acc, [])
  | c :: rest, acc =>
    if isdigit c then strtollDigits rest (acc * 10 + (c.toNat - 48))
    else (acc, c :: rest)

/-- The C function `strtoll(str, &end, 10)`: the value and the string at `end`.
White space is skipped, one sign is accepted, the digits are converted; a
value outside the range of `long long` is replaced by `LLONG_MAX` or
`LLONG_MIN`; without a digit the value is 0 and `end` is `str`. -/
def strtoll (str : List Char) : Int × List Char :=
  let s1 := str.dropWhile isspace
  let negative : Bool := decide (s1.head? = some '-')
  let s2 := if s1.head? = some '-' ∨ s1.head? = some '+' then s1.tail else s1
  if s2.head?.map isdigit = some true then
    let r := strtollDigits s2 0
    let v : Int := if negative then -(r.1 : Int) else (r.1 : Int)
    (if v > LLONG_MAX then LLONG_MAX else if v < LLONG_MIN then LLONG_MIN else v, r.2)
  else (0, str)

/-- The size part of `KCacheReader::addItem`: `strtoll` and the `switch` on the
character at `end` (the end of the string stands for the terminating zero). -/
def KCacheReader.parseSize (size_str : List Char) : Int :=
  let r := strtoll size_str
  if r.2.head? = some 'K' then wrapLongLong (r.1 * KB)
  else if r.2.head? = some 'M' then wrapLongLong (r.1 * MB)
  else if r.2.head? = some 'G' then wrapLongLong (r.1 * GB)
  else r.1

/-! ## Double arithmetic

The results of the operations on `double` values: IEEE 754 binary64, rounding
to nearest, ties to even. The exponent range is not limited (no overflow to
infinity and no subnormal numbers): the quotients and products of the layout
code, formed from `int` and `long long` values, stay far inside the range. -/

/-- Rounding of a rational number to the nearest integer, ties to the even
integer. -/
def roundTiesEven (q : ℚ) : Int :=
  if q - (⌊q⌋ : ℚ) < 1 / 2 then ⌊q⌋
  else if 1 / 2 < q - (⌊q⌋ : ℚ) then ⌊q⌋ + 1
  else if ⌊q⌋ % 2 = 0 then ⌊q⌋ else ⌊q⌋ + 1

/-- The `double` nearest to the real number `q`: a multiple of `2 ^ (e - 52)`
for the `e` with `2 ^ e <= |q| < 2 ^ (e + 1)`, i.e. 53 significant bits. -/
def roundDouble (q : ℚ) : ℚ :=
  if q = 0 then 0
  else (roundTiesEven (q / (2 : ℚ) ^ (Int.log 2 |q| - 52)) : ℚ) *
    (2 : ℚ) ^ (Int.log 2 |q| - 52)

/-! ## The layout in double arithmetic

The geometry of the two layout strategies with every `double` operation of the
source rounded (`roundDouble`), one operation at a time (no fused
multiply-add). The functions return the node and the rectangle of each tile
constructed, in order; the cushion surfaces, which do not influence the
rectangles, are left out here. -/

namespace Ieee

/-- Conversion of an `int` or a `KFileSize` to `double`. -/
def toDouble (n : Int) : ℚ := roundDouble (n : ℚ)

/-- The variable `scale` of `createChildrenSimple`:
`(double)size / (double)_orig->totalSize()`. -/
def simpleScale (orig : KFileInfo) (rect : Rect) (orientation : KOrientation) : ℚ :=
  roundDouble (toDouble (primaryExtent (simpleDir rect orientation) rect) /
    toDouble (orig.totalSize : Int))

/-- The `KFileSize` value of `minTileSize / scale` (int divided by double,
converted to `KFileSize`). -/
def minSizeFor (p : Platform) (minTileSize : Int) (scale : ℚ) : Int :=
  if scale = 0 then p.divZeroToSize minTileSize
  else truncate (roundDouble (toDouble minTileSize / scale))

/-- The value of `int childSize = scale * sorted[i]->totalSize();`. -/
def simpleChildSize (scale : ℚ) (c : KFileInfo) : Int :=
  truncate (roundDouble (scale * toDouble (c.totalSize : Int)))

/-- The `for` loop of `createChildrenSimple` over `sorted`, starting at
`offset`. The result is `none` when the `assert` fails (unless `NDEBUG`). -/
def createChildrenSimpleLoop (p : Platform) (view : KTreemapView) (dir : KOrientation)
    (rect : Rect) (scale : ℚ) : List KFileInfo → Int → Option (List (KFileInfo × Rect))
  | [], _ => some []
  | c :: rest, offset =>
    let childSize : Int := simpleChildSize scale c
    if !p.ndebug && decide (childSize < view.minTileSize) then none
    else
      let childRect : Rect :=
        if dir = KTreemapHorizontal then ⟨rect.x + offset, rect.y, childSize, rect.height⟩
        else ⟨rect.x, rect.y + offset, rect.width, childSize⟩
      (createChildrenSimpleLoop p view dir rect scale rest (offset + childSize)).map
        (fun ts => (c, childRect) :: ts)

/-- The method `createChildrenSimple` (reached from `createChildren` only with
`totalSize() != 0`). -/
def createChildrenSimple (p : Platform) (view : KTreemapView) (orig : KFileInfo)
    (rect : Rect) (orientation : KOrientation) : Option (List (KFileInfo × Rect)) :=
  let dir := simpleDir rect orientation
  let scale : ℚ := simpleScale orig rect orientation
  let sorted := sortedChildBySize p orig (minSizeFor p view.minTileSize scale)
  createChildrenSimpleLoop p view dir rect scale sorted 0

/-- Sum of the extents the simple strategy gives to the members of `l`. -/
def simpleExtent (scale : ℚ) (l : List KFileInfo) : Int :=
  (l.map (simpleChildSize scale)).sum

end Ieee

/-- A node of weight 7 with one child of weight 7. -/
def singleChildNode : KFileInfo := .mk 0 7 [.leaf 1 7] none

namespace Ieee

/-- The value of `(int)(it->totalSize() / (double)sum * primary + 0.5)` in
`layoutRow`, before the clamp against `remaining`. -/
def rowChildSize (sum : Nat) (primary : Int) (c : KFileInfo) : Int :=
  truncate (roundDouble (roundDouble (roundDouble
    (toDouble (c.totalSize : Int) / toDouble (sum : Int)) * toDouble primary) + 1 / 2))

/-- The values `childSize` which the `foreach` loop of `layoutRow` computes for
the members of the row, in order (after the clamp against `remaining`),
started with `remaining`. -/
def layoutRowSizes (sum : Nat) (primary : Int) : List KFileInfo → Int → List Int
  | [], _ => []
  | c :: rest, remaining =>
    let childSize0 : Int := rowChildSize sum primary c
    let childSize : Int := if childSize0 > remaining then remaining else childSize0
    childSize :: layoutRowSizes sum primary rest (remaining - childSize)

/-- The `foreach` loop of `layoutRow`, with the current `offset` and
`remaining`. -/
def layoutRowLoop (view : KTreemapView) (dir : KOrientation) (rect : Rect)
    (secondary : Int) (sum : Nat) (primary : Int) :
    List KFileInfo → Int → Int → List (KFileInfo × Rect)
  | [], _, _ => []
  | c :: rest, offset, remaining =>
    let childSize0 : Int := rowChildSize sum primary c
    let childSize : Int := if childSize0 > remaining then remaining else childSize0
    let remaining1 := remaining - childSize
    if childSize ≥ view.minTileSize then
      let childRect : Rect :=
        if dir = KTreemapHorizontal then ⟨rect.x + offset, rect.y, childSize, secondary⟩
        else ⟨rect.x, rect.y + offset, secondary, childSize⟩
      (c, childRect) :: layoutRowLoop view dir rect secondary sum primary rest
        (offset + childSize) remaining1
    else
      layoutRowLoop view dir rect secondary sum primary rest offset remaining1

/-- The secondary extent `(int)(sum * scale / primary)` of a row. For
`primary = 0` the double is an infinity or a NaN and its conversion to `int` is
left to the platform (`divZeroToSize`); `createSquarifiedChildren` never gets
there, since `squarify` returns an empty row for such a rectangle. -/
def rowSecondary (p : Platform) (rect : Rect) (scale : ℚ) (row : List KFileInfo) : Int :=
  if max rect.width rect.height = 0 then
    p.divZeroToSize ((row.map KFileInfo.totalSize).sum : Nat)
  else
    truncate (roundDouble
      (roundDouble (toDouble (((row.map KFileInfo.totalSize).sum : Nat) : Int) * scale) /
        toDouble (max rect.width rect.height)))

/-- The method `layoutRow`: the tiles created for `row` and the rectangle
returned. -/
def layoutRow (p : Platform) (view : KTreemapView) (rect : Rect) (scale : ℚ)
    (row : List KFileInfo) : List (KFileInfo × Rect) × Rect :=
  if row.isEmpty then ([], rect)
  else
    let dir : KOrientation :=
      if rect.width > rect.height then KTreemapHorizontal else KTreemapVertical
    let primary : Int := max rect.width rect.height
    let sum : Nat := (row.map KFileInfo.totalSize).sum
    let secondary : Int := rowSecondary p rect scale row
    if sum = 0 then ([], rect)
    else if secondary < view.minTileSize then ([], rect)
    else
      let tiles := layoutRowLoop view dir rect secondary sum primary row 0 primary
      let newRect : Rect :=
        if dir = KTreemapHorizontal then
          ⟨rect.x, rect.y + secondary, rect.width, rect.height - secondary⟩
        else ⟨rect.x + secondary, rect.y, rect.width - secondary, rect.height⟩
      (tiles, newRect)

end Ieee

namespace Ieee

/-- The expression
`max(scaledLengthSquare * row[0]->totalSize() / sumSquare,
     sumSquare / (scaledLengthSquare * (*it)->totalSize()))`
with `scaledLengthSquare = length * (double)length / scale` and
`sumSquare = sum * sum`, evaluated where the source evaluates it
(`length != 0`, `sum != 0` and `(*it)->totalSize() != 0`); `sum` is the double
accumulated by the loop. For `scale = 0` the double `scaledLengthSquare` is
`+inf`: the first operand is `+inf` (NaN when `row[0]->totalSize()` is 0), the
second is 0, and `std::max(a, b)`, which is `(a < b) ? b : a`, returns the
first. -/
def worstAspectRatio (length : Int) (scale : ℚ) (first : Nat) (sum : ℚ) (cur : Nat) :
    AspectValue :=
  if scale = 0 then (if first = 0 then AspectValue.nan else AspectValue.inf)
  else
    let scaledLengthSquare : ℚ :=
      roundDouble (roundDouble (toDouble length * toDouble length) / scale)
    let sumSquare : ℚ := roundDouble (sum * sum)
    AspectValue.fin (max
      (roundDouble (roundDouble (scaledLengthSquare * toDouble (first : Int)) / sumSquare))
      (roundDouble (sumSquare / roundDouble (scaledLengthSquare * toDouble (cur : Int)))))

/-- The `while` loop of `squarify`. State: the row built so far, the double
`sum`, `lastWorstAspectRatio`, and the range `[it, end)`. Returns the row and
the range left when the loop exits. -/
def squarifyLoop (length : Int) (scale : ℚ) :
    List KFileInfo → ℚ → AspectValue → List KFileInfo → List KFileInfo × List KFileInfo
  | row, _, _, [] => (row, [])
  | row, sum, lastWorst, c :: rest =>
    let sum1 : ℚ := roundDouble (sum + toDouble (c.totalSize : Int))
    match row with
    | first :: _ =>
      if sum1 ≠ 0 ∧ c.totalSize ≠ 0 then
        let worst := worstAspectRatio length scale first.totalSize sum1 c.totalSize
        if lastWorst.geZero && worst.gt lastWorst then (row, c :: rest)
        else squarifyLoop length scale (row ++ [c]) sum1 worst rest
      else squarifyLoop length scale (row ++ [c]) sum1 lastWorst rest
    | [] => squarifyLoop length scale (row ++ [c]) sum1 lastWorst rest

/-- The method `squarify`, called with an empty `row`: returns the row and the
new position of the iterator `it` (as the range `[it, end)`). -/
def squarify (rect : Rect) (scale : ℚ) (it : List KFileInfo) :
    List KFileInfo × List KFileInfo :=
  let length : Int := max rect.width rect.height
  if length = 0 then ([], it.tail)
  else squarifyLoop length scale [] 0 (AspectValue.fin (-1)) it

/-- The variable `scale` of `createSquarifiedChildren`:
`rect.width() * (double)rect.height() / _orig->totalSize()`. -/
def squarifiedScale (orig : KFileInfo) (rect : Rect) : ℚ :=
  roundDouble (roundDouble (toDouble rect.width * toDouble rect.height) /
    toDouble (orig.totalSize : Int))

/-- The double `sum` of `squarify` after the members of `row` have been added,
one by one. -/
def rowSum (row : List KFileInfo) : ℚ :=
  row.foldl (fun s c => roundDouble (s + toDouble (c.totalSize : Int))) 0

/-- The value `worstAspectRatio` that `squarify` computes for the candidate row
`row` (its first member, its accumulated sum, its last member); -1, the initial
value of `lastWorstAspectRatio`, for the empty row. -/
def rowWorst (length : Int) (scale : ℚ) (row : List KFileInfo) : AspectValue :=
  match row.head?, row.getLast? with
  | some first, some last =>
    worstAspectRatio length scale first.totalSize (rowSum row) last.totalSize
  | _, _ => AspectValue.fin (-1)

end Ieee

/-- A node of weight 20 with children of weights 5, 5, 5, 3, 1 and 1. -/
def tieRowNode : KFileInfo :=
  .mk 0 20 [.leaf 1 5, .leaf 2 5, .leaf 3 5, .leaf 4 3, .leaf 5 1, .leaf 6 1] none

/-! ## std::sort of libstdc++

The algorithm of `std::sort` in the GNU C++ library (`bits/stl_algo.h` and
`bits/stl_heap.h` of GCC 12), on a vector held as a list: iterators are
positions in the list. `comp` is the comparator, `d` stands in for a read
outside the vector, which the algorithm never makes. -/

namespace Libstdcxx

/-- The function `std::iter_swap`. -/
def iterSwap {α : Type} (d : α) (v : List α) (i j : Nat) : List α :=
  (v.set i (v.getD j d)).set j (v.getD i d)

/-- The function `__move_median_to_first(result, a, b, c, comp)`. -/
def moveMedianToFirst {α : Type} (comp : α → α → Bool) (d : α) (v : List α)
    (result a b c : Nat) : List α :=
  if comp (v.getD a d) (v.getD b d) then
    if comp (v.getD b d) (v.getD c d) then iterSwap d v result b
    else if comp (v.getD a d) (v.getD c d) then iterSwap d v result c
    else iterSwap d v result a
  else if comp (v.getD a d) (v.getD c d) then iterSwap d v result a
  else if comp (v.getD b d) (v.getD c d) then iterSwap d v result c
  else iterSwap d v result b

/-- The loop `while (comp(first, pivot)) ++first;` of `__unguarded_partition`;
`fuel` bounds the number of turns. -/
def scanUp {α : Type} (comp : α → α → Bool) (d : α) (v : List α) (pivot : Nat) :
    Nat → Nat → Nat
  | 0, first => first
  | fuel + 1, first =>
    if comp (v.getD first d) (v.getD pivot d) then scanUp comp d v pivot fuel (first + 1)
    else first

/-- The loop `while (comp(pivot, last)) --last;` of `__unguarded_partition`. -/
def scanDown {α : Type} (comp : α → α → Bool) (d : α) (v : List α) (pivot : Nat) :
    Nat → Nat → Nat
  | 0, last => last
  | fuel + 1, last =>
    if comp (v.getD pivot d) (v.getD last d) then scanDown comp d v pivot fuel (last - 1)
    else last

/-- The function `__unguarded_partition(first, last, pivot, comp)`: the vector
after the swaps and the position returned. -/
def unguardedPartition {α : Type} (comp : α → α → Bool) (d : α) (pivot : Nat) :
    Nat → List α → Nat → Nat → List α × Nat
  | 0, v, first, _ => (v, first)
  | fuel + 1, v, first, last =>
    let first1 := scanUp comp d v pivot v.length first
    let last1 := scanDown comp d v pivot v.length (last - 1)
    if first1 < last1 then
      unguardedPartition comp d pivot fuel (iterSwap d v first1 last1) (first1 + 1) last1
    else (v, first1)

/-- The function `__unguarded_partition_pivot(first, last, comp)`. -/
def unguardedPartitionPivot {α : Type} (comp : α → α → Bool) (d : α) (v : List α)
    (first last : Nat) : List α × Nat :=
  let mid := first + (last - first) / 2
  unguardedPartition comp d first v.length
    (moveMedianToFirst comp d v first (first + 1) mid (last - 1)) (first + 1) last

/-- The loop of `__push_heap(first, holeIndex, topIndex, value, comp)`. -/
def pushHeap {α : Type} (comp : α → α → Bool) (d : α) (first topIndex : Nat) (value : α) :
    Nat → List α → Nat → List α
  | 0, v, holeIndex => v.set (first + holeIndex) value
  | fuel + 1, v, holeIndex =>
    let parent := (holeIndex - 1) / 2
    if holeIndex > topIndex && comp (v.getD (first + parent) d) value then
      pushHeap comp d first topIndex value fuel
        (v.set (first + holeIndex) (v.getD (first + parent) d)) parent
    else v.set (first + holeIndex) value

/-- The first loop of `__adjust_heap`: the vector, `holeIndex` and
`secondChild` when it ends. -/
def adjustHeapLoop {α : Type} (comp : α → α → Bool) (d : α) (first len : Nat) :
    Nat → List α → Nat → Nat → List α × Nat × Nat
  | 0, v, holeIndex, secondChild => (v, holeIndex, secondChild)
  | fuel + 1, v, holeIndex, secondChild =>
    if secondChild < (len - 1) / 2 then
      let secondChild1 := 2 * (secondChild + 1)
      let secondChild2 :=
        if comp (v.getD (first + secondChild1) d) (v.getD (first + (secondChild1 - 1)) d)
        then secondChild1 - 1 else secondChild1
      adjustHeapLoop comp d first len fuel
        (v.set (first + holeIndex) (v.getD (first + secondChild2) d)) secondChild2 secondChild2
    else (v, holeIndex, secondChild)

/-- The function `__adjust_heap(first, holeIndex, len, value, comp)`. -/
def adjustHeap {α : Type} (comp : α → α → Bool) (d : α) (v : List α)
    (first holeIndex len : Nat) (value : α) : List α :=
  let r := adjustHeapLoop comp d first len v.length v holeIndex holeIndex
  let r2 : List α × Nat :=
    if len % 2 = 0 ∧ r.2.2 = (len - 2) / 2 then
      let secondChild := 2 * (r.2.2 + 1)
      (r.1.set (first + r.2.1) (r.1.getD (first + (secondChild - 1)) d), secondChild - 1)
    else (r.1, r.2.1)
  pushHeap comp d first holeIndex value v.length r2.1 r2.2

/-- The loop of `__make_heap`, from `parent` downward. -/
def makeHeapLoop {α : Type} (comp : α → α → Bool) (d : α) (first len : Nat) :
    Nat → List α → List α
  | 0, v => adjustHeap comp d v first 0 len (v.getD first d)
  | parent + 1, v =>
    makeHeapLoop comp d first len parent
      (adjustHeap comp d v first (parent + 1) len (v.getD (first + (parent + 1)) d))

/-- The function `__make_heap(first, last, comp)`. -/
def makeHeap {α : Type} (comp : α → α → Bool) (d : α) (v : List α) (first last : Nat) :
    List α :=
  if last - first < 2 then v
  else makeHeapLoop comp d first (last - first) ((last - first - 2) / 2) v

/-- The function `__pop_heap(first, last, result, comp)`. -/
def popHeap {α : Type} (comp : α → α → Bool) (d : α) (v : List α)
    (first last result : Nat) : List α :=
  adjustHeap comp d (v.set result (v.getD first d)) first 0 (last - first) (v.getD result d)

/-- The function `__sort_heap(first, last, comp)`. -/
def sortHeap {α : Type} (comp : α → α → Bool) (d : α) (first : Nat) :
    Nat → List α → Nat → List α
  | 0, v, _ => v
  | fuel + 1, v, last =>
    if last - first > 1 then
      sortHeap comp d first fuel (popHeap comp d v first (last - 1) (last - 1)) (last - 1)
    else v

/-- The function `__partial_sort(first, middle, last, comp)` as `__introsort_loop`
calls it, with `middle = last`: `__heap_select` is then `__make_heap` alone. -/
def partialSort {α : Type} (comp : α → α → Bool) (d : α) (v : List α) (first last : Nat) :
    List α :=
  sortHeap comp d first v.length (makeHeap comp d v first last) last

/-- The function `__introsort_loop(first, last, depth_limit, comp)`; every turn
of its loop lowers `depth_limit`. -/
def introsortLoop {α : Type} (comp : α → α → Bool) (d : α) :
    Nat → List α → Nat → Nat → List α
  | 0, v, first, last =>
    if last - first > 16 then partialSort comp d v first last else v
  | depthLimit + 1, v, first, last =>
    if last - first > 16 then
      let r := unguardedPartitionPivot comp d v first last
      introsortLoop comp d depthLimit (introsortLoop comp d depthLimit r.1 r.2 last) first r.2
    else v

/-- The loop of `__unguarded_linear_insert(last, comp)` for the value `val`. -/
def unguardedLinearInsertLoop {α : Type} (comp : α → α → Bool) (d : α) (val : α) :
    Nat → List α → Nat → List α
  | 0, v, last => v.set last val
  | fuel + 1, v, last =>
    if comp val (v.getD (last - 1) d) then
      unguardedLinearInsertLoop comp d val fuel (v.set last (v.getD (last - 1) d)) (last - 1)
    else v.set last val

/-- The function `__unguarded_linear_insert(last, comp)`. -/
def unguardedLinearInsert {α : Type} (comp : α → α → Bool) (d : α) (v : List α)
    (last : Nat) : List α :=
  unguardedLinearInsertLoop comp d (v.getD last d) v.length v last

/-- The statements `val = *i; move_backward(first, i, i + 1); *first = val;`. -/
def moveToFront {α : Type} (d : α) (v : List α) (first i : Nat) : List α :=
  ((List.range (i - first)).foldl (fun w k => w.set (i - k) (w.getD (i - k - 1) d)) v).set
    first (v.getD i d)

/-- The function `__insertion_sort(first, last, comp)`. -/
def insertionSort {α : Type} (comp : α → α → Bool) (d : α) (v : List α)
    (first last : Nat) : List α :=
  if first = last then v
  else
    (List.range (last - first - 1)).foldl
      (fun w k =>
        if comp (w.getD (first + 1 + k) d) (w.getD first d) then
          moveToFront d w first (first + 1 + k)
        else unguardedLinearInsert comp d w (first + 1 + k))
      v

/-- The function `__unguarded_insertion_sort(first, last, comp)`. -/
def unguardedInsertionSort {α : Type} (comp : α → α → Bool) (d : α) (v : List α)
    (first last : Nat) : List α :=
  (List.range (last - first)).foldl (fun w k => unguardedLinearInsert comp d w (first + k)) v

/-- The function `__final_insertion_sort(first, last, comp)`. -/
def finalInsertionSort {α : Type} (comp : α → α → Bool) (d : α) (v : List α)
    (first last : Nat) : List α :=
  if last - first > 16 then
    unguardedInsertionSort comp d (insertionSort comp d v first (first + 16)) (first + 16) last
  else insertionSort comp d v first last

/-- The loop of `std::__lg`. -/
def lgLoop : Nat → Nat → Nat
  | 0, _ => 0
  | fuel + 1, n => if n < 2 then 0 else lgLoop fuel (n / 2) + 1

/-- The function `std::__lg(n)`: the position of the highest bit of `n`. -/
def lg (n : Nat) : Nat := lgLoop n n

/-- The function `std::sort(v.begin(), v.end(), comp)` on the vector `v`:
`__introsort_loop` with the depth limit `2 * __lg(n)` and then
`__final_insertion_sort`. -/
def sort {α : Type} (comp : α → α → Bool) (v : List α) : List α :=
  match v with
  | [] => []
  | d :: _ =>
    finalInsertionSort comp d
      (introsortLoop comp d (lg v.length * 2) v 0 v.length) 0 v.length

end Libstdcxx

/-- A build with GCC 12 and libstdc++ for x86-64, with `NDEBUG`: the conversion
of an infinity or a NaN to `KFileSize` gives `LLONG_MIN` there, and `std::sort`
is the algorithm of libstdc++. -/
def Platform.gcc : Platform :=
  ⟨true, fun _ => -9223372036854775808, Libstdcxx.sort childSizeComparator⟩

/-- A node of weight 17 with 17 children of weight 1, numbered 1 to 17 in index
order. -/
def equalChildrenNode : KFileInfo :=
  .mk 0 17 [.leaf 1 1, .leaf 2 1, .leaf 3 1, .leaf 4 1, .leaf 5 1, .leaf 6 1, .leaf 7 1,
    .leaf 8 1, .leaf 9 1, .leaf 10 1, .leaf 11 1, .leaf 12 1, .leaf 13 1, .leaf 14 1,
    .leaf 15 1, .leaf 16 1, .leaf 17 1] none

/-! ## The sort contract -/

theorem stableSort_perm (l : List KFileInfo) : (stableSort l).Perm l :=
  List.perm_insertionSort _ l

theorem stableSort_pairwise (l : List KFileInfo) :
    (stableSort l).Pairwise (fun a b => childSizeComparator b a = false) := by
  have h : List.Sorted (fun a b : KFileInfo => b.totalSize ≤ a.totalSize) (stableSort l) := by
    haveI : IsTotal KFileInfo (fun a b => b.totalSize ≤ a.totalSize) :=
      ⟨fun a b => Nat.le_total b.totalSize a.totalSize⟩
    haveI : IsTrans KFileInfo (fun a b => b.totalSize ≤ a.totalSize) :=
      ⟨fun a b c hab hbc => Nat.le_trans hbc hab⟩
    exact List.sorted_insertionSort _ l
  refine List.Pairwise.imp ?_ h
  intro a b hab
  simp [childSizeComparator, hab]

theorem debug_sortConforms : Platform.debug.SortConforms :=
  fun l => ⟨stableSort_perm l, stableSort_pairwise l⟩

theorem release_sortConforms : Platform.release.SortConforms :=
  fun l => ⟨stableSort_perm l, stableSort_pairwise l⟩

/-- A conforming sort returns a strictly descending input unchanged. -/
theorem stdSort_of_strictly_descending (p : Platform) (hp : p.SortConforms)
    (l : List KFileInfo) (hl : l.Pairwise (fun a b => b.totalSize < a.totalSize)) :
    p.stdSort l = l := by
  obtain ⟨hperm, hsorted⟩ := hp l
  haveI : IsAntisymm KFileInfo (fun a b => b.totalSize < a.totalSize) :=
    ⟨fun a b hab hba => absurd hab (Nat.lt_asymm hba)⟩
  refine List.eq_of_perm_of_sorted hperm ?_ hl
  have hne : (p.stdSort l).Pairwise (fun a b => a.totalSize ≠ b.totalSize) := by
    refine hperm.symm.pairwise (hl.imp ?_) ?_
    · intro a b h; exact (Nat.ne_of_lt h).symm
    · intro a b h; exact h.symm
  refine (hsorted.and hne).imp ?_
  intro a b h
  obtain ⟨h1, h2⟩ := h
  simp [childSizeComparator] at h1
  omega

/-! ## C1: the worked example -/

theorem exampleRoot_sorted (p : Platform) (hp : p.SortConforms) :
    sortedChildBySize p exampleRoot 0 =
      [.leaf 1 50, .leaf 2 30, .leaf 3 15, .leaf 4 5] := by
  have hs : p.stdSort [.leaf 1 50, .leaf 2 30, .leaf 3 15, .leaf 4 5] =
      [.leaf 1 50, .leaf 2 30, .leaf 3 15, .leaf 4 5] := by
    apply stdSort_of_strictly_descending p hp
    simp [KFileInfo.leaf, KFileInfo.totalSize]
  have hc : sortCandidates exampleRoot 0 =
      [.leaf 1 50, .leaf 2 30, .leaf 3 15, .leaf 4 5] := by
    simp [sortCandidates, exampleRoot, KFileInfo.children, KFileInfo.dotEntry,
      KFileInfo.leaf, KFileInfo.totalSize]
  rw [sortedChildBySize, hc, hs]

theorem exampleRoot_rows (p : Platform) (hp : p.SortConforms) (view : KTreemapView)
    (hview : view.minTileSize = 1) (surface : KCushionSurface) :
    createSquarifiedRows p view exampleRoot surface ⟨0, 0, 100, 50⟩ =
      squarifiedRows view surface 50 ⟨0, 0, 100, 50⟩
        [.leaf 1 50, .leaf 2 30, .leaf 3 15, .leaf 4 5] := by
  have hscale : ((100 : Int) : ℚ) * ((50 : Int) : ℚ) / ((100 : Nat) : ℚ) = 50 := by norm_num
  have hmin : minSizeFor p 1 50 = 0 := by norm_num [minSizeFor, truncate]
  have hT : exampleRoot.totalSize = 100 := rfl
  simp only [createSquarifiedRows, hT, hscale, hview, hmin, exampleRoot_sorted p hp]

/-- C1: for the root of weight 100 with leaf children of weights 50, 30, 15, 5,
`minTileSize = 1`, squarify on and the rectangle 100x50 at the origin,
`createSquarifiedChildren` commits exactly two rows, `{50, 30}` then `{15, 5}`;
all four children receive a tile; every tile has width and height at least 1;
and each tile's area differs from `scale * weight = 50 * weight` by at most the
secondary extent of its row. -/
theorem squarified_example (p : Platform) (hp : p.SortConforms)
    (surface : KCushionSurface) (hsf : ℚ) (orientation : KOrientation) :
    (createSquarifiedRows p ⟨true, 1, hsf⟩ exampleRoot surface ⟨0, 0, 100, 50⟩).map
        (fun r => (r.row, r.tiles.map (fun t => (t.orig, t.rect)))) =
      [([.leaf 1 50, .leaf 2 30],
          [(.leaf 1 50, ⟨0, 0, 63, 40⟩), (.leaf 2 30, ⟨63, 0, 37, 40⟩)]),
        ([.leaf 3 15, .leaf 4 5],
          [(.leaf 3 15, ⟨0, 40, 75, 10⟩), (.leaf 4 5, ⟨75, 40, 25, 10⟩)])] ∧
    (createChildren p ⟨true, 1, hsf⟩ exampleRoot surface ⟨0, 0, 100, 50⟩ orientation).map
        (fun c => c.tiles.map (fun t => (t.orig, t.rect))) =
      some [(.leaf 1 50, ⟨0, 0, 63, 40⟩), (.leaf 2 30, ⟨63, 0, 37, 40⟩),
        (.leaf 3 15, ⟨0, 40, 75, 10⟩), (.leaf 4 5, ⟨75, 40, 25, 10⟩)] ∧
    (∀ r ∈ createSquarifiedRows p ⟨true, 1, hsf⟩ exampleRoot surface ⟨0, 0, 100, 50⟩,
      ∀ t ∈ r.tiles, 1 ≤ t.rect.width ∧ 1 ≤ t.rect.height ∧
        |(t.rect.area : ℚ) - 50 * (t.orig.totalSize : ℚ)| ≤
          (rowSecondary r.rect 50 r.row : ℚ)) := by
  have hrows := exampleRoot_rows p hp ⟨true, 1, hsf⟩ rfl surface
  refine ⟨?_, ?_, ?_⟩
  · rw [hrows]
    norm_num [squarifiedRows, squarify, squarifyLoop, worstAspectRatio, layoutRow,
      layoutRowLoop, rowSecondary, truncate, KFileInfo.totalSize, KFileInfo.leaf,
      AspectValue.geZero, AspectValue.gt]
  · have hscale : ((100 : Int) : ℚ) * ((50 : Int) : ℚ) / ((100 : Nat) : ℚ) = 50 := by
      norm_num
    have hmin : minSizeFor p 1 50 = 0 := by norm_num [minSizeFor, truncate]
    have hT : exampleRoot.totalSize = 100 := rfl
    simp only [createChildren, createSquarifiedChildren, hT, hscale, hmin,
      exampleRoot_sorted p hp]
    norm_num [squarifiedRows, squarify, squarifyLoop, worstAspectRatio, layoutRow,
      layoutRowLoop, rowSecondary, truncate, KFileInfo.totalSize, KFileInfo.leaf,
      AspectValue.geZero, AspectValue.gt]
  · rw [hrows]
    intro r hr t ht
    norm_num [squarifiedRows, squarify, squarifyLoop, worstAspectRatio, layoutRow,
      layoutRowLoop, rowSecondary, truncate, KFileInfo.totalSize, KFileInfo.leaf,
      AspectValue.geZero, AspectValue.gt] at hr
    rcases hr with rfl | rfl
    · simp only [List.mem_cons, List.mem_singleton, List.not_mem_nil, or_false] at ht
      rcases ht with rfl | rfl <;>
        norm_num [rowSecondary, truncate, Rect.area, KFileInfo.totalSize, abs_le]
    · simp only [List.mem_cons, List.mem_singleton, List.not_mem_nil, or_false] at ht
      rcases ht with rfl | rfl <;>
        norm_num [rowSecondary, truncate, Rect.area, KFileInfo.totalSize, abs_le]

theorem squarified_example_witness :
    Platform.debug.SortConforms ∧
    (createSquarifiedRows Platform.debug ⟨true, 1, 1 / 2⟩ exampleRoot ⟨0, 0, 0, 0, 1⟩
        ⟨0, 0, 100, 50⟩).map (fun r => r.row) =
      [[.leaf 1 50, .leaf 2 30], [.leaf 3 15, .leaf 4 5]] := by
  refine ⟨debug_sortConforms, ?_⟩
  have h := (squarified_example Platform.debug debug_sortConforms ⟨0, 0, 0, 0, 1⟩ (1 / 2)
    KTreemapAuto).1
  have h2 := congrArg (List.map Prod.fst) h
  simpa using h2

/-! ## C4: a node of weight zero -/

/-- C4: for both strategies, every rectangle, orientation and configuration, a
node whose `totalSize()` is 0 produces no child tiles, whatever children it
has: `createChildren` returns at once, and so does `createSquarifiedChildren`
when entered directly. -/
theorem createChildren_zero_totalSize (p : Platform) (view : KTreemapView)
    (orig : KFileInfo) (surface : KCushionSurface) (rect : Rect)
    (orientation : KOrientation) (h : orig.totalSize = 0) :
    createChildren p view orig surface rect orientation = some ⟨surface, []⟩ ∧
      (createSquarifiedChildren p view orig surface rect).tiles = [] := by
  simp [createChildren, createSquarifiedChildren, h]

theorem createChildren_zero_totalSize_witness :
    (KFileInfo.mk 0 0 [.leaf 1 7, .leaf 2 3] (some (.leaf 3 1))).totalSize = 0 ∧
    createChildren Platform.debug ⟨false, 0, 1 / 2⟩
        (KFileInfo.mk 0 0 [.leaf 1 7, .leaf 2 3] (some (.leaf 3 1))) ⟨0, 0, 0, 0, 1⟩
        ⟨0, 0, 100, 50⟩ KTreemapAuto = some ⟨⟨0, 0, 0, 0, 1⟩, []⟩ :=
  ⟨rfl, (createChildren_zero_totalSize Platform.debug ⟨false, 0, 1 / 2⟩
    (KFileInfo.mk 0 0 [.leaf 1 7, .leaf 2 3] (some (.leaf 3 1))) ⟨0, 0, 0, 0, 1⟩
    ⟨0, 0, 100, 50⟩ KTreemapAuto rfl).1⟩

/-! ## C9, C10: ridges -/

/-- C9: when the bounds `x1 = left`, `x2 = right` of the rectangle differ,
`addRidge` along the horizontal axis replaces `xx2` by
`xx2 - 4*height/(x2-x1)` and `xx1` by `xx1 + 4*height*(x2+x1)/(x2-x1)` and
leaves `yy2`, `yy1` unchanged; when the bounds `x1 = top`, `x2 = bottom` differ,
`addRidge` along any other axis does the same to `yy2`, `yy1` and leaves `xx2`,
`xx1` unchanged. -/
theorem addRidge_coefficients (s : KCushionSurface) (dim : KOrientation) (height : ℚ)
    (rect : Rect) (x1 x2 : Int)
    (hbounds : (x1, x2) =
      if dim = KTreemapHorizontal then (rect.left, rect.right) else (rect.top, rect.bottom))
    (hne : x1 ≠ x2) :
    (dim = KTreemapHorizontal →
      (s.addRidge dim height rect).xx2 = s.xx2 - 4 * height / ((x2 : ℚ) - (x1 : ℚ)) ∧
      (s.addRidge dim height rect).xx1 =
        s.xx1 + 4 * height * ((x2 : ℚ) + (x1 : ℚ)) / ((x2 : ℚ) - (x1 : ℚ)) ∧
      (s.addRidge dim height rect).yy2 = s.yy2 ∧
      (s.addRidge dim height rect).yy1 = s.yy1) ∧
    (dim ≠ KTreemapHorizontal →
      (s.addRidge dim height rect).yy2 = s.yy2 - 4 * height / ((x2 : ℚ) - (x1 : ℚ)) ∧
      (s.addRidge dim height rect).yy1 =
        s.yy1 + 4 * height * ((x2 : ℚ) + (x1 : ℚ)) / ((x2 : ℚ) - (x1 : ℚ)) ∧
      (s.addRidge dim height rect).xx2 = s.xx2 ∧
      (s.addRidge dim height rect).xx1 = s.xx1) := by
  constructor
  · intro hd
    rw [if_pos hd] at hbounds
    obtain ⟨h1, h2⟩ := Prod.mk.inj hbounds
    have hne2 : rect.right ≠ rect.left := by rw [← h1, ← h2]; exact fun h => hne h.symm
    simp [KCushionSurface.addRidge, hd, KCushionSurface.squareRidge,
      KCushionSurface.linearRidge, hne2, h1, h2]
  · intro hd
    rw [if_neg hd] at hbounds
    obtain ⟨h1, h2⟩ := Prod.mk.inj hbounds
    have hne2 : rect.bottom ≠ rect.top := by rw [← h1, ← h2]; exact fun h => hne h.symm
    simp [KCushionSurface.addRidge, hd, KCushionSurface.squareRidge,
      KCushionSurface.linearRidge, hne2, h1, h2]

theorem addRidge_coefficients_witness :
    ((⟨1, 2, 3, 4, 5⟩ : KCushionSurface).addRidge KTreemapVertical 3 ⟨0, 2, 10, 4⟩).yy2 =
        3 - 4 * 3 / (((6 : Int) : ℚ) - ((2 : Int) : ℚ)) ∧
      ((⟨1, 2, 3, 4, 5⟩ : KCushionSurface).addRidge KTreemapVertical 3 ⟨0, 2, 10, 4⟩).xx2 =
        1 := by
  have h := (addRidge_coefficients ⟨1, 2, 3, 4, 5⟩ KTreemapVertical 3 ⟨0, 2, 10, 4⟩ 2 6
    (by decide) (by decide)).2 (by decide)
  exact ⟨h.1, h.2.2.1⟩

/-- C10 fails as stated: `addRidge` on a rectangle of zero width along the
horizontal axis changes the surface, because the stored height is overwritten
by the `height` argument before the coefficients are looked at. -/
theorem addRidge_degenerate_changes_height :
    (⟨0, 0, 0, 0, 1⟩ : KCushionSurface).addRidge KTreemapHorizontal 2 ⟨5, 0, 0, 10⟩ ≠
        ⟨0, 0, 0, 0, 1⟩ ∧
      ((⟨0, 0, 0, 0, 1⟩ : KCushionSurface).addRidge KTreemapHorizontal 2
        ⟨5, 0, 0, 10⟩).height = 2 ∧
      (⟨5, 0, 0, 10⟩ : Rect).left = (⟨5, 0, 0, 10⟩ : Rect).right := by
  refine ⟨?_, ?_, ?_⟩
  · intro h
    have h2 := congrArg KCushionSurface.height h
    norm_num [KCushionSurface.addRidge] at h2
  · simp [KCushionSurface.addRidge]
  · decide

/-- C10, amended: on a degenerate axis (`x1 == x2`) `addRidge` leaves the four
coefficients `xx2`, `xx1`, `yy2`, `yy1` unchanged and sets the stored height to
its `height` argument; the surface is unchanged exactly when that argument is
the height already stored. -/
theorem addRidge_degenerate (s : KCushionSurface) (dim : KOrientation) (height : ℚ)
    (rect : Rect) (x1 x2 : Int)
    (hbounds : (x1, x2) =
      if dim = KTreemapHorizontal then (rect.left, rect.right) else (rect.top, rect.bottom))
    (heq : x1 = x2) :
    s.addRidge dim height rect = { s with height := height } ∧
      (s.addRidge dim height rect = s ↔ height = s.height) := by
  have hs : s.addRidge dim height rect = { s with height := height } := by
    by_cases hd : dim = KTreemapHorizontal
    · rw [if_pos hd] at hbounds
      obtain ⟨h1, h2⟩ := Prod.mk.inj hbounds
      have he : rect.right = rect.left := by rw [← h1, ← h2, heq]
      simp [KCushionSurface.addRidge, hd, KCushionSurface.squareRidge,
        KCushionSurface.linearRidge, he]
    · rw [if_neg hd] at hbounds
      obtain ⟨h1, h2⟩ := Prod.mk.inj hbounds
      have he : rect.bottom = rect.top := by rw [← h1, ← h2, heq]
      simp [KCushionSurface.addRidge, hd, KCushionSurface.squareRidge,
        KCushionSurface.linearRidge, he]
  refine ⟨hs, ?_⟩
  rw [hs]
  constructor
  · intro h
    exact congrArg KCushionSurface.height h
  · intro h
    cases s
    simp at h ⊢
    exact h

theorem addRidge_degenerate_witness :
    (⟨1, 2, 3, 4, 5⟩ : KCushionSurface).addRidge KTreemapHorizontal 7 ⟨5, 0, 0, 10⟩ =
      ⟨1, 2, 3, 4, 7⟩ :=
  (addRidge_degenerate ⟨1, 2, 3, 4, 5⟩ KTreemapHorizontal 7 ⟨5, 0, 0, 10⟩ 5 5
    (by decide) rfl).1

/-! ## C8: sortedChildBySize -/

theorem filter_orderedInsert_size (v : Nat) (a : KFileInfo) (l : List KFileInfo) :
    (List.orderedInsert (fun a b : KFileInfo => b.totalSize ≤ a.totalSize) a l).filter
        (fun c => decide (c.totalSize = v)) =
      (a :: l).filter (fun c => decide (c.totalSize = v)) := by
  induction l with
  | nil => simp
  | cons b rest ih =>
    simp only [List.orderedInsert]
    split
    · rfl
    · rename_i hba
      by_cases hav : a.totalSize = v
      · have hbv : ¬ b.totalSize = v := by omega
        simp only [List.filter_cons, hbv, hav, decide_True, decide_False, if_true] at ih ⊢
        simpa using ih
      · simp only [List.filter_cons, hav, decide_False] at ih ⊢
        split <;> simp_all

/-- The sort `stableSort` is stable: the elements of each weight come out in
their input order. -/
theorem stableSort_stable (v : Nat) (l : List KFileInfo) :
    (stableSort l).filter (fun c => decide (c.totalSize = v)) =
      l.filter (fun c => decide (c.totalSize = v)) := by
  induction l with
  | nil => simp [stableSort]
  | cons a rest ih =>
    unfold stableSort at ih ⊢
    simp only [List.insertionSort]
    rw [filter_orderedInsert_size, List.filter_cons, List.filter_cons, ih]


theorem mem_sortCandidates (info : KFileInfo) (minSize : Int) (c : KFileInfo) :
    c ∈ sortCandidates info minSize ↔
      (c ∈ info.children ∨ info.dotEntry = some c) ∧ minSize ≤ (c.totalSize : Int) := by
  unfold sortCandidates
  cases hd : info.dotEntry with
  | none => simp
  | some d =>
    by_cases hm : minSize ≤ (d.totalSize : Int)
    · simp only [hm, if_true, List.mem_append, List.mem_filter, decide_eq_true_eq,
        List.mem_singleton, Option.some.injEq]
      constructor
      · rintro (h | h)
        · exact ⟨Or.inl h.1, h.2⟩
        · subst h; exact ⟨Or.inr rfl, hm⟩
      · rintro ⟨h | h, h2⟩
        · exact Or.inl ⟨h, h2⟩
        · exact Or.inr h.symm
    · simp only [hm, if_false, List.append_nil, List.mem_filter, decide_eq_true_eq,
        Option.some.injEq]
      constructor
      · rintro ⟨h, h2⟩; exact ⟨Or.inl h, h2⟩
      · rintro ⟨h | h, h2⟩
        · exact ⟨h, h2⟩
        · subst h; exact absurd h2 hm

/-- C8, amended: for every sort meeting the contract of `std::sort`,
`sortedChildBySize` returns a rearrangement of exactly the children with
`totalSize() >= minSize` followed by the dot entry when it exists and has
`totalSize() >= minSize`, in non-increasing `totalSize()` order; the order of
elements of equal `totalSize()` is left open, and when no two of the returned
elements have equal `totalSize()` the result is the stable descending sort of
the filtered input. -/
theorem sortedChildBySize_sorted_perm (p : Platform) (hp : p.SortConforms)
    (info : KFileInfo) (minSize : Int) :
    (sortedChildBySize p info minSize).Perm (sortCandidates info minSize) ∧
    (∀ c, c ∈ sortedChildBySize p info minSize ↔
      (c ∈ info.children ∨ info.dotEntry = some c) ∧ minSize ≤ (c.totalSize : Int)) ∧
    (sortedChildBySize p info minSize).Pairwise
      (fun a b => b.totalSize ≤ a.totalSize) ∧
    ((sortCandidates info minSize).Pairwise (fun a b => a.totalSize ≠ b.totalSize) →
      sortedChildBySize p info minSize = stableSort (sortCandidates info minSize)) := by
  obtain ⟨hperm, hsorted⟩ := hp (sortCandidates info minSize)
  have hle : (sortedChildBySize p info minSize).Pairwise
      (fun a b => b.totalSize ≤ a.totalSize) := by
    refine hsorted.imp ?_
    intro a b h
    simpa [childSizeComparator] using h
  refine ⟨hperm, ?_, hle, ?_⟩
  · intro c
    rw [← mem_sortCandidates]
    exact hperm.mem_iff
  · intro hne
    haveI : IsAntisymm KFileInfo (fun a b => b.totalSize < a.totalSize) :=
      ⟨fun a b hab hba => absurd hab (Nat.lt_asymm hba)⟩
    have hsym : ∀ {x y : KFileInfo}, x.totalSize ≠ y.totalSize → y.totalSize ≠ x.totalSize :=
      fun h => h.symm
    have strict : ∀ l : List KFileInfo, l.Perm (sortCandidates info minSize) →
        l.Pairwise (fun a b => b.totalSize ≤ a.totalSize) →
        List.Sorted (fun a b : KFileInfo => b.totalSize < a.totalSize) l := by
      intro l hl hs
      have hn : l.Pairwise (fun a b => a.totalSize ≠ b.totalSize) :=
        hl.symm.pairwise hne hsym
      refine (hs.and hn).imp ?_
      intro a b h
      exact lt_of_le_of_ne h.1 (fun e => h.2 e.symm)
    refine List.eq_of_perm_of_sorted
      (hperm.trans (stableSort_perm (sortCandidates info minSize)).symm)
      (strict _ hperm hle) (strict _ (stableSort_perm _) ?_)
    refine (stableSort_pairwise (sortCandidates info minSize)).imp ?_
    intro a b h
    simpa [childSizeComparator] using h

theorem sortedChildBySize_sorted_perm_witness :
    Platform.debug.SortConforms ∧
      (sortedChildBySize Platform.debug exampleRoot 20).Perm
        (sortCandidates exampleRoot 20) :=
  ⟨debug_sortConforms,
    (sortedChildBySize_sorted_perm Platform.debug debug_sortConforms exampleRoot 20).1⟩

/-! ## Truncation -/

theorem truncate_of_nonneg {q : ℚ} (h : 0 ≤ q) : truncate q = ⌊q⌋ := by
  simp [truncate, h]

theorem truncate_nonneg {q : ℚ} (h : 0 ≤ q) : 0 ≤ truncate q := by
  rw [truncate_of_nonneg h]; exact Int.floor_nonneg.mpr h

theorem truncate_le {q : ℚ} (h : 0 ≤ q) : ((truncate q : Int) : ℚ) ≤ q := by
  rw [truncate_of_nonneg h]; exact Int.floor_le q

theorem truncate_zero : truncate 0 = 0 := by
  simp [truncate]

/-! ## Rectangles -/

theorem Rect.not_overlaps_of_within {a b A B : Rect} (ha : a.Within A) (hb : b.Within B)
    (h : ¬ A.Overlaps B) : ¬ a.Overlaps b := by
  unfold Rect.Within at ha hb
  unfold Rect.Overlaps at h ⊢
  simp only [max_lt_iff, lt_min_iff, not_and_or, not_lt] at h ⊢
  omega

theorem Rect.Within.trans {a b c : Rect} (hab : a.Within b) (hbc : b.Within c) :
    a.Within c := by
  unfold Rect.Within at *
  omega

/-! ## Weights -/

theorem sum_sortCandidates_le (info : KFileInfo) (minSize : Int) :
    ((sortCandidates info minSize).map KFileInfo.totalSize).sum ≤ info.childrenSize := by
  unfold sortCandidates KFileInfo.childrenSize
  have h1 : ((info.children.filter
      (fun c => decide (minSize ≤ (c.totalSize : Int)))).map KFileInfo.totalSize).sum ≤
      (info.children.map KFileInfo.totalSize).sum := by
    apply List.Sublist.sum_le_sum
    · exact (List.filter_sublist _).map _
    · intro a _; exact Nat.zero_le a
  cases hd : info.dotEntry with
  | none => simpa using h1
  | some d =>
    by_cases hm : minSize ≤ (d.totalSize : Int)
    · simp only [hm, if_true, List.map_append, List.sum_append, List.map_cons, List.map_nil,
        List.sum_cons, List.sum_nil]
      omega
    · simp only [hm, if_false, List.append_nil]
      omega

theorem sum_sortedChildBySize_le (p : Platform) (hp : p.SortConforms) (info : KFileInfo)
    (minSize : Int) :
    ((sortedChildBySize p info minSize).map KFileInfo.totalSize).sum ≤ info.childrenSize := by
  have hperm := (hp (sortCandidates info minSize)).1
  have := (hperm.map KFileInfo.totalSize).sum_eq
  unfold sortedChildBySize
  rw [this]
  exact sum_sortCandidates_le info minSize

/-! ## C3: the simple strategy stays inside the parent -/

theorem simpleExtent_nonneg {scale : ℚ} (hs : 0 ≤ scale) (l : List KFileInfo) :
    0 ≤ simpleExtent scale l := by
  unfold simpleExtent
  apply List.sum_nonneg
  intro x hx
  simp only [List.mem_map] at hx
  obtain ⟨c, _, rfl⟩ := hx
  exact truncate_nonneg (mul_nonneg hs (Nat.cast_nonneg _))

theorem simpleExtent_le {scale : ℚ} (hs : 0 ≤ scale) (l : List KFileInfo) :
    ((simpleExtent scale l : Int) : ℚ) ≤
      scale * (((l.map KFileInfo.totalSize).sum : Nat) : ℚ) := by
  induction l with
  | nil => simp [simpleExtent]
  | cons c rest ih =>
    have h1 := truncate_le (mul_nonneg hs (Nat.cast_nonneg c.totalSize))
    simp only [simpleExtent, List.map_cons, List.sum_cons, Int.cast_add, Nat.cast_add] at ih ⊢
    rw [mul_add]
    exact add_le_add h1 ih

/-- The rectangle of a child tile placed by the simple strategy at offset `o`
with extent `s`. -/
theorem simpleLoop_geometry (p : Platform) (view : KTreemapView) (dir childDir : KOrientation)
    (rect : Rect) (scale : ℚ) (surface : KCushionSurface) (hs : 0 ≤ scale) :
    ∀ (l : List KFileInfo) (offset : Int) (ts : List ChildTile),
      createChildrenSimpleLoop p view dir childDir rect scale surface l offset = some ts →
      (∀ t ∈ ts, ∃ o s : Int, 0 ≤ s ∧ offset ≤ o ∧ o + s ≤ offset + simpleExtent scale l ∧
        t.rect = (if dir = KTreemapHorizontal then ⟨rect.x + o, rect.y, s, rect.height⟩
          else ⟨rect.x, rect.y + o, rect.width, s⟩)) ∧
      ts.Pairwise (fun a b => ¬ a.rect.Overlaps b.rect) := by
  intro l
  induction l with
  | nil =>
    intro offset ts h
    simp only [createChildrenSimpleLoop, Option.some.injEq] at h
    subst h
    simp
  | cons c rest ih =>
    intro offset ts h
    simp only [createChildrenSimpleLoop] at h
    split at h
    · exact absurd h (by simp)
    · cases hrec : createChildrenSimpleLoop p view dir childDir rect scale surface rest
          (offset + truncate (scale * (c.totalSize : ℚ))) with
      | none => rw [hrec] at h; simp at h
      | some ts1 =>
        rw [hrec] at h
        simp only [Option.map_some', Option.some.injEq] at h
        subst h
        obtain ⟨ih1, ih2⟩ := ih _ _ hrec
        have hc : 0 ≤ truncate (scale * (c.totalSize : ℚ)) :=
          truncate_nonneg (mul_nonneg hs (Nat.cast_nonneg _))
        have hrest := simpleExtent_nonneg hs rest
        have hext : simpleExtent scale (c :: rest) =
            truncate (scale * (c.totalSize : ℚ)) + simpleExtent scale rest := by
          simp [simpleExtent]
        constructor
        · intro t ht
          rcases List.mem_cons.mp ht with rfl | ht
          · exact ⟨offset, truncate (scale * (c.totalSize : ℚ)), hc, le_refl _,
              by rw [hext]; omega, rfl⟩
          · obtain ⟨o, s, h1, h2, h3, h4⟩ := ih1 t ht
            exact ⟨o, s, h1, by omega, by rw [hext]; omega, h4⟩
        · refine List.Pairwise.cons ?_ ih2
          intro t ht
          obtain ⟨o, s, h1, h2, h3, h4⟩ := ih1 t ht
          rw [h4]
          unfold Rect.Overlaps
          by_cases hd : dir = KTreemapHorizontal
          · simp only [hd, if_true, max_lt_iff, lt_min_iff, not_and_or, not_lt]
            omega
          · simp only [hd, if_false, max_lt_iff, lt_min_iff, not_and_or, not_lt]
            omega

theorem simpleLoop_isSome (p : Platform) (hnd : p.ndebug = true) (view : KTreemapView)
    (dir childDir : KOrientation) (rect : Rect) (scale : ℚ) (surface : KCushionSurface) :
    ∀ (l : List KFileInfo) (offset : Int),
      (createChildrenSimpleLoop p view dir childDir rect scale surface l offset).isSome := by
  intro l
  induction l with
  | nil => intro offset; simp [createChildrenSimpleLoop]
  | cons c rest ih =>
    intro offset
    simp only [createChildrenSimpleLoop, hnd, Bool.not_true, Bool.false_and,
      Bool.false_eq_true, if_false, Option.isSome_map']
    exact ih _

/-- C3: simple strategy. For every node of positive weight whose children's
weights (dot entry included) sum to at most the node's weight, every rectangle
with integer coordinates (non-negative width and height), every orientation and
every `minTileSize`, each child rectangle created by `createChildrenSimple`
lies within the parent's rectangle and no two sibling rectangles overlap in an
area of positive size. With `NDEBUG` the call always returns its tiles. -/
theorem createChildrenSimple_within (p : Platform) (hp : p.SortConforms)
    (view : KTreemapView) (orig : KFileInfo) (surface : KCushionSurface) (rect : Rect)
    (orientation : KOrientation) (hpos : 0 < orig.totalSize)
    (hsum : orig.childrenSize ≤ orig.totalSize)
    (hw : 0 ≤ rect.width) (hh : 0 ≤ rect.height) :
    (∀ c, createChildrenSimple p view orig surface rect orientation = some c →
      (∀ t ∈ c.tiles, t.rect.Within rect) ∧
        c.tiles.Pairwise (fun a b => ¬ a.rect.Overlaps b.rect)) ∧
    (p.ndebug = true →
      (createChildrenSimple p view orig surface rect orientation).isSome) := by
  constructor
  · intro c hc
    unfold createChildrenSimple at hc
    simp only [Option.map_eq_some'] at hc
    obtain ⟨ts, hts, rfl⟩ := hc
    set dir := simpleDir rect orientation with hdir
    set size : Int := if dir = KTreemapHorizontal then rect.width else rect.height with hsize
    set scale : ℚ := (size : ℚ) / (orig.totalSize : ℚ) with hscale
    have hsz : 0 ≤ size := by rw [hsize]; split <;> assumption
    have hT : (0 : ℚ) < (orig.totalSize : ℚ) := by exact_mod_cast hpos
    have hs : 0 ≤ scale := div_nonneg (by exact_mod_cast hsz) hT.le
    obtain ⟨h1, h2⟩ := simpleLoop_geometry p view dir _ rect scale _ hs _ _ _ hts
    refine ⟨?_, h2⟩
    intro t ht
    obtain ⟨o, s, hs0, ho, hos, hrect⟩ := h1 t ht
    have hle := simpleExtent_le hs
      (sortedChildBySize p orig (minSizeFor p view.minTileSize scale))
    have hsumle := sum_sortedChildBySize_le p hp orig (minSizeFor p view.minTileSize scale)
    have hext : simpleExtent scale
        (sortedChildBySize p orig (minSizeFor p view.minTileSize scale)) ≤ size := by
      have h3 : scale * (((sortedChildBySize p orig
          (minSizeFor p view.minTileSize scale)).map KFileInfo.totalSize).sum : ℚ) ≤
          scale * (orig.totalSize : ℚ) := by
        apply mul_le_mul_of_nonneg_left _ hs
        exact_mod_cast le_trans hsumle hsum
      have h4 : scale * (orig.totalSize : ℚ) = (size : ℚ) := by
        rw [hscale]; field_simp
      have h5 := le_trans hle (h4 ▸ h3)
      exact_mod_cast h5
    rw [hrect]
    unfold Rect.Within
    by_cases hd : dir = KTreemapHorizontal
    · simp only [hd, if_true] at hext hsize ⊢
      omega
    · simp only [hd, if_false] at hext hsize ⊢
      omega
  · intro hnd
    unfold createChildrenSimple
    simp only [Option.isSome_map']
    exact simpleLoop_isSome p hnd _ _ _ _ _ _ _ _

theorem createChildrenSimple_within_witness :
    Platform.release.SortConforms ∧
      (createChildrenSimple Platform.release ⟨false, 1, 1 / 2⟩ exampleRoot ⟨0, 0, 0, 0, 1⟩
        ⟨0, 0, 100, 50⟩ KTreemapAuto).isSome :=
  ⟨release_sortConforms,
    (createChildrenSimple_within Platform.release release_sortConforms ⟨false, 1, 1 / 2⟩
      exampleRoot ⟨0, 0, 0, 0, 1⟩ ⟨0, 0, 100, 50⟩ KTreemapAuto (by decide) (by decide)
      (by decide) (by decide)).2 rfl⟩

/-! ## C2: the squarified strategy stays inside the parent -/

theorem squarifyLoop_append (length : Int) (scale : ℚ) (it : List KFileInfo) :
    ∀ (row : List KFileInfo) (sum : ℚ) (lastWorst : AspectValue),
      (squarifyLoop length scale row sum lastWorst it).1 ++
        (squarifyLoop length scale row sum lastWorst it).2 = row ++ it := by
  induction it with
  | nil => intro row sum lastWorst; simp [squarifyLoop]
  | cons c rest ih =>
    intro row sum lastWorst
    cases row with
    | nil =>
      simp only [squarifyLoop]
      rw [ih]
      simp
    | cons first tl =>
      simp only [squarifyLoop]
      split
      · split
        · rfl
        · rw [ih]; simp
      · rw [ih]; simp

/-- The weights of the row and of the range left over by `squarify` add up to
at most the weight of the range it was given. -/
theorem squarify_sum_le (rect : Rect) (scale : ℚ) (it : List KFileInfo) :
    (((squarify rect scale it).1).map KFileInfo.totalSize).sum +
      (((squarify rect scale it).2).map KFileInfo.totalSize).sum ≤
      (it.map KFileInfo.totalSize).sum := by
  unfold squarify
  simp only
  split
  · cases it with
    | nil => simp
    | cons c rest => simp
  · have h := squarifyLoop_append (max rect.width rect.height) scale it [] 0
      (AspectValue.fin (-1))
    have h2 := congrArg (fun l => (l.map KFileInfo.totalSize).sum) h
    simp only [List.map_append, List.sum_append, List.nil_append] at h2
    omega

theorem layoutRowLoop_geometry (view : KTreemapView) (dir : KOrientation) (rect : Rect)
    (secondary : Int) (sum : Nat) (primary : Int) (surface : KCushionSurface)
    (hp : 0 ≤ primary) :
    ∀ (row : List KFileInfo) (offset remaining : Int), 0 ≤ remaining →
      (∀ t ∈ layoutRowLoop view dir rect secondary sum primary surface row offset remaining,
        ∃ o s : Int, 0 ≤ s ∧ offset ≤ o ∧ o + s ≤ offset + remaining ∧
          t.rect = (if dir = KTreemapHorizontal then ⟨rect.x + o, rect.y, s, secondary⟩
            else ⟨rect.x, rect.y + o, secondary, s⟩)) ∧
      (layoutRowLoop view dir rect secondary sum primary surface row offset
        remaining).Pairwise (fun a b => ¬ a.rect.Overlaps b.rect) := by
  intro row
  induction row with
  | nil => intro offset remaining _; simp [layoutRowLoop]
  | cons c rest ih =>
    intro offset remaining hrem
    have h0 : 0 ≤ truncate ((c.totalSize : ℚ) / (sum : ℚ) * (primary : ℚ) + 1 / 2) := by
      apply truncate_nonneg
      have : (0 : ℚ) ≤ (c.totalSize : ℚ) / (sum : ℚ) * (primary : ℚ) :=
        mul_nonneg (div_nonneg (Nat.cast_nonneg _) (Nat.cast_nonneg _)) (by exact_mod_cast hp)
      linarith
    generalize hcs0 : truncate ((c.totalSize : ℚ) / (sum : ℚ) * (primary : ℚ) + 1 / 2) = cs0
      at h0
    simp only [layoutRowLoop, hcs0]
    generalize hcs : (if cs0 > remaining then remaining else cs0) = cs
    have hcs1 : 0 ≤ cs := by rw [← hcs]; split <;> omega
    have hcs2 : cs ≤ remaining := by rw [← hcs]; split <;> omega
    split
    · obtain ⟨ih1, ih2⟩ := ih (offset + cs) (remaining - cs) (by omega)
      constructor
      · intro t ht
        rcases List.mem_cons.mp ht with rfl | ht
        · exact ⟨offset, cs, hcs1, le_refl _, by omega, rfl⟩
        · obtain ⟨o, s, h1, h2, h3, h4⟩ := ih1 t ht
          exact ⟨o, s, h1, by omega, by omega, h4⟩
      · refine List.Pairwise.cons ?_ ih2
        intro t ht
        obtain ⟨o, s, h1, h2, h3, h4⟩ := ih1 t ht
        rw [h4]
        unfold Rect.Overlaps
        by_cases hd : dir = KTreemapHorizontal
        · simp only [hd, if_true, max_lt_iff, lt_min_iff, not_and_or, not_lt]
          omega
        · simp only [hd, if_false, max_lt_iff, lt_min_iff, not_and_or, not_lt]
          omega
    · obtain ⟨ih1, ih2⟩ := ih offset (remaining - cs) (by omega)
      refine ⟨?_, ih2⟩
      intro t ht
      obtain ⟨o, s, h1, h2, h3, h4⟩ := ih1 t ht
      exact ⟨o, s, h1, h2, by omega, h4⟩

/-- The secondary extent of a row is between 0 and the shorter side, as long as
the row's share `scale * sum` of the area fits into the rectangle. -/
theorem rowSecondary_bounds (rect : Rect) (scale : ℚ) (row : List KFileInfo)
    (hw : 0 ≤ rect.width) (hh : 0 ≤ rect.height) (hs : 0 ≤ scale)
    (hfit : scale * (((row.map KFileInfo.totalSize).sum : Nat) : ℚ) ≤ (rect.area : ℚ)) :
    0 ≤ rowSecondary rect scale row ∧
      rowSecondary rect scale row ≤ min rect.width rect.height ∧
      ((max rect.width rect.height * rowSecondary rect scale row : Int) : ℚ) ≤
        scale * (((row.map KFileInfo.totalSize).sum : Nat) : ℚ) := by
  have hprim : (0 : Int) ≤ max rect.width rect.height := le_max_of_le_left hw
  have hprimq : (0 : ℚ) ≤ ((max rect.width rect.height : Int) : ℚ) := by exact_mod_cast hprim
  have hsumq : (0 : ℚ) ≤ scale * (((row.map KFileInfo.totalSize).sum : Nat) : ℚ) :=
    mul_nonneg hs (Nat.cast_nonneg _)
  have harg : (0 : ℚ) ≤ (((row.map KFileInfo.totalSize).sum : Nat) : ℚ) * scale /
      ((max rect.width rect.height : Int) : ℚ) :=
    div_nonneg (by rw [mul_comm]; exact hsumq) hprimq
  have hle := truncate_le harg
  have h0 := truncate_nonneg harg
  have harea : rect.area = max rect.width rect.height * min rect.width rect.height := by
    unfold Rect.area
    rcases le_total rect.width rect.height with h | h
    · rw [max_eq_right h, min_eq_left h, mul_comm]
    · rw [max_eq_left h, min_eq_right h]
  unfold rowSecondary
  refine ⟨h0, ?_, ?_⟩
  · rcases eq_or_lt_of_le hprim with h | h
    · have hz : ((max rect.width rect.height : Int) : ℚ) = 0 := by exact_mod_cast h.symm
      rw [hz, div_zero, truncate_zero]
      exact le_min hw hh
    · have hq : (0 : ℚ) < ((max rect.width rect.height : Int) : ℚ) := by exact_mod_cast h
      have h1 : (((row.map KFileInfo.totalSize).sum : Nat) : ℚ) * scale /
          ((max rect.width rect.height : Int) : ℚ) ≤ ((min rect.width rect.height : Int) : ℚ) := by
        rw [div_le_iff₀ hq, mul_comm _ scale, mul_comm ((min rect.width rect.height : Int) : ℚ)]
        have : (rect.area : ℚ) = ((max rect.width rect.height : Int) : ℚ) *
            ((min rect.width rect.height : Int) : ℚ) := by
          rw [harea]; push_cast; rfl
        rw [← this]
        exact hfit
      have h2 := le_trans hle h1
      exact_mod_cast h2
  · rcases eq_or_lt_of_le hprim with h | h
    · rw [← h]
      simpa using hsumq
    · have hq : (0 : ℚ) < ((max rect.width rect.height : Int) : ℚ) := by exact_mod_cast h
      rw [Int.cast_mul]
      have h3 := mul_le_mul_of_nonneg_left hle hprimq
      refine le_trans h3 (le_of_eq ?_)
      generalize ((max rect.width rect.height : Int) : ℚ) = P at hq ⊢
      generalize (((row.map KFileInfo.totalSize).sum : Nat) : ℚ) = S
      field_simp
      ring

theorem layoutRow_geometry (view : KTreemapView) (surface : KCushionSurface) (rect : Rect)
    (scale : ℚ) (row : List KFileInfo)
    (hw : 0 ≤ rect.width) (hh : 0 ≤ rect.height) (hs : 0 ≤ scale)
    (hfit : scale * (((row.map KFileInfo.totalSize).sum : Nat) : ℚ) ≤ (rect.area : ℚ)) :
    (layoutRow view surface rect scale row).2.Within rect ∧
    (rect.area : ℚ) - scale * (((row.map KFileInfo.totalSize).sum : Nat) : ℚ) ≤
      ((layoutRow view surface rect scale row).2.area : ℚ) ∧
    (∀ t ∈ (layoutRow view surface rect scale row).1, t.rect.Within rect) ∧
    (layoutRow view surface rect scale row).1.Pairwise
      (fun a b => ¬ a.rect.Overlaps b.rect) ∧
    (∀ t ∈ (layoutRow view surface rect scale row).1, ∀ r : Rect,
      r.Within (layoutRow view surface rect scale row).2 → ¬ t.rect.Overlaps r) := by
  have hsumq : (0 : ℚ) ≤ scale * (((row.map KFileInfo.totalSize).sum : Nat) : ℚ) :=
    mul_nonneg hs (Nat.cast_nonneg _)
  have htriv : (rect.Within rect ∧
      (rect.area : ℚ) - scale * (((row.map KFileInfo.totalSize).sum : Nat) : ℚ) ≤
        (rect.area : ℚ) ∧
      (∀ t ∈ ([] : List ChildTile), t.rect.Within rect) ∧
      ([] : List ChildTile).Pairwise (fun a b => ¬ a.rect.Overlaps b.rect) ∧
      (∀ t ∈ ([] : List ChildTile), ∀ r : Rect, r.Within rect → ¬ t.rect.Overlaps r)) := by
    refine ⟨?_, by linarith, by simp, List.Pairwise.nil, by simp⟩
    unfold Rect.Within; omega
  obtain ⟨hsec0, hsecmin, hsecarea⟩ := rowSecondary_bounds rect scale row hw hh hs hfit
  unfold layoutRow
  split
  · exact htriv
  · simp only
    split
    · exact htriv
    · split
      · exact htriv
      · generalize hsec : rowSecondary rect scale row = sec at hsec0 hsecmin hsecarea
        have hprim : (0 : Int) ≤ max rect.width rect.height := le_max_of_le_left hw
        obtain ⟨g1, g2⟩ := layoutRowLoop_geometry view
          (if rect.width > rect.height then KTreemapHorizontal else KTreemapVertical) rect sec
          (row.map KFileInfo.totalSize).sum (max rect.width rect.height)
          (surface.addRidge
            (if (if rect.width > rect.height then KTreemapHorizontal else KTreemapVertical) =
              KTreemapHorizontal then KTreemapVertical else KTreemapHorizontal)
            (surface.height * view.heightScaleFactor) rect) hprim row 0
          (max rect.width rect.height) hprim
        by_cases hd : rect.width > rect.height
        · have hmax : max rect.width rect.height = rect.width := max_eq_left (le_of_lt hd)
          have hmin : min rect.width rect.height = rect.height := min_eq_right (le_of_lt hd)
          rw [hmax] at g1 g2 hsecarea
          rw [hmin] at hsecmin
          simp only [hd, if_true, hmax] at g1 g2 ⊢
          refine ⟨?_, ?_, ?_, g2, ?_⟩
          · unfold Rect.Within; simp only; omega
          · have : ((rect.width * (rect.height - sec) : Int) : ℚ) =
                (rect.area : ℚ) - ((rect.width * sec : Int) : ℚ) := by
              unfold Rect.area; push_cast; ring
            unfold Rect.area at this ⊢
            simp only at this ⊢
            rw [this]
            linarith
          · intro t ht
            obtain ⟨o, s, h1, h2, h3, h4⟩ := g1 t ht
            rw [h4]; unfold Rect.Within; simp only; omega
          · intro t ht r hr
            obtain ⟨o, s, h1, h2, h3, h4⟩ := g1 t ht
            rw [h4]
            unfold Rect.Within at hr
            unfold Rect.Overlaps
            simp only [max_lt_iff, lt_min_iff, not_and_or, not_lt] at hr ⊢
            omega
        · have hle : rect.width ≤ rect.height := not_lt.mp hd
          have hmax : max rect.width rect.height = rect.height := max_eq_right hle
          have hmin : min rect.width rect.height = rect.width := min_eq_left hle
          rw [hmax] at g1 g2 hsecarea
          rw [hmin] at hsecmin
          have hvh : (KTreemapVertical = KTreemapHorizontal) = False := by simp
          simp only [hd, if_false, hmax, hvh] at g1 g2 ⊢
          refine ⟨?_, ?_, ?_, g2, ?_⟩
          · unfold Rect.Within; simp only; omega
          · have : (((rect.width - sec) * rect.height : Int) : ℚ) =
                (rect.area : ℚ) - ((rect.height * sec : Int) : ℚ) := by
              unfold Rect.area; push_cast; ring
            unfold Rect.area at this ⊢
            simp only at this ⊢
            rw [this]
            linarith
          · intro t ht
            obtain ⟨o, s, h1, h2, h3, h4⟩ := g1 t ht
            rw [h4]; unfold Rect.Within; simp only; omega
          · intro t ht r hr
            obtain ⟨o, s, h1, h2, h3, h4⟩ := g1 t ht
            rw [h4]
            unfold Rect.Within at hr
            unfold Rect.Overlaps
            simp only [max_lt_iff, lt_min_iff, not_and_or, not_lt] at hr ⊢
            omega

theorem squarifiedRows_cons (view : KTreemapView) (surface : KCushionSurface) (scale : ℚ)
    (rect : Rect) (c : KFileInfo) (rest : List KFileInfo) :
    squarifiedRows view surface scale rect (c :: rest) =
      ⟨rect, (squarify rect scale (c :: rest)).1,
          (layoutRow view surface rect scale (squarify rect scale (c :: rest)).1).1⟩ ::
        squarifiedRows view surface scale
          (layoutRow view surface rect scale (squarify rect scale (c :: rest)).1).2
          (squarify rect scale (c :: rest)).2 := by
  rw [squarifiedRows]

theorem squarifiedRows_geometry (view : KTreemapView) (surface : KCushionSurface) (scale : ℚ)
    (hs : 0 ≤ scale) :
    ∀ (n : Nat) (rect : Rect) (it : List KFileInfo), it.length ≤ n →
      0 ≤ rect.width → 0 ≤ rect.height →
      scale * (((it.map KFileInfo.totalSize).sum : Nat) : ℚ) ≤ (rect.area : ℚ) →
      (∀ t ∈ ((squarifiedRows view surface scale rect it).map RowLayout.tiles).flatten,
        t.rect.Within rect) ∧
      (((squarifiedRows view surface scale rect it).map RowLayout.tiles).flatten).Pairwise
        (fun a b => ¬ a.rect.Overlaps b.rect) := by
  intro n
  induction n with
  | zero =>
    intro rect it hlen _ _ _
    have : it = [] := List.length_eq_zero.mp (Nat.le_zero.mp hlen)
    subst this
    simp [squarifiedRows]
  | succ n ih =>
    intro rect it hlen hw hh hfit
    cases it with
    | nil => simp [squarifiedRows]
    | cons c rest =>
      rw [squarifiedRows_cons]
      have hsq := squarify_sum_le rect scale (c :: rest)
      have hlt := squarify_snd_length_lt rect scale c rest
      generalize squarify rect scale (c :: rest) = r at hsq hlt
      have hsqq : ((((r.1).map KFileInfo.totalSize).sum : Nat) : ℚ) +
          ((((r.2).map KFileInfo.totalSize).sum : Nat) : ℚ) ≤
          ((((c :: rest).map KFileInfo.totalSize).sum : Nat) : ℚ) := by
        exact_mod_cast hsq
      have h2nn : (0 : ℚ) ≤ ((((r.2).map KFileInfo.totalSize).sum : Nat) : ℚ) :=
        Nat.cast_nonneg _
      have h1nn : (0 : ℚ) ≤ ((((r.1).map KFileInfo.totalSize).sum : Nat) : ℚ) :=
        Nat.cast_nonneg _
      have hall : scale * ((((r.1).map KFileInfo.totalSize).sum : Nat) : ℚ) +
          scale * ((((r.2).map KFileInfo.totalSize).sum : Nat) : ℚ) ≤ (rect.area : ℚ) := by
        rw [← mul_add]
        exact le_trans (mul_le_mul_of_nonneg_left hsqq hs) hfit
      have hfit1 : scale * ((((r.1).map KFileInfo.totalSize).sum : Nat) : ℚ) ≤
          (rect.area : ℚ) := by
        have := mul_nonneg hs h2nn
        linarith
      obtain ⟨l1, l2, l3, l4, l5⟩ :=
        layoutRow_geometry view surface rect scale r.1 hw hh hs hfit1
      generalize layoutRow view surface rect scale r.1 = l at l1 l2 l3 l4 l5
      have hfit2 : scale * ((((r.2).map KFileInfo.totalSize).sum : Nat) : ℚ) ≤
          (l.2.area : ℚ) := by linarith
      have hlen2 : r.2.length ≤ n := by
        simp only [List.length_cons] at hlt hlen
        omega
      obtain ⟨i1, i2⟩ := ih l.2 r.2 hlen2 l1.1 l1.2.1 hfit2
      simp only [List.map_cons, List.flatten_cons]
      constructor
      · intro t ht
        rcases List.mem_append.mp ht with ht | ht
        · exact l3 t ht
        · exact (i1 t ht).trans l1
      · rw [List.pairwise_append]
        refine ⟨l4, i2, ?_⟩
        intro a ha b hb
        exact l5 a ha b.rect (i1 b hb)

/-- C2: squarified strategy. For every node of positive weight whose children's
weights (dot entry included) sum to at most the node's weight, every rectangle
with integer coordinates (non-negative width and height) and every
`minTileSize`, each child rectangle created by `createSquarifiedChildren`
(through `squarify` and `layoutRow`) lies within the parent's rectangle, and no
two sibling rectangles overlap in an area of positive size. -/
theorem createSquarifiedChildren_within (p : Platform) (hp : p.SortConforms)
    (view : KTreemapView) (orig : KFileInfo) (surface : KCushionSurface) (rect : Rect)
    (hpos : 0 < orig.totalSize) (hsum : orig.childrenSize ≤ orig.totalSize)
    (hw : 0 ≤ rect.width) (hh : 0 ≤ rect.height) :
    (∀ t ∈ (createSquarifiedChildren p view orig surface rect).tiles, t.rect.Within rect) ∧
      (createSquarifiedChildren p view orig surface rect).tiles.Pairwise
        (fun a b => ¬ a.rect.Overlaps b.rect) := by
  have hne : orig.totalSize ≠ 0 := Nat.pos_iff_ne_zero.mp hpos
  unfold createSquarifiedChildren
  simp only [hne, if_false]
  set scale : ℚ := (rect.width : ℚ) * (rect.height : ℚ) / (orig.totalSize : ℚ) with hscale
  have hT : (0 : ℚ) < (orig.totalSize : ℚ) := by exact_mod_cast hpos
  have hs : 0 ≤ scale :=
    div_nonneg (mul_nonneg (by exact_mod_cast hw) (by exact_mod_cast hh)) hT.le
  have hsumle := sum_sortedChildBySize_le p hp orig (minSizeFor p view.minTileSize scale)
  have hfit : scale * ((((sortedChildBySize p orig
      (minSizeFor p view.minTileSize scale)).map KFileInfo.totalSize).sum : Nat) : ℚ) ≤
      (rect.area : ℚ) := by
    have h3 : scale * ((((sortedChildBySize p orig
        (minSizeFor p view.minTileSize scale)).map KFileInfo.totalSize).sum : Nat) : ℚ) ≤
        scale * (orig.totalSize : ℚ) := by
      apply mul_le_mul_of_nonneg_left _ hs
      exact_mod_cast le_trans hsumle hsum
    have h4 : scale * (orig.totalSize : ℚ) = (rect.area : ℚ) := by
      rw [hscale]; unfold Rect.area; push_cast; field_simp
    rw [h4] at h3
    exact h3
  exact squarifiedRows_geometry view surface scale hs _ rect _ (le_refl _) hw hh hfit

theorem createSquarifiedChildren_within_witness :
    Platform.debug.SortConforms ∧
      (createSquarifiedChildren Platform.debug ⟨true, 1, 1 / 2⟩ exampleRoot ⟨0, 0, 0, 0, 1⟩
        ⟨0, 0, 100, 50⟩).tiles.Pairwise (fun a b => ¬ a.rect.Overlaps b.rect) :=
  ⟨debug_sortConforms,
    (createSquarifiedChildren_within Platform.debug debug_sortConforms ⟨true, 1, 1 / 2⟩
      exampleRoot ⟨0, 0, 0, 0, 1⟩ ⟨0, 0, 100, 50⟩ (by decide) (by decide) (by decide)
      (by decide)).2⟩

/-! ## C5: rectangles of zero area -/

/-- A property of every turn of the loop of `createSquarifiedChildren` that
holds whatever rectangle and range the turn starts from. -/
theorem squarifiedRows_forall (view : KTreemapView) (surface : KCushionSurface) (scale : ℚ)
    (Q : RowLayout → Prop)
    (hQ : ∀ (rect : Rect) (it : List KFileInfo),
      Q ⟨rect, (squarify rect scale it).1,
        (layoutRow view surface rect scale (squarify rect scale it).1).1⟩) :
    ∀ (n : Nat) (rect : Rect) (it : List KFileInfo), it.length ≤ n →
      ∀ r ∈ squarifiedRows view surface scale rect it, Q r := by
  intro n
  induction n with
  | zero =>
    intro rect it hlen
    have : it = [] := List.length_eq_zero.mp (Nat.le_zero.mp hlen)
    subst this
    simp [squarifiedRows]
  | succ n ih =>
    intro rect it hlen
    cases it with
    | nil => simp [squarifiedRows]
    | cons c rest =>
      rw [squarifiedRows_cons]
      intro r hr
      rcases List.mem_cons.mp hr with rfl | hr
      · exact hQ rect (c :: rest)
      · have hlt := squarify_snd_length_lt rect scale c rest
        simp only [List.length_cons] at hlt hlen
        exact ih _ _ (by omega) r hr

theorem layoutRowLoop_secondary (view : KTreemapView) (dir : KOrientation) (rect : Rect)
    (secondary : Int) (sum : Nat) (primary : Int) (surface : KCushionSurface) :
    ∀ (row : List KFileInfo) (offset remaining : Int),
      ∀ t ∈ layoutRowLoop view dir rect secondary sum primary surface row offset remaining,
        t.rect.width = secondary ∨ t.rect.height = secondary := by
  intro row
  induction row with
  | nil => intro offset remaining; simp [layoutRowLoop]
  | cons c rest ih =>
    intro offset remaining t ht
    simp only [layoutRowLoop] at ht
    generalize (if truncate ((c.totalSize : ℚ) / (sum : ℚ) * (primary : ℚ) + 1 / 2) > remaining
      then remaining
      else truncate ((c.totalSize : ℚ) / (sum : ℚ) * (primary : ℚ) + 1 / 2)) = cs at ht
    split at ht
    · rcases List.mem_cons.mp ht with rfl | ht
      · by_cases hd : dir = KTreemapHorizontal
        · right; simp [hd]
        · left; simp [hd]
      · exact ih _ _ t ht
    · exact ih _ _ t ht

/-- With `scale = 0` (a rectangle of zero area) every tile of a row has zero
area, and with `minTileSize >= 1` the row gets no tile. -/
theorem layoutRow_scale_zero (view : KTreemapView) (surface : KCushionSurface) (rect : Rect)
    (row : List KFileInfo) :
    (∀ t ∈ (layoutRow view surface rect 0 row).1, t.rect.area = 0) ∧
      (1 ≤ view.minTileSize → (layoutRow view surface rect 0 row).1 = []) := by
  have hsec : rowSecondary rect 0 row = 0 := by
    simp [rowSecondary, truncate_zero]
  unfold layoutRow
  split
  · simp
  · simp only [hsec]
    split
    · simp
    · split
      · simp
      · rename_i h1 h2 h3
        constructor
        · intro t ht
          rcases layoutRowLoop_secondary _ _ _ _ _ _ _ _ _ _ t ht with h | h
          · simp [Rect.area, h]
          · simp [Rect.area, h]
        · intro hmin
          omega

theorem simpleLoop_rect_form (p : Platform) (view : KTreemapView) (dir childDir : KOrientation)
    (rect : Rect) (scale : ℚ) (surface : KCushionSurface) :
    ∀ (l : List KFileInfo) (offset : Int) (ts : List ChildTile),
      createChildrenSimpleLoop p view dir childDir rect scale surface l offset = some ts →
      ∀ t ∈ ts, ∃ (c : KFileInfo) (o : Int), c ∈ l ∧ t.orig = c ∧
        t.rect = (if dir = KTreemapHorizontal then
            ⟨rect.x + o, rect.y, truncate (scale * (c.totalSize : ℚ)), rect.height⟩
          else ⟨rect.x, rect.y + o, rect.width, truncate (scale * (c.totalSize : ℚ))⟩) := by
  intro l
  induction l with
  | nil =>
    intro offset ts h
    simp only [createChildrenSimpleLoop, Option.some.injEq] at h
    subst h
    simp
  | cons c rest ih =>
    intro offset ts h
    simp only [createChildrenSimpleLoop] at h
    split at h
    · exact absurd h (by simp)
    · cases hrec : createChildrenSimpleLoop p view dir childDir rect scale surface rest
          (offset + truncate (scale * (c.totalSize : ℚ))) with
      | none => rw [hrec] at h; simp at h
      | some ts1 =>
        rw [hrec] at h
        simp only [Option.map_some', Option.some.injEq] at h
        subst h
        intro t ht
        rcases List.mem_cons.mp ht with rfl | ht
        · exact ⟨c, offset, List.mem_cons_self _ _, rfl, rfl⟩
        · obtain ⟨d, o, hd, h1, h2⟩ := ih _ _ hrec t ht
          exact ⟨d, o, List.mem_cons_of_mem _ hd, h1, h2⟩

/-- C5 fails as stated: in the simple strategy the rectangle 100x0 (zero area)
with orientation horizontal and `minTileSize = 1` gives the only child of a
node of weight 100 a tile, with rectangle 100x0. -/
theorem zero_area_rect_gets_tile :
    (⟨0, 0, 100, 0⟩ : Rect).area = 0 ∧
    (createChildren Platform.debug ⟨false, 1, 1 / 2⟩ (.mk 0 100 [.leaf 1 100] none)
        ⟨0, 0, 0, 0, 1⟩ ⟨0, 0, 100, 0⟩ KTreemapHorizontal).map
        (fun c => c.tiles.map (fun t => (t.orig, t.rect))) =
      some [(.leaf 1 100, ⟨0, 0, 100, 0⟩)] := by
  refine ⟨by decide, ?_⟩
  norm_num [createChildren, createChildrenSimple, createChildrenSimpleLoop, simpleDir,
    simpleChildDir, sortedChildBySize, sortCandidates, minSizeFor, truncate, Platform.debug,
    stableSort, KFileInfo.totalSize, KFileInfo.children, KFileInfo.dotEntry, KFileInfo.leaf]

/-- C5, amended: for both strategies, every node, every orientation and every
`minTileSize`, the child tiles created in a rectangle of zero area (width = 0
or height = 0) all have zero area themselves; in the squarified strategy with
`minTileSize >= 1` no child tile is created at all. -/
theorem zero_area_rect (p : Platform) (view : KTreemapView) (orig : KFileInfo)
    (surface : KCushionSurface) (rect : Rect) (orientation : KOrientation)
    (hz : rect.width = 0 ∨ rect.height = 0) :
    (∀ c, createChildren p view orig surface rect orientation = some c →
      ∀ t ∈ c.tiles, t.rect.area = 0) ∧
    (view.squarify = true → 1 ≤ view.minTileSize →
      createChildren p view orig surface rect orientation = some ⟨surface, []⟩) := by
  have hscale : (rect.width : ℚ) * (rect.height : ℚ) / (orig.totalSize : ℚ) = 0 := by
    rcases hz with h | h <;> simp [h]
  constructor
  · intro c hc
    unfold createChildren at hc
    split at hc
    · simp only [Option.some.injEq] at hc
      subst hc
      simp
    · rename_i hT
      split at hc
      · simp only [Option.some.injEq] at hc
        subst hc
        unfold createSquarifiedChildren
        simp only [hT, if_false, hscale]
        intro t ht
        simp only [List.mem_flatten, List.mem_map] at ht
        obtain ⟨ts, ⟨r, hr, rfl⟩, ht⟩ := ht
        exact squarifiedRows_forall view surface 0 (fun r => ∀ t ∈ r.tiles, t.rect.area = 0)
          (fun rect it => (layoutRow_scale_zero view surface rect _).1) _ _ _ (le_refl _)
          r hr t ht
      · unfold createChildrenSimple at hc
        simp only [Option.map_eq_some'] at hc
        obtain ⟨ts, hts, rfl⟩ := hc
        intro t ht
        obtain ⟨d, o, _, _, hrect⟩ := simpleLoop_rect_form _ _ _ _ _ _ _ _ _ _ hts t ht
        rw [hrect]
        by_cases hd : simpleDir rect orientation = KTreemapHorizontal
        · simp only [hd, if_true, Rect.area]
          rcases hz with h | h
          · simp [h, truncate_zero]
          · simp [h]
        · simp only [hd, if_false, Rect.area]
          rcases hz with h | h
          · simp [h]
          · simp [h, truncate_zero]
  · intro hsq hmin
    unfold createChildren
    split
    · rfl
    · rename_i hT
      simp only [hsq, if_true, Option.some.injEq]
      unfold createSquarifiedChildren
      simp only [hT, if_false, hscale]
      congr 1
      rw [List.flatten_eq_nil_iff]
      intro ts hts
      simp only [List.mem_map] at hts
      obtain ⟨r, hr, rfl⟩ := hts
      exact squarifiedRows_forall view surface 0 (fun r => r.tiles = [])
        (fun rect it => (layoutRow_scale_zero view surface rect _).2 hmin) _ _ _ (le_refl _)
        r hr

theorem zero_area_rect_witness :
    ((⟨0, 0, 0, 50⟩ : Rect).width = 0 ∨ (⟨0, 0, 0, 50⟩ : Rect).height = 0) ∧
      createChildren Platform.debug ⟨true, 1, 1 / 2⟩ exampleRoot ⟨0, 0, 0, 0, 1⟩
        ⟨0, 0, 0, 50⟩ KTreemapAuto = some ⟨⟨0, 0, 0, 0, 1⟩, []⟩ :=
  ⟨Or.inl rfl,
    (zero_area_rect Platform.debug ⟨true, 1, 1 / 2⟩ exampleRoot ⟨0, 0, 0, 0, 1⟩
      ⟨0, 0, 0, 50⟩ KTreemapAuto (Or.inl rfl)).2 rfl (by decide)⟩

/-! ## C6: the size threshold -/

/-- C6, the code at the failing inputs. Simple strategy: node of weight 50 with
children of weight 48 and 2, rectangle 100x50, horizontal, `minTileSize = 5`,
so `scale = 2` and the threshold handed to `sortedChildBySize` is
`(KFileSize)(5 / 2.0) = 2`. The child of weight 2 has `scale * weight = 4 < 5`
but is not filtered out: with `NDEBUG` it receives a tile 4 wide, otherwise the
`assert(childSize >= minTileSize)` fails. Squarified strategy: node of weight 4
with children of weight 3 and 1, rectangle 3x1, `minTileSize = 1`, so
`scale = 3/4` and the threshold is `(KFileSize)(1 / 0.75) = 1`; the child of
weight 1 has `scale * weight = 3/4 < 1` and receives the tile 1x1 at x = 2. -/
theorem below_threshold_child_gets_tile :
    ((100 : ℚ) / 50) * 2 < 5 ∧
    minSizeFor Platform.release 5 ((100 : ℚ) / 50) = 2 ∧
    (createChildren Platform.release ⟨false, 5, 1 / 2⟩
        (.mk 0 50 [.leaf 1 48, .leaf 2 2] none) ⟨0, 0, 0, 0, 1⟩ ⟨0, 0, 100, 50⟩
        KTreemapHorizontal).map (fun c => c.tiles.map ChildTile.place) =
      some [(.leaf 1 48, ⟨0, 0, 96, 50⟩), (.leaf 2 2, ⟨96, 0, 4, 50⟩)] ∧
    (createChildren Platform.debug ⟨false, 5, 1 / 2⟩
        (.mk 0 50 [.leaf 1 48, .leaf 2 2] none) ⟨0, 0, 0, 0, 1⟩ ⟨0, 0, 100, 50⟩
        KTreemapHorizontal).isNone ∧
    ((3 : ℚ) * 1 / 4) * 1 < 1 ∧
    (createChildren Platform.debug ⟨true, 1, 1 / 2⟩
        (.mk 0 4 [.leaf 1 3, .leaf 2 1] none) ⟨0, 0, 0, 0, 1⟩ ⟨0, 0, 3, 1⟩
        KTreemapAuto).map (fun c => c.tiles.map ChildTile.place) =
      some [(.leaf 1 3, ⟨0, 0, 2, 1⟩), (.leaf 2 1, ⟨2, 0, 1, 1⟩)] := by
  refine ⟨by norm_num, ?_, ?_, ?_, by norm_num, ?_⟩
  · norm_num [minSizeFor, truncate]
  · norm_num [createChildren, createChildrenSimple, createChildrenSimpleLoop, simpleDir,
      simpleChildDir, sortedChildBySize, sortCandidates, minSizeFor, truncate,
      Platform.release, stableSort, KFileInfo.totalSize, KFileInfo.children,
      KFileInfo.dotEntry, KFileInfo.leaf, ChildTile.place]
  · norm_num [createChildren, createChildrenSimple, createChildrenSimpleLoop, simpleDir,
      simpleChildDir, sortedChildBySize, sortCandidates, minSizeFor, truncate,
      Platform.debug, stableSort, KFileInfo.totalSize, KFileInfo.children,
      KFileInfo.dotEntry, KFileInfo.leaf, ChildTile.place]
  · norm_num [createChildren, createSquarifiedChildren, squarifiedRows, squarify,
      squarifyLoop, worstAspectRatio, layoutRow, layoutRowLoop, rowSecondary,
      sortedChildBySize, sortCandidates, minSizeFor, truncate,
      Platform.debug, stableSort, KFileInfo.totalSize, KFileInfo.children,
      KFileInfo.dotEntry, KFileInfo.leaf, ChildTile.place, AspectValue.geZero,
      AspectValue.gt]

/-! ## C7: the configuration is not checked -/

theorem simpleLoop_place_eq (p : Platform) (sq : Bool) (m : Int) (h1 h2 : ℚ)
    (dir childDir : KOrientation) (rect : Rect) (scale : ℚ) (s1 s2 : KCushionSurface) :
    ∀ (l : List KFileInfo) (offset : Int),
      (createChildrenSimpleLoop p ⟨sq, m, h1⟩ dir childDir rect scale s1 l offset).map
          (fun ts => ts.map ChildTile.place) =
        (createChildrenSimpleLoop p ⟨sq, m, h2⟩ dir childDir rect scale s2 l offset).map
          (fun ts => ts.map ChildTile.place) := by
  intro l
  induction l with
  | nil => intro offset; simp [createChildrenSimpleLoop]
  | cons c rest ih =>
    intro offset
    simp only [createChildrenSimpleLoop]
    split
    · rfl
    · have := ih (offset + truncate (scale * (c.totalSize : ℚ)))
      simp only [Option.map_map] at this ⊢
      cases hA : createChildrenSimpleLoop p ⟨sq, m, h1⟩ dir childDir rect scale s1 rest
          (offset + truncate (scale * (c.totalSize : ℚ))) <;>
        cases hB : createChildrenSimpleLoop p ⟨sq, m, h2⟩ dir childDir rect scale s2 rest
          (offset + truncate (scale * (c.totalSize : ℚ))) <;>
        simp [hA, hB, ChildTile.place] at this ⊢
      exact this

theorem layoutRowLoop_place_eq (sq : Bool) (m : Int) (h1 h2 : ℚ) (dir : KOrientation)
    (rect : Rect) (secondary : Int) (sum : Nat) (primary : Int) (s1 s2 : KCushionSurface) :
    ∀ (row : List KFileInfo) (offset remaining : Int),
      (layoutRowLoop ⟨sq, m, h1⟩ dir rect secondary sum primary s1 row offset remaining).map
          ChildTile.place =
        (layoutRowLoop ⟨sq, m, h2⟩ dir rect secondary sum primary s2 row offset remaining).map
          ChildTile.place := by
  intro row
  induction row with
  | nil => intro offset remaining; simp [layoutRowLoop]
  | cons c rest ih =>
    intro offset remaining
    simp only [layoutRowLoop]
    generalize (if truncate ((c.totalSize : ℚ) / (sum : ℚ) * (primary : ℚ) + 1 / 2) > remaining
      then remaining
      else truncate ((c.totalSize : ℚ) / (sum : ℚ) * (primary : ℚ) + 1 / 2)) = cs
    split
    · simp only [List.map_cons, ChildTile.place]
      rw [List.cons.injEq]
      exact ⟨rfl, ih _ _⟩
    · exact ih _ _

theorem layoutRow_place_eq (sq : Bool) (m : Int) (h1 h2 : ℚ) (surface : KCushionSurface)
    (rect : Rect) (scale : ℚ) (row : List KFileInfo) :
    (layoutRow ⟨sq, m, h1⟩ surface rect scale row).1.map ChildTile.place =
        (layoutRow ⟨sq, m, h2⟩ surface rect scale row).1.map ChildTile.place ∧
      (layoutRow ⟨sq, m, h1⟩ surface rect scale row).2 =
        (layoutRow ⟨sq, m, h2⟩ surface rect scale row).2 := by
  unfold layoutRow
  split
  · exact ⟨rfl, rfl⟩
  · simp only
    split
    · exact ⟨rfl, rfl⟩
    · split
      · exact ⟨rfl, rfl⟩
      · exact ⟨layoutRowLoop_place_eq sq m h1 h2 _ _ _ _ _ _ _ _ _ _, rfl⟩

theorem squarifiedRows_place_eq (sq : Bool) (m : Int) (h1 h2 : ℚ)
    (surface : KCushionSurface) (scale : ℚ) :
    ∀ (n : Nat) (rect : Rect) (it : List KFileInfo), it.length ≤ n →
      (((squarifiedRows ⟨sq, m, h1⟩ surface scale rect it).map RowLayout.tiles).flatten).map
          ChildTile.place =
        (((squarifiedRows ⟨sq, m, h2⟩ surface scale rect it).map RowLayout.tiles).flatten).map
          ChildTile.place := by
  intro n
  induction n with
  | zero =>
    intro rect it hlen
    have : it = [] := List.length_eq_zero.mp (Nat.le_zero.mp hlen)
    subst this
    simp [squarifiedRows]
  | succ n ih =>
    intro rect it hlen
    cases it with
    | nil => simp [squarifiedRows]
    | cons c rest =>
      rw [squarifiedRows_cons, squarifiedRows_cons]
      have hlt := squarify_snd_length_lt rect scale c rest
      simp only [List.length_cons] at hlt hlen
      obtain ⟨e1, e2⟩ := layoutRow_place_eq sq m h1 h2 surface rect scale
        (squarify rect scale (c :: rest)).1
      simp only [List.map_cons, List.flatten_cons, List.map_append]
      rw [e1, e2, ih _ _ (by omega)]

theorem simpleLoop_isSome_of_nonpos (p : Platform) (view : KTreemapView)
    (hmin : view.minTileSize ≤ 0) (dir childDir : KOrientation) (rect : Rect) (scale : ℚ)
    (hs : 0 ≤ scale) (surface : KCushionSurface) :
    ∀ (l : List KFileInfo) (offset : Int),
      (createChildrenSimpleLoop p view dir childDir rect scale surface l offset).isSome := by
  intro l
  induction l with
  | nil => intro offset; simp [createChildrenSimpleLoop]
  | cons c rest ih =>
    intro offset
    have hc : 0 ≤ truncate (scale * (c.totalSize : ℚ)) :=
      truncate_nonneg (mul_nonneg hs (Nat.cast_nonneg _))
    have hnot : ¬ (truncate (scale * (c.totalSize : ℚ)) < view.minTileSize) := by omega
    simp only [createChildrenSimpleLoop, hnot, decide_False, Bool.and_false,
      Bool.false_eq_true, if_false, Option.isSome_map']
    exact ih _

/-- C7 fails as stated: with `heightScaleFactor = 0` the squarified layout of
the worked example still returns its four tiles, and with `minTileSize = -1`
the simple layout of a node with one child still returns that child's tile; no
error is reported. -/
theorem invalid_configuration_accepted :
    (createChildren Platform.debug ⟨true, 1, 0⟩ exampleRoot ⟨0, 0, 0, 0, 1⟩ ⟨0, 0, 100, 50⟩
        KTreemapAuto).map (fun c => c.tiles.map ChildTile.place) =
      some [(.leaf 1 50, ⟨0, 0, 63, 40⟩), (.leaf 2 30, ⟨63, 0, 37, 40⟩),
        (.leaf 3 15, ⟨0, 40, 75, 10⟩), (.leaf 4 5, ⟨75, 40, 25, 10⟩)] ∧
    (createChildren Platform.debug ⟨false, -1, 1 / 2⟩ (.mk 0 100 [.leaf 1 100] none)
        ⟨0, 0, 0, 0, 1⟩ ⟨0, 0, 100, 50⟩ KTreemapHorizontal).map
        (fun c => c.tiles.map ChildTile.place) =
      some [(.leaf 1 100, ⟨0, 0, 100, 50⟩)] := by
  constructor
  · have hscale : ((100 : Int) : ℚ) * ((50 : Int) : ℚ) / ((100 : Nat) : ℚ) = 50 := by
      norm_num
    have hmin : minSizeFor Platform.debug 1 50 = 0 := by norm_num [minSizeFor, truncate]
    have hT : exampleRoot.totalSize = 100 := rfl
    simp only [createChildren, createSquarifiedChildren, hT, hscale, hmin,
      exampleRoot_sorted Platform.debug debug_sortConforms]
    norm_num [squarifiedRows, squarify, squarifyLoop, worstAspectRatio, layoutRow,
      layoutRowLoop, rowSecondary, truncate, KFileInfo.totalSize, KFileInfo.leaf,
      AspectValue.geZero, AspectValue.gt, ChildTile.place]
  · norm_num [createChildren, createChildrenSimple, createChildrenSimpleLoop, simpleDir,
      simpleChildDir, sortedChildBySize, sortCandidates, minSizeFor, truncate,
      Platform.debug, stableSort, KFileInfo.totalSize, KFileInfo.children,
      KFileInfo.dotEntry, KFileInfo.leaf, ChildTile.place]

/-- C7, amended: `createChildren` does not check the configuration and has no
`InvalidConfiguration` outcome. For every node and rectangle the value of
`heightScaleFactor` (also zero or negative) changes neither whether
`createChildren` returns nor the child nodes and rectangles it creates; the
squarified strategy always returns; and with `minTileSize <= 0` and a rectangle
of non-negative width and height the simple strategy returns as well (its
assertion `childSize >= minTileSize` cannot fail). -/
theorem createChildren_no_configuration_check (p : Platform) (sq : Bool) (m : Int)
    (h1 h2 : ℚ) (orig : KFileInfo) (surface : KCushionSurface) (rect : Rect)
    (orientation : KOrientation) :
    (createChildren p ⟨sq, m, h1⟩ orig surface rect orientation).map
        (fun c => c.tiles.map ChildTile.place) =
      (createChildren p ⟨sq, m, h2⟩ orig surface rect orientation).map
        (fun c => c.tiles.map ChildTile.place) ∧
    (sq = true → (createChildren p ⟨sq, m, h1⟩ orig surface rect orientation).isSome) ∧
    (m ≤ 0 → 0 ≤ rect.width → 0 ≤ rect.height →
      (createChildren p ⟨sq, m, h1⟩ orig surface rect orientation).isSome) := by
  refine ⟨?_, ?_, ?_⟩
  · unfold createChildren
    split
    · rfl
    · rename_i hT
      cases sq with
      | true =>
        simp only [if_true, Option.map_some', Option.some.injEq]
        unfold createSquarifiedChildren
        simp only [hT, if_false]
        exact squarifiedRows_place_eq true m h1 h2 surface _ _ _ _ (le_refl _)
      | false =>
        simp only [Bool.false_eq_true, if_false]
        unfold createChildrenSimple
        simp only [Option.map_map]
        have := simpleLoop_place_eq p false m h1 h2 (simpleDir rect orientation)
          (simpleChildDir orientation) rect
          ((if simpleDir rect orientation = KTreemapHorizontal then rect.width
            else rect.height : Int) / (orig.totalSize : ℚ))
          (surface.addRidge (simpleChildDir orientation) surface.height rect)
          (surface.addRidge (simpleChildDir orientation) surface.height rect)
          (sortedChildBySize p orig (minSizeFor p m
            ((if simpleDir rect orientation = KTreemapHorizontal then rect.width
              else rect.height : Int) / (orig.totalSize : ℚ)))) 0
        exact this
  · intro hsq
    subst hsq
    unfold createChildren
    split <;> simp
  · intro hm hw hh
    unfold createChildren
    split
    · simp
    · split
      · simp
      · unfold createChildrenSimple
        simp only [Option.isSome_map']
        apply simpleLoop_isSome_of_nonpos p _ hm
        apply div_nonneg _ (Nat.cast_nonneg _)
        split <;> exact_mod_cast (by assumption)

theorem createChildren_no_configuration_check_witness :
    (createChildren Platform.debug ⟨false, -3, -1⟩ exampleRoot ⟨0, 0, 0, 0, 1⟩
      ⟨0, 0, 100, 50⟩ KTreemapAuto).isSome :=
  (createChildren_no_configuration_check Platform.debug false (-3) (-1) 1 exampleRoot
    ⟨0, 0, 0, 0, 1⟩ ⟨0, 0, 100, 50⟩ KTreemapAuto).2.2 (by decide) (by decide) (by decide)

/-! ## The simple strategy: the loop and its input -/

theorem createChildrenSimple_eq (p : Platform) (view : KTreemapView) (orig : KFileInfo)
    (surface : KCushionSurface) (rect : Rect) (orientation : KOrientation) :
    createChildrenSimple p view orig surface rect orientation =
      (createChildrenSimpleLoop p view (simpleDir rect orientation)
        (simpleChildDir orientation) rect (simpleScale orig rect orientation)
        (surface.addRidge (simpleChildDir orientation) surface.height rect)
        (sortedChildBySize p orig
          (minSizeFor p view.minTileSize (simpleScale orig rect orientation))) 0).map
        (fun ts => ⟨surface.addRidge (simpleChildDir orientation) surface.height rect, ts⟩) :=
  rfl

theorem sum_sortCandidates_eq (info : KFileInfo) (minSize : Int)
    (hall : ∀ c, (c ∈ info.children ∨ info.dotEntry = some c) →
      minSize ≤ (c.totalSize : Int)) :
    ((sortCandidates info minSize).map KFileInfo.totalSize).sum = info.childrenSize := by
  unfold sortCandidates KFileInfo.childrenSize
  have h1 : info.children.filter (fun c => decide (minSize ≤ (c.totalSize : Int))) =
      info.children := by
    rw [List.filter_eq_self]
    intro c hc
    simpa using hall c (Or.inl hc)
  rw [h1]
  cases hd : info.dotEntry with
  | none => simp
  | some d =>
    have := hall d (Or.inr hd)
    simp [this]

/-! ## C12: aspect ratios in the worked example -/

theorem exampleRoot_sorted_one (p : Platform) (hp : p.SortConforms) :
    sortedChildBySize p exampleRoot 1 =
      [.leaf 1 50, .leaf 2 30, .leaf 3 15, .leaf 4 5] := by
  have hs : p.stdSort [.leaf 1 50, .leaf 2 30, .leaf 3 15, .leaf 4 5] =
      [.leaf 1 50, .leaf 2 30, .leaf 3 15, .leaf 4 5] := by
    apply stdSort_of_strictly_descending p hp
    simp [KFileInfo.leaf, KFileInfo.totalSize]
  have hc : sortCandidates exampleRoot 1 =
      [.leaf 1 50, .leaf 2 30, .leaf 3 15, .leaf 4 5] := by
    simp [sortCandidates, exampleRoot, KFileInfo.children, KFileInfo.dotEntry,
      KFileInfo.leaf, KFileInfo.totalSize]
  rw [sortedChildBySize, hc, hs]

/-- The tiles of the worked example under the squarified strategy. -/
theorem exampleRoot_squarified_places (p : Platform) (hp : p.SortConforms)
    (surface : KCushionSurface) (hsf : ℚ) (orientation : KOrientation) :
    (createChildren p ⟨true, 1, hsf⟩ exampleRoot surface ⟨0, 0, 100, 50⟩ orientation).map
        (fun c => c.tiles.map ChildTile.place) =
      some [(.leaf 1 50, ⟨0, 0, 63, 40⟩), (.leaf 2 30, ⟨63, 0, 37, 40⟩),
        (.leaf 3 15, ⟨0, 40, 75, 10⟩), (.leaf 4 5, ⟨75, 40, 25, 10⟩)] := by
  have hscale : ((100 : Int) : ℚ) * ((50 : Int) : ℚ) / ((100 : Nat) : ℚ) = 50 := by
    norm_num
  have hmin : minSizeFor p 1 50 = 0 := by norm_num [minSizeFor, truncate]
  have hT : exampleRoot.totalSize = 100 := rfl
  simp only [createChildren, createSquarifiedChildren, hT, hscale, hmin,
    exampleRoot_sorted p hp]
  norm_num [squarifiedRows, squarify, squarifyLoop, worstAspectRatio, layoutRow,
    layoutRowLoop, rowSecondary, truncate, KFileInfo.totalSize, KFileInfo.leaf,
    AspectValue.geZero, AspectValue.gt, ChildTile.place]

/-- The tiles of the worked example under the simple strategy, orientation
`KTreemapAuto`. -/
theorem exampleRoot_simple_places (p : Platform) (hp : p.SortConforms)
    (surface : KCushionSurface) (hsf : ℚ) :
    (createChildren p ⟨false, 1, hsf⟩ exampleRoot surface ⟨0, 0, 100, 50⟩
        KTreemapAuto).map (fun c => c.tiles.map ChildTile.place) =
      some [(.leaf 1 50, ⟨0, 0, 50, 50⟩), (.leaf 2 30, ⟨50, 0, 30, 50⟩),
        (.leaf 3 15, ⟨80, 0, 15, 50⟩), (.leaf 4 5, ⟨95, 0, 5, 50⟩)] := by
  have hT : exampleRoot.totalSize = 100 := rfl
  have hscale : simpleScale exampleRoot ⟨0, 0, 100, 50⟩ KTreemapAuto = 1 := by
    norm_num [simpleScale, primaryExtent, simpleDir, hT]
  have hmin : minSizeFor p 1 1 = 1 := by norm_num [minSizeFor, truncate]
  have hdir : simpleDir ⟨0, 0, 100, 50⟩ KTreemapAuto = KTreemapHorizontal := by
    simp [simpleDir]
  simp only [createChildren, hT, createChildrenSimple_eq, hscale, hmin, hdir,
    exampleRoot_sorted_one p hp]
  norm_num [createChildrenSimpleLoop, truncate, KFileInfo.totalSize, KFileInfo.leaf,
    ChildTile.place]

/-- C12 fails as stated: in the worked example the child of weight 50 gets the
tile 63x40 (aspect ratio 63/40) under the squarified strategy and the square
50x50 (aspect ratio 1) under the simple strategy; the child of weight 15 gets
75x10 (ratio 15/2) against 15x50 (ratio 10/3). -/
theorem squarified_aspect_ratio_worse :
    (createChildren Platform.debug ⟨true, 1, 1 / 2⟩ exampleRoot ⟨0, 0, 0, 0, 1⟩
        ⟨0, 0, 100, 50⟩ KTreemapAuto).map (fun c => c.tiles.map ChildTile.place) =
      some [(.leaf 1 50, ⟨0, 0, 63, 40⟩), (.leaf 2 30, ⟨63, 0, 37, 40⟩),
        (.leaf 3 15, ⟨0, 40, 75, 10⟩), (.leaf 4 5, ⟨75, 40, 25, 10⟩)] ∧
    (createChildren Platform.debug ⟨false, 1, 1 / 2⟩ exampleRoot ⟨0, 0, 0, 0, 1⟩
        ⟨0, 0, 100, 50⟩ KTreemapAuto).map (fun c => c.tiles.map ChildTile.place) =
      some [(.leaf 1 50, ⟨0, 0, 50, 50⟩), (.leaf 2 30, ⟨50, 0, 30, 50⟩),
        (.leaf 3 15, ⟨80, 0, 15, 50⟩), (.leaf 4 5, ⟨95, 0, 5, 50⟩)] ∧
    aspectRatio ⟨0, 0, 50, 50⟩ < aspectRatio ⟨0, 0, 63, 40⟩ ∧
    aspectRatio ⟨80, 0, 15, 50⟩ < aspectRatio ⟨0, 40, 75, 10⟩ := by
  have h1 := exampleRoot_squarified_places Platform.debug debug_sortConforms
    ⟨0, 0, 0, 0, 1⟩ (1 / 2) KTreemapAuto
  have h2 := exampleRoot_simple_places Platform.debug debug_sortConforms
    ⟨0, 0, 0, 0, 1⟩ (1 / 2)
  have h3 : aspectRatio ⟨0, 0, 50, 50⟩ < aspectRatio ⟨0, 0, 63, 40⟩ := by
    norm_num [aspectRatio]
  have h4 : aspectRatio ⟨80, 0, 15, 50⟩ < aspectRatio ⟨0, 40, 75, 10⟩ := by
    norm_num [aspectRatio]
  exact ⟨h1, h2, h3, h4⟩

theorem places_eq_four {α : Type} (f : ChildTile → α) (ts : List ChildTile) (a b c d : α)
    (h : ts.map f = [a, b, c, d]) :
    ∃ t1 t2 t3 t4, ts = [t1, t2, t3, t4] ∧ f t1 = a ∧ f t2 = b ∧ f t3 = c ∧ f t4 = d := by
  rcases ts with _ | ⟨t1, _ | ⟨t2, _ | ⟨t3, _ | ⟨t4, _ | ⟨t5, tl⟩⟩⟩⟩⟩ <;>
    simp only [List.map_cons, List.map_nil, List.cons.injEq, and_true, and_false,
      reduceCtorEq] at h
  exact ⟨t1, t2, t3, t4, rfl, h.1, h.2.1, h.2.2.1, h.2.2.2⟩

/-- C12, amended: in the worked example (root weight 100, leaf children of
weights 50, 30, 15, 5, rectangle 100x50, `minTileSize = 1`) both strategies
place all four children; the largest aspect ratio among the squarified tiles
(15/2) is at most the largest among the tiles of the simple strategy with
orientation `KTreemapAuto` (10); and the children of weight 30 and 5 get an
aspect ratio under the squarified strategy that is at most the one they get
under the simple strategy. -/
theorem example_aspect_ratios (p : Platform) (hp : p.SortConforms)
    (surface : KCushionSurface) (hsf : ℚ) :
    ∃ sq si : Children,
      createChildren p ⟨true, 1, hsf⟩ exampleRoot surface ⟨0, 0, 100, 50⟩ KTreemapAuto =
        some sq ∧
      createChildren p ⟨false, 1, hsf⟩ exampleRoot surface ⟨0, 0, 100, 50⟩ KTreemapAuto =
        some si ∧
      sq.tiles.length = 4 ∧ si.tiles.length = 4 ∧
      maxAspectRatio sq.tiles = 15 / 2 ∧ maxAspectRatio si.tiles = 10 ∧
      maxAspectRatio sq.tiles ≤ maxAspectRatio si.tiles ∧
      (∀ t ∈ sq.tiles, ∀ u ∈ si.tiles, t.orig = u.orig →
        t.orig.totalSize = 30 ∨ t.orig.totalSize = 5 →
        aspectRatio t.rect ≤ aspectRatio u.rect) := by
  have h1 := exampleRoot_squarified_places p hp surface hsf KTreemapAuto
  have h2 := exampleRoot_simple_places p hp surface hsf
  cases hsq : createChildren p ⟨true, 1, hsf⟩ exampleRoot surface ⟨0, 0, 100, 50⟩
      KTreemapAuto with
  | none => rw [hsq] at h1; simp at h1
  | some sq =>
    cases hsi : createChildren p ⟨false, 1, hsf⟩ exampleRoot surface ⟨0, 0, 100, 50⟩
        KTreemapAuto with
    | none => rw [hsi] at h2; simp at h2
    | some si =>
      rw [hsq] at h1
      rw [hsi] at h2
      simp only [Option.map_some', Option.some.injEq] at h1 h2
      obtain ⟨a1, a2, a3, a4, ha, e1, e2, e3, e4⟩ := places_eq_four _ _ _ _ _ _ h1
      obtain ⟨b1, b2, b3, b4, hb, f1, f2, f3, f4⟩ := places_eq_four _ _ _ _ _ _ h2
      simp only [ChildTile.place, Prod.mk.injEq] at e1 e2 e3 e4 f1 f2 f3 f4
      refine ⟨sq, si, rfl, rfl, by simp [ha], by simp [hb], ?_, ?_, ?_, ?_⟩
      · rw [ha]
        norm_num [maxAspectRatio, aspectRatio, e1.2, e2.2, e3.2, e4.2]
      · rw [hb]
        norm_num [maxAspectRatio, aspectRatio, f1.2, f2.2, f3.2, f4.2]
      · rw [ha, hb]
        norm_num [maxAspectRatio, aspectRatio, e1.2, e2.2, e3.2, e4.2, f1.2, f2.2, f3.2,
          f4.2]
      · intro t ht u hu htu hw
        rw [ha] at ht
        rw [hb] at hu
        simp only [List.mem_cons, List.mem_singleton, List.not_mem_nil, or_false] at ht hu
        rcases ht with rfl | rfl | rfl | rfl <;> rcases hu with rfl | rfl | rfl | rfl <;>
          simp_all [KFileInfo.leaf, KFileInfo.totalSize, aspectRatio] <;> norm_num

theorem example_aspect_ratios_witness :
    Platform.debug.SortConforms ∧
      (createChildren Platform.debug ⟨true, 1, 1 / 2⟩ exampleRoot ⟨0, 0, 0, 0, 1⟩
        ⟨0, 0, 100, 50⟩ KTreemapAuto).map (fun c => maxAspectRatio c.tiles) =
          some (15 / 2) := by
  refine ⟨debug_sortConforms, ?_⟩
  obtain ⟨sq, si, h1, _, _, _, h3, _⟩ :=
    example_aspect_ratios Platform.debug debug_sortConforms ⟨0, 0, 0, 0, 1⟩ (1 / 2)
  rw [h1, Option.map_some', h3]

/-! ## C17: the closed form of the worst aspect ratio -/

theorem le_foldr_max (l : List ℚ) (x : ℚ) (hx : x ∈ l) : x ≤ l.foldr max 0 := by
  induction l with
  | nil => simp at hx
  | cons a rest ih =>
    simp only [List.foldr_cons]
    rcases List.mem_cons.mp hx with rfl | h
    · exact le_max_left _ _
    · exact le_trans (ih h) (le_max_right _ _)

theorem foldr_max_le (l : List ℚ) (b : ℚ) (hb : 0 ≤ b) (h : ∀ x ∈ l, x ≤ b) :
    l.foldr max 0 ≤ b := by
  induction l with
  | nil => simpa using hb
  | cons a rest ih =>
    simp only [List.foldr_cons]
    exact max_le (h a (List.mem_cons_self _ _))
      (ih (fun x hx => h x (List.mem_cons_of_mem _ hx)))

theorem getLast_le_of_pairwise (row : List KFileInfo) (last : KFileInfo)
    (hlast : row.getLast? = some last)
    (hsorted : row.Pairwise (fun a b => b.totalSize ≤ a.totalSize)) :
    ∀ c ∈ row, last.totalSize ≤ c.totalSize := by
  induction row with
  | nil => simp
  | cons a rest ih =>
    intro c hc
    cases rest with
    | nil =>
      simp only [List.getLast?_singleton, Option.some.injEq] at hlast
      simp only [List.mem_singleton] at hc
      subst hlast; subst hc; exact le_refl _
    | cons b tl =>
      have hl : (b :: tl).getLast? = some last := by
        simpa [List.getLast?_cons_cons] using hlast
      have hmem : last ∈ b :: tl := List.mem_of_getLast?_eq_some hl
      rcases List.mem_cons.mp hc with rfl | hc
      · exact (List.pairwise_cons.mp hsorted).1 last hmem
      · exact ih hl (List.pairwise_cons.mp hsorted).2 c hc

/-- C17: for a row of children with positive weights in non-increasing order, a
side length `L > 0` and `scale > 0`, the closed form
`max(L^2*first/(scale*sum^2), scale*sum^2/(L^2*last))` computed in `squarify`
is the maximum, over the members of the row, of `max(len/thick, thick/len)`
with `thick = scale*sum/L` and `len = weight*L/sum`. -/
theorem worstAspectRatio_is_true_worst (length : Int) (scale : ℚ) (row : List KFileInfo)
    (first last : KFileInfo) (hfirst : row.head? = some first)
    (hlast : row.getLast? = some last) (hL : 0 < length) (hs : 0 < scale)
    (hpos : ∀ c ∈ row, 0 < c.totalSize)
    (hsorted : row.Pairwise (fun a b => b.totalSize ≤ a.totalSize)) :
    worstAspectRatio length scale first.totalSize
        (((row.map KFileInfo.totalSize).sum : Nat) : ℚ) last.totalSize =
      AspectValue.fin (trueWorstAspect scale (length : ℚ) row) ∧
    rowWorst length scale row = AspectValue.fin (trueWorstAspect scale (length : ℚ) row) := by
  have hfm : first ∈ row := List.mem_of_mem_head? hfirst
  have hlm : last ∈ row := List.mem_of_getLast?_eq_some hlast
  have hLq : (0 : ℚ) < (length : ℚ) := by exact_mod_cast hL
  have hS : (0 : ℚ) < (((row.map KFileInfo.totalSize).sum : Nat) : ℚ) := by
    have h1 : first.totalSize ≤ (row.map KFileInfo.totalSize).sum :=
      List.single_le_sum (fun _ _ => Nat.zero_le _) _ (List.mem_map_of_mem _ hfm)
    have h2 := hpos first hfm
    exact_mod_cast lt_of_lt_of_le h2 h1
  have hle_first : ∀ c ∈ row, c.totalSize ≤ first.totalSize := by
    intro c hc
    cases row with
    | nil => simp at hc
    | cons a rest =>
      simp only [List.head?_cons, Option.some.injEq] at hfirst
      subst hfirst
      rcases List.mem_cons.mp hc with rfl | hc
      · exact le_refl _
      · exact (List.pairwise_cons.mp hsorted).1 c hc
  have hge_last := getLast_le_of_pairwise row last hlast hsorted
  generalize hSdef : (((row.map KFileInfo.totalSize).sum : Nat) : ℚ) = S at hS
  have hmember : ∀ w : ℚ, 0 < w →
      memberAspect scale S (length : ℚ) w =
        max ((length : ℚ) * (length : ℚ) / scale * w / (S * S))
          (S * S / ((length : ℚ) * (length : ℚ) / scale * w)) := by
    intro w hw
    unfold memberAspect memberLength rowThickness
    congr 1
    · field_simp
      ring
    · field_simp
      ring
  have key : max ((length : ℚ) * (length : ℚ) / scale * (first.totalSize : ℚ) / (S * S))
      (S * S / ((length : ℚ) * (length : ℚ) / scale * (last.totalSize : ℚ))) =
      trueWorstAspect scale (length : ℚ) row := by
    have hfq : (0 : ℚ) < (first.totalSize : ℚ) := by exact_mod_cast hpos first hfm
    have hlq : (0 : ℚ) < (last.totalSize : ℚ) := by exact_mod_cast hpos last hlm
    have hK : (0 : ℚ) < (length : ℚ) * (length : ℚ) / scale :=
      div_pos (mul_pos hLq hLq) hs
    have hSS : (0 : ℚ) < S * S := mul_pos hS hS
    unfold trueWorstAspect
    rw [hSdef]
    apply le_antisymm
    · apply max_le
      · refine le_trans ?_ (le_foldr_max _ (memberAspect scale S (length : ℚ)
          (first.totalSize : ℚ)) (List.mem_map_of_mem _ hfm))
        rw [hmember _ hfq]
        exact le_max_left _ _
      · refine le_trans ?_ (le_foldr_max _ (memberAspect scale S (length : ℚ)
          (last.totalSize : ℚ)) (List.mem_map_of_mem _ hlm))
        rw [hmember _ hlq]
        exact le_max_right _ _
    · apply foldr_max_le
      · exact le_max_of_le_left (div_nonneg (mul_nonneg hK.le hfq.le) hSS.le)
      · intro x hx
        simp only [List.mem_map] at hx
        obtain ⟨c, hc, rfl⟩ := hx
        have hcq : (0 : ℚ) < (c.totalSize : ℚ) := by exact_mod_cast hpos c hc
        have h1 : (c.totalSize : ℚ) ≤ (first.totalSize : ℚ) := by
          exact_mod_cast hle_first c hc
        have h2 : (last.totalSize : ℚ) ≤ (c.totalSize : ℚ) := by
          exact_mod_cast hge_last c hc
        rw [hmember _ hcq]
        apply max_le_max
        · exact div_le_div_of_nonneg_right (mul_le_mul_of_nonneg_left h1 hK.le) hSS.le
        · exact div_le_div_of_nonneg_left hSS.le (mul_pos hK hlq)
            (mul_le_mul_of_nonneg_left h2 hK.le)
  have hmain : worstAspectRatio length scale first.totalSize S last.totalSize =
      AspectValue.fin (trueWorstAspect scale (length : ℚ) row) := by
    unfold worstAspectRatio
    rw [if_neg (ne_of_gt hs)]
    simp only
    rw [key]
  refine ⟨hmain, ?_⟩
  unfold rowWorst
  rw [hfirst, hlast]
  simp only
  rw [hSdef]
  exact hmain

theorem worstAspectRatio_is_true_worst_witness :
    rowWorst 100 50 [.leaf 1 50, .leaf 2 30] =
      AspectValue.fin (trueWorstAspect 50 ((100 : Int) : ℚ) [.leaf 1 50, .leaf 2 30]) :=
  (worstAspectRatio_is_true_worst 100 50 [.leaf 1 50, .leaf 2 30] (.leaf 1 50) (.leaf 2 30)
    rfl rfl (by decide) (by norm_num)
    (by simp [KFileInfo.leaf, KFileInfo.totalSize])
    (by simp [KFileInfo.leaf, KFileInfo.totalSize])).2

/-! ## Rounding to the nearest integer -/

theorem squarifiedRows_zero_length (view : KTreemapView) (surface : KCushionSurface)
    (scale : ℚ) (rect : Rect) (hlen : max rect.width rect.height = 0) :
    ∀ (n : Nat) (it : List KFileInfo), it.length ≤ n →
      ∀ r ∈ squarifiedRows view surface scale rect it,
        r.rect = rect ∧ r.row = [] ∧ r.tiles = [] := by
  intro n
  induction n with
  | zero =>
    intro it hlt
    have : it = [] := List.length_eq_zero.mp (Nat.le_zero.mp hlt)
    subst this
    simp [squarifiedRows]
  | succ n ih =>
    intro it hlt
    cases it with
    | nil => simp [squarifiedRows]
    | cons c rest =>
      have hsq : squarify rect scale (c :: rest) = ([], rest) := by
        simp [squarify, hlen]
      have hl : layoutRow view surface rect scale [] = ([], rect) := by
        simp [layoutRow]
      rw [squarifiedRows_cons, hsq]
      simp only [hl]
      intro r hr
      rcases List.mem_cons.mp hr with rfl | hr
      · exact ⟨rfl, rfl, rfl⟩
      · simp only [List.length_cons] at hlt
        exact ih rest (by omega) r hr

/-- C19 fails as stated: after a row has been dropped because its secondary
extent is below `minTileSize`, later children still receive tiles. Node of
weight 11 with children of weights 3, 2, 2, 2, 2, rectangle 5x4,
`minTileSize = 2`: the first row (children 1 and 2) has the secondary extent 1
and gets no tile; the next row (children 3, 4, 5) has the secondary extent 2 and
the children 3 and 4 receive tiles. -/
theorem later_row_still_placed :
    (createSquarifiedRows Platform.debug ⟨true, 2, 1 / 2⟩ narrowRowNode ⟨0, 0, 0, 0, 1⟩
        ⟨0, 0, 5, 4⟩).map
        (fun r => (r.row.map KFileInfo.ident, rowSecondary r.rect (20 / 11) r.row,
          r.tiles.map ChildTile.place)) =
      [([1, 2], 1, []),
        ([3, 4, 5], 2, [(.leaf 3 2, ⟨0, 0, 2, 2⟩), (.leaf 4 2, ⟨2, 0, 2, 2⟩)])] ∧
    (createChildren Platform.debug ⟨true, 2, 1 / 2⟩ narrowRowNode ⟨0, 0, 0, 0, 1⟩
        ⟨0, 0, 5, 4⟩ KTreemapAuto).map (fun c => c.tiles.map ChildTile.place) =
      some [(.leaf 3 2, ⟨0, 0, 2, 2⟩), (.leaf 4 2, ⟨2, 0, 2, 2⟩)] := by
  have hT : narrowRowNode.totalSize = 11 := rfl
  have hscale : ((5 : Int) : ℚ) * ((4 : Int) : ℚ) / ((11 : Nat) : ℚ) = 20 / 11 := by
    norm_num
  have hmin : minSizeFor Platform.debug 2 (20 / 11) = 1 := by
    norm_num [minSizeFor, truncate]
  have hsorted : sortedChildBySize Platform.debug narrowRowNode 1 =
      [.leaf 1 3, .leaf 2 2, .leaf 3 2, .leaf 4 2, .leaf 5 2] := by
    simp [sortedChildBySize, sortCandidates, narrowRowNode, Platform.debug, stableSort,
      KFileInfo.children, KFileInfo.dotEntry, KFileInfo.leaf, KFileInfo.totalSize]
  constructor
  · simp only [createSquarifiedRows, hT, hscale, hmin, hsorted]
    norm_num [squarifiedRows, squarify, squarifyLoop, worstAspectRatio, layoutRow,
      layoutRowLoop, rowSecondary, truncate, KFileInfo.totalSize, KFileInfo.leaf,
      KFileInfo.ident, AspectValue.geZero, AspectValue.gt, ChildTile.place]
  · simp only [createChildren, createSquarifiedChildren, hT, hscale, hmin, hsorted]
    norm_num [squarifiedRows, squarify, squarifyLoop, worstAspectRatio, layoutRow,
      layoutRowLoop, rowSecondary, truncate, KFileInfo.totalSize, KFileInfo.leaf,
      KFileInfo.ident, AspectValue.geZero, AspectValue.gt, ChildTile.place]

/-- C19, amended: in `createSquarifiedChildren`, once the remaining rectangle's
longer side is zero no further child receives a tile (every later turn of the
loop has an empty row and leaves the rectangle as it is); and when a committed
row's secondary extent `(int)(rowSum * scale / primary)` is below `minTileSize`
the members of that row receive no tile and the rectangle is left as it is.
The loop then goes on with the children after that row, which may still receive
tiles. -/
theorem squarified_degenerate_guard (view : KTreemapView) (surface : KCushionSurface)
    (scale : ℚ) (rect : Rect) :
    (max rect.width rect.height = 0 →
      ∀ it : List KFileInfo, ∀ r ∈ squarifiedRows view surface scale rect it,
        r.rect = rect ∧ r.row = [] ∧ r.tiles = []) ∧
    (∀ row : List KFileInfo, rowSecondary rect scale row < view.minTileSize →
      layoutRow view surface rect scale row = ([], rect)) := by
  constructor
  · intro hlen it
    exact squarifiedRows_zero_length view surface scale rect hlen it.length it (le_refl _)
  · intro row hsec
    unfold layoutRow
    split
    · rfl
    · simp only [hsec, if_true]
      split <;> rfl

theorem squarified_degenerate_guard_witness :
    layoutRow ⟨true, 2, 1 / 2⟩ ⟨0, 0, 0, 0, 1⟩ ⟨0, 0, 5, 4⟩ (20 / 11)
        [.leaf 1 3, .leaf 2 2] = ([], ⟨0, 0, 5, 4⟩) :=
  (squarified_degenerate_guard ⟨true, 2, 1 / 2⟩ ⟨0, 0, 0, 0, 1⟩ (20 / 11) ⟨0, 0, 5, 4⟩).2
    [.leaf 1 3, .leaf 2 2]
    (by norm_num [rowSecondary, truncate, KFileInfo.leaf, KFileInfo.totalSize])

/-! ## C13: ensureContrast touches the outer column and row only -/

/-- The number of turns granted to a sampling loop does not matter once it
covers the distance to the limit. -/
theorem countSameSamples_fuel (same : Nat → Bool) (interval limit : Nat)
    (hi : 0 < interval) :
    ∀ (fuel1 fuel2 y count : Nat), limit ≤ y + fuel1 → limit ≤ y + fuel2 →
      countSameSamples same interval limit fuel1 y count =
        countSameSamples same interval limit fuel2 y count := by
  intro fuel1
  induction fuel1 with
  | zero =>
    intro fuel2 y count h1 _
    cases fuel2 with
    | zero => rfl
    | succ f =>
      have : ¬ y < limit := by omega
      simp [countSameSamples, this]
  | succ f1 ih =>
    intro fuel2 y count h1 h2
    cases fuel2 with
    | zero =>
      have : ¬ y < limit := by omega
      simp [countSameSamples, this]
    | succ f2 =>
      simp only [countSameSamples]
      split
      · exact ih f2 _ _ (by omega) (by omega)
      · rfl

theorem setPixel_frame (image : QImage) (x y value : Nat) :
    (image.setPixel x y value).width = image.width ∧
    (image.setPixel x y value).height = image.height ∧
    ∀ a b, ¬ (a = x ∧ b = y) → (image.setPixel x y value).pixel a b = image.pixel a b := by
  unfold QImage.setPixel
  split
  · refine ⟨rfl, rfl, ?_⟩
    intro a b h
    simp only [if_neg h]
  · exact ⟨rfl, rfl, fun _ _ _ => rfl⟩

theorem foldl_setPixel_column (x value : Nat) :
    ∀ (ys : List Nat) (image : QImage),
      (ys.foldl (fun img y => img.setPixel x y value) image).width = image.width ∧
      (ys.foldl (fun img y => img.setPixel x y value) image).height = image.height ∧
      ∀ a b, a ≠ x →
        (ys.foldl (fun img y => img.setPixel x y value) image).pixel a b = image.pixel a b := by
  intro ys
  induction ys with
  | nil => intro image; exact ⟨rfl, rfl, fun _ _ _ => rfl⟩
  | cons y rest ih =>
    intro image
    obtain ⟨h1, h2, h3⟩ := ih (image.setPixel x y value)
    obtain ⟨s1, s2, s3⟩ := setPixel_frame image x y value
    simp only [List.foldl_cons]
    refine ⟨h1.trans s1, h2.trans s2, ?_⟩
    intro a b hab
    rw [h3 a b hab]
    exact s3 a b (fun h => hab h.1)

theorem foldl_setPixel_row (y value : Nat) :
    ∀ (xs : List Nat) (image : QImage),
      (xs.foldl (fun img x => img.setPixel x y value) image).width = image.width ∧
      (xs.foldl (fun img x => img.setPixel x y value) image).height = image.height ∧
      ∀ a b, b ≠ y →
        (xs.foldl (fun img x => img.setPixel x y value) image).pixel a b = image.pixel a b := by
  intro xs
  induction xs with
  | nil => intro image; exact ⟨rfl, rfl, fun _ _ _ => rfl⟩
  | cons x rest ih =>
    intro image
    obtain ⟨h1, h2, h3⟩ := ih (image.setPixel x y value)
    obtain ⟨s1, s2, s3⟩ := setPixel_frame image x y value
    simp only [List.foldl_cons]
    refine ⟨h1.trans s1, h2.trans s2, ?_⟩
    intro a b hab
    rw [h3 a b hab]
    exact s3 a b (fun h => hab h.2)

theorem ensureContrastRight_frame (image : QImage) :
    (ensureContrastRight image).width = image.width ∧
    (ensureContrastRight image).height = image.height ∧
    ∀ a b, a + 1 ≠ image.width →
      (ensureContrastRight image).pixel a b = image.pixel a b := by
  unfold ensureContrastRight
  split
  · rename_i hw
    simp only
    split
    · obtain ⟨h1, h2, h3⟩ := foldl_setPixel_column (image.width - 1)
        (contrastingColor (image.pixel (image.width - 1) (image.height / 2)))
        (List.range image.height) image
      refine ⟨h1, h2, ?_⟩
      intro a b hab
      exact h3 a b (by omega)
    · exact ⟨rfl, rfl, fun _ _ _ => rfl⟩
  · exact ⟨rfl, rfl, fun _ _ _ => rfl⟩

theorem ensureContrastBottom_frame (image : QImage) :
    (ensureContrastBottom image).width = image.width ∧
    (ensureContrastBottom image).height = image.height ∧
    ∀ a b, b + 1 ≠ image.height →
      (ensureContrastBottom image).pixel a b = image.pixel a b := by
  unfold ensureContrastBottom
  split
  · rename_i hw
    simp only
    split
    · obtain ⟨h1, h2, h3⟩ := foldl_setPixel_row (image.height - 1)
        (contrastingColor (image.pixel (image.width / 2) (image.height - 1)))
        (List.range image.width) image
      refine ⟨h1, h2, ?_⟩
      intro a b hab
      exact h3 a b (by omega)
    · exact ⟨rfl, rfl, fun _ _ _ => rfl⟩
  · exact ⟨rfl, rfl, fun _ _ _ => rfl⟩

/-- C13: for every image, `ensureContrast` keeps the dimensions of the image
and changes no pixel outside the rightmost column `x = width-1` and the bottom
row `y = height-1`. -/
theorem ensureContrast_frame (image : QImage) :
    (ensureContrast image).width = image.width ∧
    (ensureContrast image).height = image.height ∧
    ∀ x y, x + 1 ≠ image.width → y + 1 ≠ image.height →
      (ensureContrast image).pixel x y = image.pixel x y := by
  obtain ⟨r1, r2, r3⟩ := ensureContrastRight_frame image
  obtain ⟨b1, b2, b3⟩ := ensureContrastBottom_frame (ensureContrastRight image)
  unfold ensureContrast
  refine ⟨b1.trans r1, b2.trans r2, ?_⟩
  intro x y hx hy
  rw [b3 x y (by rw [r2]; exact hy)]
  exact r3 x y hx

theorem ensureContrast_frame_witness :
    (ensureContrast ⟨10, 10, fun _ _ => 7⟩).pixel 3 4 = 7 :=
  (ensureContrast_frame ⟨10, 10, fun _ _ => 7⟩).2.2 3 4 (by decide) (by decide)

/-! ## C14: the shading formula -/

theorem qRed_qRgb (r g b : Int) : qRed (qRgb r g b) = r % 256 := by
  have hr := Int.emod_nonneg r (by norm_num : (256 : Int) ≠ 0)
  have hr2 := Int.emod_lt_of_pos r (by norm_num : (0 : Int) < 256)
  have hg := Int.emod_nonneg g (by norm_num : (256 : Int) ≠ 0)
  have hg2 := Int.emod_lt_of_pos g (by norm_num : (0 : Int) < 256)
  have hb := Int.emod_nonneg b (by norm_num : (256 : Int) ≠ 0)
  have hb2 := Int.emod_lt_of_pos b (by norm_num : (0 : Int) < 256)
  unfold qRed qRgb
  omega

theorem addRidge_height (s : KCushionSurface) (dim : KOrientation) (height : ℚ)
    (rect : Rect) : (s.addRidge dim height rect).height = height := by
  unfold KCushionSurface.addRidge
  split <;> rfl

theorem simpleLoop_seed (p : Platform) (view : KTreemapView) (dir childDir : KOrientation)
    (rect : Rect) (scale : ℚ) (surface : KCushionSurface) :
    ∀ (l : List KFileInfo) (offset : Int) (ts : List ChildTile),
      createChildrenSimpleLoop p view dir childDir rect scale surface l offset = some ts →
      ∀ t ∈ ts, t.seed = surface ∧ t.ridgeDir = dir ∧
        t.ridgeHeight = surface.height * view.heightScaleFactor := by
  intro l
  induction l with
  | nil =>
    intro offset ts h
    simp only [createChildrenSimpleLoop, Option.some.injEq] at h
    subst h
    simp
  | cons c rest ih =>
    intro offset ts h
    simp only [createChildrenSimpleLoop] at h
    split at h
    · exact absurd h (by simp)
    · cases hrec : createChildrenSimpleLoop p view dir childDir rect scale surface rest
          (offset + truncate (scale * (c.totalSize : ℚ))) with
      | none => rw [hrec] at h; simp at h
      | some ts1 =>
        rw [hrec] at h
        simp only [Option.map_some', Option.some.injEq] at h
        subst h
        intro t ht
        rcases List.mem_cons.mp ht with rfl | ht
        · exact ⟨rfl, rfl, rfl⟩
        · exact ih _ _ hrec t ht

theorem layoutRowLoop_seed (view : KTreemapView) (dir : KOrientation) (rect : Rect)
    (secondary : Int) (sum : Nat) (primary : Int) (surface : KCushionSurface) :
    ∀ (row : List KFileInfo) (offset remaining : Int),
      ∀ t ∈ layoutRowLoop view dir rect secondary sum primary surface row offset remaining,
        t.orig ∈ row ∧ t.seed = surface ∧ t.ridgeDir = dir ∧
          t.ridgeHeight = surface.height * view.heightScaleFactor := by
  intro row
  induction row with
  | nil => intro offset remaining; simp [layoutRowLoop]
  | cons c rest ih =>
    intro offset remaining t ht
    simp only [layoutRowLoop] at ht
    generalize (if truncate ((c.totalSize : ℚ) / (sum : ℚ) * (primary : ℚ) + 1 / 2) > remaining
      then remaining
      else truncate ((c.totalSize : ℚ) / (sum : ℚ) * (primary : ℚ) + 1 / 2)) = cs at ht
    split at ht
    · rcases List.mem_cons.mp ht with rfl | ht
      · exact ⟨List.mem_cons_self _ _, rfl, rfl, rfl⟩
      · obtain ⟨h1, h2⟩ := ih _ _ t ht
        exact ⟨List.mem_cons_of_mem _ h1, h2⟩
    · obtain ⟨h1, h2⟩ := ih _ _ t ht
      exact ⟨List.mem_cons_of_mem _ h1, h2⟩

/-- Every tile of a row is seeded with the row's surface, whose height is the
parent's height times `heightScaleFactor`, and then receives a ridge of that
height times `heightScaleFactor`. -/
theorem layoutRow_seed (view : KTreemapView) (surface : KCushionSurface) (rect : Rect)
    (scale : ℚ) (row : List KFileInfo) :
    ∀ t ∈ (layoutRow view surface rect scale row).1,
      t.orig ∈ row ∧
      t.seed.height = surface.height * view.heightScaleFactor ∧
      t.ridgeHeight = surface.height * view.heightScaleFactor * view.heightScaleFactor := by
  unfold layoutRow
  split
  · simp
  · simp only
    split
    · simp
    · split
      · simp
      · intro t ht
        obtain ⟨h0, h1, _, h3⟩ := layoutRowLoop_seed _ _ _ _ _ _ _ _ _ _ t ht
        rw [h3, h1, addRidge_height]
        exact ⟨h0, rfl, rfl⟩

theorem squarify_subset (rect : Rect) (scale : ℚ) (it : List KFileInfo) :
    (∀ c ∈ (squarify rect scale it).1, c ∈ it) ∧ (∀ c ∈ (squarify rect scale it).2, c ∈ it) := by
  unfold squarify
  simp only
  split
  · exact ⟨by simp, fun c hc => List.mem_of_mem_tail hc⟩
  · have h := squarifyLoop_append (max rect.width rect.height) scale it [] 0
      (AspectValue.fin (-1))
    rw [List.nil_append] at h
    constructor
    · intro c hc
      rw [← h]
      exact List.mem_append_left _ hc
    · intro c hc
      rw [← h]
      exact List.mem_append_right _ hc

theorem squarifiedRows_orig_mem (view : KTreemapView) (surface : KCushionSurface) (scale : ℚ) :
    ∀ (n : Nat) (rect : Rect) (it : List KFileInfo), it.length ≤ n →
      ∀ r ∈ squarifiedRows view surface scale rect it, ∀ t ∈ r.tiles, t.orig ∈ it := by
  intro n
  induction n with
  | zero =>
    intro rect it hlen
    have : it = [] := List.length_eq_zero.mp (Nat.le_zero.mp hlen)
    subst this
    simp [squarifiedRows]
  | succ n ih =>
    intro rect it hlen
    cases it with
    | nil => simp [squarifiedRows]
    | cons c rest =>
      rw [squarifiedRows_cons]
      obtain ⟨s1, s2⟩ := squarify_subset rect scale (c :: rest)
      have hlt := squarify_snd_length_lt rect scale c rest
      simp only [List.length_cons] at hlt hlen
      intro r hr t ht
      rcases List.mem_cons.mp hr with rfl | hr
      · exact s1 _ (layoutRow_seed view surface rect scale _ t ht).1
      · exact s2 _ (ih _ _ (by omega) r hr t ht)

/-- What one call of `createChildren` hands to the child tiles it constructs:
the nodes are among the sorted children; in the simple strategy the seed has
the parent's height and the ridge added afterwards has that height times
`heightScaleFactor`; in the squarified strategy the seed (the row surface)
has the parent's height times `heightScaleFactor` and the ridge added
afterwards that height times `heightScaleFactor` once more. -/
theorem createChildren_seeds (p : Platform) (view : KTreemapView) (orig : KFileInfo)
    (seed : KCushionSurface) (rect : Rect) (orientation : KOrientation) (ch : Children)
    (hch : createChildren p view orig seed rect orientation = some ch) :
    ch.surface.height = seed.height ∧
    (∀ t ∈ ch.tiles, ∃ m : Int, t.orig ∈ sortedChildBySize p orig m) ∧
    (view.squarify = false → ∀ t ∈ ch.tiles,
      t.seed.height = seed.height ∧
        t.ridgeHeight = seed.height * view.heightScaleFactor) ∧
    (view.squarify = true → ∀ t ∈ ch.tiles,
      t.seed.height = seed.height * view.heightScaleFactor ∧
        t.ridgeHeight = seed.height * view.heightScaleFactor * view.heightScaleFactor) := by
  unfold createChildren at hch
  split at hch
  · simp only [Option.some.injEq] at hch
    subst hch
    simp
  · rename_i hT
    split at hch
    · rename_i hsq
      simp only [Option.some.injEq] at hch
      subst hch
      unfold createSquarifiedChildren
      simp only [hT, if_false]
      have hmem : ∀ t ∈ ((squarifiedRows view seed
          ((rect.width : ℚ) * (rect.height : ℚ) / (orig.totalSize : ℚ)) rect
          (sortedChildBySize p orig (minSizeFor p view.minTileSize
            ((rect.width : ℚ) * (rect.height : ℚ) / (orig.totalSize : ℚ))))).map
              RowLayout.tiles).flatten,
          ∃ r ∈ squarifiedRows view seed
            ((rect.width : ℚ) * (rect.height : ℚ) / (orig.totalSize : ℚ)) rect
            (sortedChildBySize p orig (minSizeFor p view.minTileSize
              ((rect.width : ℚ) * (rect.height : ℚ) / (orig.totalSize : ℚ)))),
            t ∈ r.tiles := by
        intro t ht
        simp only [List.mem_flatten, List.mem_map] at ht
        obtain ⟨ts, ⟨r, hr, rfl⟩, ht⟩ := ht
        exact ⟨r, hr, ht⟩
      refine ⟨trivial, ?_, ?_, ?_⟩
      · intro t ht
        obtain ⟨r, hr, htr⟩ := hmem t ht
        exact ⟨_, squarifiedRows_orig_mem view seed _ _ rect _ (le_refl _) r hr t htr⟩
      · intro h; rw [hsq] at h; exact absurd h (by simp)
      · intro _ t ht
        obtain ⟨r, hr, htr⟩ := hmem t ht
        have := squarifiedRows_forall view seed _
          (fun r => ∀ t ∈ r.tiles,
            t.seed.height = seed.height * view.heightScaleFactor ∧
            t.ridgeHeight = seed.height * view.heightScaleFactor * view.heightScaleFactor)
          (fun rect it t ht => (layoutRow_seed view seed rect _ _ t ht).2) _ rect _
          (le_refl _) r hr t htr
        exact this
    · rename_i hsq
      rw [createChildrenSimple_eq] at hch
      simp only [Option.map_eq_some'] at hch
      obtain ⟨ts, hts, rfl⟩ := hch
      have hseed := simpleLoop_seed _ _ _ _ _ _ _ _ _ _ hts
      have hform := simpleLoop_rect_form _ _ _ _ _ _ _ _ _ _ hts
      refine ⟨addRidge_height _ _ _ _, ?_, ?_, ?_⟩
      · intro t ht
        obtain ⟨c, _, hc, ho, _⟩ := hform t ht
        exact ⟨_, ho ▸ hc⟩
      · intro _ t ht
        obtain ⟨h1, _, h3⟩ := hseed t ht
        constructor
        · rw [h1, addRidge_height]
        · rw [h3, addRidge_height]
      · intro h; exact absurd h hsq

theorem allSome_map_mem {α β : Type} (g : α → Option β) :
    ∀ (l : List α) (r : List β), allSome (l.map g) = some r →
      ∀ x ∈ r, ∃ a ∈ l, g a = some x := by
  intro l
  induction l with
  | nil =>
    intro r h
    simp only [List.map_nil, allSome, Option.some.injEq] at h
    subst h
    simp
  | cons a rest ih =>
    intro r h
    simp only [List.map_cons] at h
    cases hg : g a with
    | none => rw [hg] at h; simp [allSome] at h
    | some b =>
      rw [hg] at h
      simp only [allSome, Option.map_eq_some'] at h
      obtain ⟨r1, hr1, rfl⟩ := h
      intro x hx
      rcases List.mem_cons.mp hx with rfl | hx
      · exact ⟨a, List.mem_cons_self _ _, hg⟩
      · obtain ⟨a2, ha2, hga2⟩ := ih r1 hr1 x hx
        exact ⟨a2, List.mem_cons_of_mem _ ha2, hga2⟩

theorem allSome_map_congr {α β : Type} (g1 g2 : α → Option β) :
    ∀ (l : List α), (∀ a ∈ l, g1 a = g2 a) → allSome (l.map g1) = allSome (l.map g2) := by
  intro l
  induction l with
  | nil => intro _; rfl
  | cons a rest ih =>
    intro h
    simp only [List.map_cons]
    rw [h a (List.mem_cons_self _ _)]
    cases g2 a with
    | none => rfl
    | some b =>
      simp only [allSome]
      rw [ih (fun x hx => h x (List.mem_cons_of_mem _ hx))]

theorem atDepth_succ {t x : KTreemapTile} {d : Nat} (h : KTreemapTile.AtDepth t (d + 1) x) :
    ∃ c ∈ t.children, KTreemapTile.AtDepth c d x := by
  cases h with
  | under hc hx => exact ⟨_, hc, hx⟩

theorem atDepth_zero {t x : KTreemapTile} (h : KTreemapTile.AtDepth t 0 x) : x = t := by
  cases h with
  | self => rfl

theorem atDepth_child {t parent x : KTreemapTile} {d : Nat}
    (h : KTreemapTile.AtDepth t d parent) (hx : x ∈ parent.children) :
    KTreemapTile.AtDepth t (d + 1) x := by
  induction h with
  | self t => exact KTreemapTile.AtDepth.under hx (KTreemapTile.AtDepth.self x)
  | under hc _ ih => exact KTreemapTile.AtDepth.under hc (ih hx)

/-- The tiles of the tree constructed from a surface of height `h`: the tile
itself ends with the height `h`; in the simple strategy every tile below it
ends with `h * heightScaleFactor`; in the squarified strategy a tile `d + 1`
levels below it ends with `h * heightScaleFactor ^ (d + 2)`. -/
theorem construct_heights (p : Platform) (view : KTreemapView) :
    ∀ (n : Nat) (orig : KFileInfo) (rect : Rect) (seed : KCushionSurface)
      (orientation : KOrientation) (t : KTreemapTile),
      KTreemapTile.construct p view n orig rect seed orientation = some t →
      t.cushionSurface.height = seed.height ∧
      (view.squarify = false → ∀ (d : Nat) (x : KTreemapTile),
        KTreemapTile.AtDepth t (d + 1) x →
          x.cushionSurface.height = seed.height * view.heightScaleFactor) ∧
      (view.squarify = true → ∀ (d : Nat) (x : KTreemapTile),
        KTreemapTile.AtDepth t (d + 1) x →
          x.cushionSurface.height = seed.height * view.heightScaleFactor ^ (d + 2)) := by
  intro n
  induction n with
  | zero =>
    intro orig rect seed orientation t h
    simp only [KTreemapTile.construct, Option.some.injEq] at h
    subst h
    refine ⟨rfl, ?_, ?_⟩ <;>
    · intro _ d x hx
      obtain ⟨c, hc, _⟩ := atDepth_succ hx
      simp [KTreemapTile.children] at hc
  | succ n ih =>
    intro orig rect seed orientation t h
    simp only [KTreemapTile.construct] at h
    cases hch : createChildren p view orig seed rect orientation with
    | none => rw [hch] at h; simp at h
    | some ch =>
      rw [hch] at h
      simp only [Option.map_eq_some'] at h
      obtain ⟨children, hall, rfl⟩ := h
      obtain ⟨s0, _, s1, s2⟩ := createChildren_seeds p view orig seed rect orientation ch hch
      have hchild : ∀ c ∈ children, ∃ pl ∈ ch.tiles, ∃ sub,
          KTreemapTile.construct p view n pl.orig pl.rect pl.seed pl.orientation = some sub ∧
          c = sub.addRidge pl.ridgeDir pl.ridgeHeight pl.rect := by
        intro c hc
        obtain ⟨pl, hpl, hg⟩ := allSome_map_mem _ _ _ hall c hc
        simp only [Option.map_eq_some'] at hg
        obtain ⟨sub, hsub, rfl⟩ := hg
        exact ⟨pl, hpl, sub, hsub, rfl⟩
      refine ⟨s0, ?_, ?_⟩
      · intro hsq d x hx
        obtain ⟨c, hc, hcx⟩ := atDepth_succ hx
        obtain ⟨pl, hpl, sub, hsub, rfl⟩ := hchild c hc
        obtain ⟨i0, i1, _⟩ := ih _ _ _ _ sub hsub
        obtain ⟨p1, p2⟩ := s1 hsq pl hpl
        cases d with
        | zero =>
          rw [atDepth_zero hcx]
          simp only [KTreemapTile.addRidge, KTreemapTile.cushionSurface, addRidge_height]
          exact p2
        | succ d1 =>
          obtain ⟨c2, hc2, hc2x⟩ := atDepth_succ hcx
          have : KTreemapTile.AtDepth sub (d1 + 1) x :=
            KTreemapTile.AtDepth.under (by simpa [KTreemapTile.addRidge,
              KTreemapTile.children] using hc2) hc2x
          rw [i1 hsq d1 x this, p1]
      · intro hsq d x hx
        obtain ⟨c, hc, hcx⟩ := atDepth_succ hx
        obtain ⟨pl, hpl, sub, hsub, rfl⟩ := hchild c hc
        obtain ⟨i0, _, i2⟩ := ih _ _ _ _ sub hsub
        obtain ⟨p1, p2⟩ := s2 hsq pl hpl
        cases d with
        | zero =>
          rw [atDepth_zero hcx]
          simp only [KTreemapTile.addRidge, KTreemapTile.cushionSurface, addRidge_height]
          rw [p2]
          ring
        | succ d1 =>
          obtain ⟨c2, hc2, hc2x⟩ := atDepth_succ hcx
          have : KTreemapTile.AtDepth sub (d1 + 1) x :=
            KTreemapTile.AtDepth.under (by simpa [KTreemapTile.addRidge,
              KTreemapTile.children] using hc2) hc2x
          rw [i2 hsq d1 x this, p1]
          ring

theorem depth_pos (orig : KFileInfo) : 1 ≤ orig.depth := by
  cases orig with
  | mk i s cs d => simp [KFileInfo.depth]

theorem depth_le_depthList (c : KFileInfo) :
    ∀ cs : List KFileInfo, c ∈ cs → c.depth ≤ KFileInfo.depthList cs := by
  intro cs
  induction cs with
  | nil => intro h; simp at h
  | cons a rest ih =>
    intro h
    simp only [KFileInfo.depthList]
    rcases List.mem_cons.mp h with rfl | h
    · exact le_max_left _ _
    · exact le_trans (ih h) (le_max_right _ _)

theorem depth_child_lt (orig c : KFileInfo)
    (h : c ∈ orig.children ∨ orig.dotEntry = some c) : c.depth < orig.depth := by
  cases orig with
  | mk i s cs d =>
    simp only [KFileInfo.children, KFileInfo.dotEntry] at h
    simp only [KFileInfo.depth]
    rcases h with h | h
    · have := depth_le_depthList c cs h
      have h2 := le_max_left (KFileInfo.depthList cs) (KFileInfo.depthOption d)
      omega
    · subst h
      have h2 := le_max_right (KFileInfo.depthList cs) (KFileInfo.depthOption (some c))
      simp only [KFileInfo.depthOption] at h2 ⊢
      omega

theorem mem_sortedChildBySize (p : Platform) (hp : p.SortConforms) (info : KFileInfo)
    (minSize : Int) (c : KFileInfo) (h : c ∈ sortedChildBySize p info minSize) :
    c ∈ info.children ∨ info.dotEntry = some c := by
  have hperm := (hp (sortCandidates info minSize)).1
  have : c ∈ sortCandidates info minSize := hperm.mem_iff.mp h
  exact ((mem_sortCandidates info minSize c).mp this).1

/-- The nesting granted to the constructors does not matter once it covers the
height of the tree below the node: `build` is the tree the constructors
build. -/
theorem construct_fuel (p : Platform) (hp : p.SortConforms) (view : KTreemapView) :
    ∀ (n m : Nat) (orig : KFileInfo) (rect : Rect) (seed : KCushionSurface)
      (orientation : KOrientation), orig.depth ≤ n → orig.depth ≤ m →
      KTreemapTile.construct p view n orig rect seed orientation =
        KTreemapTile.construct p view m orig rect seed orientation := by
  intro n
  induction n with
  | zero =>
    intro m orig _ _ _ h1 _
    have := depth_pos orig
    omega
  | succ n ih =>
    intro m orig rect seed orientation h1 h2
    cases m with
    | zero =>
      have := depth_pos orig
      omega
    | succ m =>
      simp only [KTreemapTile.construct]
      cases hch : createChildren p view orig seed rect orientation with
      | none => rfl
      | some ch =>
        simp only
        obtain ⟨_, hmem, _, _⟩ := createChildren_seeds p view orig seed rect orientation ch hch
        rw [allSome_map_congr _
          (fun t => (KTreemapTile.construct p view m t.orig t.rect t.seed t.orientation).map
            (fun tile => tile.addRidge t.ridgeDir t.ridgeHeight t.rect))]
        intro t ht
        obtain ⟨ms, hms⟩ := hmem t ht
        have hlt := depth_child_lt orig t.orig (mem_sortedChildBySize p hp orig ms t.orig hms)
        rw [ih m t.orig t.rect t.seed t.orientation (by omega) (by omega)]

/-- C20 fails as stated, in both strategies. Chain of three nodes (root, child,
grandchild), rectangle 4x4, root surface of height 1,
`heightScaleFactor = 1/2`. Simple strategy: the final heights are 1, 1/2, 1/2,
so the grandchild has its parent's height, not half of it. Squarified strategy:
the final heights are 1, 1/4, 1/8, so the child of the root has a quarter of
the root's height, not half of it. -/
theorem cushion_height_not_one_factor_per_level :
    (KTreemapTile.build Platform.debug ⟨false, 0, 1 / 2⟩ chainNode ⟨0, 0, 4, 4⟩
        ⟨0, 0, 0, 0, 1⟩ KTreemapHorizontal).map
      (fun t => (t.cushionSurface.height,
        t.children.map (fun c => (c.cushionSurface.height,
          c.children.map (fun g => g.cushionSurface.height))))) =
      some (1, [(1 / 2, [1 / 2])]) ∧
    (KTreemapTile.build Platform.debug ⟨true, 0, 1 / 2⟩ chainNode ⟨0, 0, 4, 4⟩
        ⟨0, 0, 0, 0, 1⟩ KTreemapAuto).map
      (fun t => (t.cushionSurface.height,
        t.children.map (fun c => (c.cushionSurface.height,
          c.children.map (fun g => g.cushionSurface.height))))) =
      some (1, [(1 / 4, [1 / 8])]) ∧
    (1 / 2 : ℚ) ≠ 1 / 2 * (1 / 2) ∧ (1 / 4 : ℚ) ≠ 1 * (1 / 2) := by
  have hd : chainNode.depth = 3 := by decide
  refine ⟨?_, ?_, by norm_num, by norm_num⟩
  · simp only [KTreemapTile.build, hd]
    norm_num [KTreemapTile.construct, allSome, createChildren, createChildrenSimple,
      createChildrenSimpleLoop, simpleDir, simpleChildDir, sortedChildBySize, sortCandidates,
      minSizeFor, truncate, Platform.debug, stableSort, chainNode, KFileInfo.totalSize,
      KFileInfo.children, KFileInfo.dotEntry, KFileInfo.leaf, KTreemapTile.addRidge,
      KTreemapTile.cushionSurface, KTreemapTile.children, addRidge_height,
      KTreemapTile.orig, KTreemapTile.rect]
  · simp only [KTreemapTile.build, hd]
    norm_num [KTreemapTile.construct, allSome, createChildren, createSquarifiedChildren,
      squarifiedRows, squarify, squarifyLoop, worstAspectRatio, layoutRow, layoutRowLoop,
      rowSecondary, sortedChildBySize, sortCandidates,
      minSizeFor, truncate, Platform.debug, stableSort, chainNode, KFileInfo.totalSize,
      KFileInfo.children, KFileInfo.dotEntry, KFileInfo.leaf, KTreemapTile.addRidge,
      KTreemapTile.cushionSurface, KTreemapTile.children, addRidge_height,
      KTreemapTile.orig, KTreemapTile.rect, AspectValue.geZero, AspectValue.gt]

/-- C20, amended: in every tile tree built by the `KTreemapTile` constructors
from a root surface of height `h`, the root tile ends with the height `h`. In
the squarified strategy a tile `d` levels below the root ends with
`h * heightScaleFactor ^ (d + 1)`: a child of the root has the root's height
times `heightScaleFactor ^ 2` (one factor for the row surface, one for the
tile), every deeper tile has its parent's height times `heightScaleFactor`. In
the simple strategy a child of the root has the root's height times
`heightScaleFactor`. -/
theorem cushion_heights (p : Platform) (view : KTreemapView) (orig : KFileInfo)
    (rect : Rect) (seed : KCushionSurface) (orientation : KOrientation) (t : KTreemapTile)
    (ht : KTreemapTile.build p view orig rect seed orientation = some t) :
    t.cushionSurface.height = seed.height ∧
    (view.squarify = true → ∀ (d : Nat) (parent x : KTreemapTile),
      KTreemapTile.AtDepth t d parent → x ∈ parent.children →
        x.cushionSurface.height = seed.height * view.heightScaleFactor ^ (d + 2) ∧
        (d = 0 → x.cushionSurface.height =
          parent.cushionSurface.height * view.heightScaleFactor ^ 2) ∧
        (1 ≤ d → x.cushionSurface.height =
          parent.cushionSurface.height * view.heightScaleFactor)) ∧
    (view.squarify = false → ∀ x ∈ t.children,
      x.cushionSurface.height = t.cushionSurface.height * view.heightScaleFactor) := by
  obtain ⟨h0, h1, h2⟩ := construct_heights p view _ _ _ _ _ t ht
  refine ⟨h0, ?_, ?_⟩
  · intro hsq d parent x hp hx
    have hxd := h2 hsq d x (atDepth_child hp hx)
    refine ⟨hxd, ?_, ?_⟩
    · intro hd
      subst hd
      rw [atDepth_zero hp, h0, hxd]
    · intro hd
      obtain ⟨d1, rfl⟩ : ∃ d1, d = d1 + 1 := ⟨d - 1, by omega⟩
      rw [h2 hsq d1 parent hp, hxd]
      ring
  · intro hsq x hx
    rw [h0]
    exact h1 hsq 0 x (atDepth_child (KTreemapTile.AtDepth.self t) hx)

theorem cushion_heights_witness :
    (KTreemapTile.build Platform.debug ⟨true, 0, 1 / 2⟩ chainNode ⟨0, 0, 4, 4⟩
      ⟨0, 0, 0, 0, 1⟩ KTreemapAuto).map (fun t => t.cushionSurface.height) = some 1 := by
  have hsome : (KTreemapTile.build Platform.debug ⟨true, 0, 1 / 2⟩ chainNode ⟨0, 0, 4, 4⟩
      ⟨0, 0, 0, 0, 1⟩ KTreemapAuto).isSome := by
    have hd : chainNode.depth = 3 := by decide
    simp only [KTreemapTile.build, hd]
    norm_num [KTreemapTile.construct, allSome, createChildren, createSquarifiedChildren,
      squarifiedRows, squarify, squarifyLoop, worstAspectRatio, layoutRow, layoutRowLoop,
      rowSecondary, sortedChildBySize, sortCandidates,
      minSizeFor, truncate, Platform.debug, stableSort, chainNode, KFileInfo.totalSize,
      KFileInfo.children, KFileInfo.dotEntry, KFileInfo.leaf, AspectValue.geZero,
      AspectValue.gt]
  obtain ⟨t, ht⟩ := Option.isSome_iff_exists.mp hsome
  rw [ht, Option.map_some', (cushion_heights Platform.debug ⟨true, 0, 1 / 2⟩ chainNode
    ⟨0, 0, 4, 4⟩ ⟨0, 0, 0, 0, 1⟩ KTreemapAuto t ht).1]

/-! ## C21: the two ridges of a row -/

theorem layoutRow_tile_surface (view : KTreemapView) (surface : KCushionSurface) (rect : Rect)
    (scale : ℚ) (row : List KFileInfo) :
    ∀ t ∈ (layoutRow view surface rect scale row).1,
      t.seed = surface.addRidge
        (if (if rect.width > rect.height then KTreemapHorizontal else KTreemapVertical) =
          KTreemapHorizontal then KTreemapVertical else KTreemapHorizontal)
        (surface.height * view.heightScaleFactor) rect ∧
      t.ridgeDir = (if rect.width > rect.height then KTreemapHorizontal else KTreemapVertical) ∧
      t.ridgeHeight = t.seed.height * view.heightScaleFactor := by
  unfold layoutRow
  split
  · simp
  · simp only
    split
    · simp
    · split
      · simp
      · intro t ht
        obtain ⟨_, h1, h2, h3⟩ := layoutRowLoop_seed _ _ _ _ _ _ _ _ _ _ t ht
        rw [h3, h1]
        exact ⟨rfl, h2, rfl⟩

theorem createChildren_squarified (p : Platform) (view : KTreemapView) (orig : KFileInfo)
    (seed : KCushionSurface) (rect : Rect) (orientation : KOrientation) (ch : Children)
    (hsq : view.squarify = true)
    (hch : createChildren p view orig seed rect orientation = some ch) :
    ch.surface = seed ∧
    ∀ t ∈ ch.tiles, ∃ rl ∈ createSquarifiedRows p view orig seed rect, t ∈ rl.tiles := by
  unfold createChildren at hch
  rw [hsq] at hch
  simp only [if_true] at hch
  split at hch
  · simp only [Option.some.injEq] at hch
    subst hch
    simp
  · rename_i hT
    simp only [Option.some.injEq] at hch
    subst hch
    unfold createSquarifiedChildren createSquarifiedRows
    simp only [hT, if_false]
    refine ⟨trivial, ?_⟩
    intro t ht
    simp only [List.mem_flatten, List.mem_map] at ht
    obtain ⟨ts, ⟨r, hr, rfl⟩, ht⟩ := ht
    exact ⟨r, hr, ht⟩

theorem construct_squarified_self (p : Platform) (view : KTreemapView)
    (hsq : view.squarify = true) (n : Nat) (orig : KFileInfo) (rect : Rect)
    (seed : KCushionSurface) (orientation : KOrientation) (t : KTreemapTile)
    (h : KTreemapTile.construct p view n orig rect seed orientation = some t) :
    t.cushionSurface = seed ∧ t.rect = rect ∧ t.orig = orig := by
  cases n with
  | zero =>
    simp only [KTreemapTile.construct, Option.some.injEq] at h
    subst h
    exact ⟨rfl, rfl, rfl⟩
  | succ n =>
    simp only [KTreemapTile.construct] at h
    cases hch : createChildren p view orig seed rect orientation with
    | none => rw [hch] at h; simp at h
    | some ch =>
      rw [hch] at h
      simp only [Option.map_eq_some'] at h
      obtain ⟨children, _, rfl⟩ := h
      exact ⟨(createChildren_squarified p view orig seed rect orientation ch hsq hch).1,
        rfl, rfl⟩

/-- C21: in the squarified strategy a tile keeps the surface it was constructed
with, and every child tile it creates in `layoutRow` belongs to a row laid out
on the remaining rectangle `rl.rect`: the child is seeded with the row's
surface, which is the parent's surface with one ridge added across the row's
direction (vertical for a row laid out horizontally, horizontal otherwise) over
`rl.rect` with height `parentHeight * heightScaleFactor`, and its final surface
is the row's surface with one further ridge along the row's direction over the
child's own rectangle with height `rowHeight * heightScaleFactor`. -/
theorem layoutRow_ridges (p : Platform) (view : KTreemapView) (n : Nat) (orig : KFileInfo)
    (rect : Rect) (seed : KCushionSurface) (orientation : KOrientation) (tile : KTreemapTile)
    (hsq : view.squarify = true)
    (h : KTreemapTile.construct p view n orig rect seed orientation = some tile) :
    tile.cushionSurface = seed ∧
    ∀ x ∈ tile.children, ∃ rl ∈ createSquarifiedRows p view orig seed rect, ∃ ct ∈ rl.tiles,
      ∃ (dir across : KOrientation) (rowCushionSurface : KCushionSurface),
        ((rl.rect.width > rl.rect.height ∧ dir = KTreemapHorizontal ∧
            across = KTreemapVertical) ∨
          (rl.rect.width ≤ rl.rect.height ∧ dir = KTreemapVertical ∧
            across = KTreemapHorizontal)) ∧
        rowCushionSurface =
          seed.addRidge across (seed.height * view.heightScaleFactor) rl.rect ∧
        rowCushionSurface.height = seed.height * view.heightScaleFactor ∧
        ct.seed = rowCushionSurface ∧ x.orig = ct.orig ∧ x.rect = ct.rect ∧
        x.cushionSurface = rowCushionSurface.addRidge dir
          (rowCushionSurface.height * view.heightScaleFactor) x.rect := by
  refine ⟨(construct_squarified_self p view hsq n orig rect seed orientation tile h).1, ?_⟩
  cases n with
  | zero =>
    simp only [KTreemapTile.construct, Option.some.injEq] at h
    subst h
    simp [KTreemapTile.children]
  | succ n =>
    simp only [KTreemapTile.construct] at h
    cases hch : createChildren p view orig seed rect orientation with
    | none => rw [hch] at h; simp at h
    | some ch =>
      rw [hch] at h
      simp only [Option.map_eq_some'] at h
      obtain ⟨children, hall, rfl⟩ := h
      intro x hx
      simp only [KTreemapTile.children] at hx
      obtain ⟨ct, hct, hg⟩ := allSome_map_mem _ _ _ hall x hx
      simp only [Option.map_eq_some'] at hg
      obtain ⟨sub, hsub, rfl⟩ := hg
      obtain ⟨s1, s2, s3⟩ := construct_squarified_self p view hsq n _ _ _ _ sub hsub
      obtain ⟨rl, hrl, hctrl⟩ :=
        (createChildren_squarified p view orig seed rect orientation ch hsq hch).2 ct hct
      have hrow := squarifiedRows_forall view seed
        ((rect.width : ℚ) * (rect.height : ℚ) / (orig.totalSize : ℚ))
        (fun r => ∀ t ∈ r.tiles,
          t.seed = seed.addRidge
            (if (if r.rect.width > r.rect.height then KTreemapHorizontal
              else KTreemapVertical) = KTreemapHorizontal then KTreemapVertical
              else KTreemapHorizontal)
            (seed.height * view.heightScaleFactor) r.rect ∧
          t.ridgeDir = (if r.rect.width > r.rect.height then KTreemapHorizontal
            else KTreemapVertical) ∧
          t.ridgeHeight = t.seed.height * view.heightScaleFactor)
        (fun rect it t ht => layoutRow_tile_surface view seed rect _ _ t ht) _ rect _
        (le_refl _) rl hrl ct hctrl
      obtain ⟨r1, r2, r3⟩ := hrow
      refine ⟨rl, hrl, ct, hctrl, ct.ridgeDir,
        (if ct.ridgeDir = KTreemapHorizontal then KTreemapVertical else KTreemapHorizontal),
        ct.seed, ?_, ?_, ?_, rfl, ?_, ?_, ?_⟩
      · by_cases hw : rl.rect.width > rl.rect.height
        · left
          rw [r2, if_pos hw]
          exact ⟨hw, rfl, by simp⟩
        · right
          rw [r2, if_neg hw]
          exact ⟨not_lt.mp hw, rfl, by simp⟩
      · rw [r2]; exact r1
      · rw [r1, addRidge_height]
      · simp only [KTreemapTile.addRidge, KTreemapTile.orig]
        exact s3
      · simp only [KTreemapTile.addRidge, KTreemapTile.rect]
        exact s2
      · have e1 : (sub.addRidge ct.ridgeDir ct.ridgeHeight ct.rect).cushionSurface =
            sub.cushionSurface.addRidge ct.ridgeDir ct.ridgeHeight ct.rect := rfl
        have e2 : (sub.addRidge ct.ridgeDir ct.ridgeHeight ct.rect).rect = sub.rect := rfl
        rw [e1, e2, s1, s2, r3]

theorem layoutRow_ridges_witness :
    (KTreemapTile.construct Platform.debug ⟨true, 0, 1 / 2⟩ 3 chainNode ⟨0, 0, 4, 4⟩
      ⟨0, 0, 0, 0, 1⟩ KTreemapAuto).map (fun t => t.cushionSurface) =
        some ⟨0, 0, 0, 0, 1⟩ := by
  have hsome : (KTreemapTile.construct Platform.debug ⟨true, 0, 1 / 2⟩ 3 chainNode ⟨0, 0, 4, 4⟩
      ⟨0, 0, 0, 0, 1⟩ KTreemapAuto).isSome := by
    norm_num [KTreemapTile.construct, allSome, createChildren, createSquarifiedChildren,
      squarifiedRows, squarify, squarifyLoop, worstAspectRatio, layoutRow, layoutRowLoop,
      rowSecondary, sortedChildBySize, sortCandidates,
      minSizeFor, truncate, Platform.debug, stableSort, chainNode, KFileInfo.totalSize,
      KFileInfo.children, KFileInfo.dotEntry, KFileInfo.leaf, AspectValue.geZero,
      AspectValue.gt]
  obtain ⟨t, ht⟩ := Option.isSome_iff_exists.mp hsome
  rw [ht, Option.map_some', (layoutRow_ridges Platform.debug ⟨true, 0, 1 / 2⟩ 3 chainNode
    ⟨0, 0, 4, 4⟩ ⟨0, 0, 0, 0, 1⟩ KTreemapAuto t rfl ht).1]

/-! ## C22: when ensureContrast draws the boundary lines -/

theorem setPixel_keeps_value (image : QImage) (x y y1 value : Nat)
    (h : image.pixel x y = value) : (image.setPixel x y1 value).pixel x y = value := by
  unfold QImage.setPixel
  split
  · simp only
    split
    · rfl
    · exact h
  · exact h

theorem setPixel_keeps_value_row (image : QImage) (x x1 y value : Nat)
    (h : image.pixel x y = value) : (image.setPixel x1 y value).pixel x y = value := by
  unfold QImage.setPixel
  split
  · simp only
    split
    · rfl
    · exact h
  · exact h

theorem foldl_setPixel_column_keeps (x value y : Nat) :
    ∀ (ys : List Nat) (image : QImage), image.pixel x y = value →
      (ys.foldl (fun img y => img.setPixel x y value) image).pixel x y = value := by
  intro ys
  induction ys with
  | nil => intro image h; exact h
  | cons y1 rest ih =>
    intro image h
    simp only [List.foldl_cons]
    exact ih _ (setPixel_keeps_value image x y y1 value h)

theorem foldl_setPixel_row_keeps (y value x : Nat) :
    ∀ (xs : List Nat) (image : QImage), image.pixel x y = value →
      (xs.foldl (fun img x => img.setPixel x y value) image).pixel x y = value := by
  intro xs
  induction xs with
  | nil => intro image h; exact h
  | cons x1 rest ih =>
    intro image h
    simp only [List.foldl_cons]
    exact ih _ (setPixel_keeps_value_row image x x1 y value h)

theorem foldl_setPixel_column_sets (x value y : Nat) :
    ∀ (ys : List Nat) (image : QImage), x < image.width → y < image.height → y ∈ ys →
      (ys.foldl (fun img y => img.setPixel x y value) image).pixel x y = value := by
  intro ys
  induction ys with
  | nil => intro image _ _ h; simp at h
  | cons y1 rest ih =>
    intro image hx hy hmem
    simp only [List.foldl_cons]
    by_cases hy1 : y = y1
    · subst hy1
      apply foldl_setPixel_column_keeps
      unfold QImage.setPixel
      rw [if_pos ⟨hx, hy⟩]
      simp
    · obtain ⟨s1, s2, _⟩ := setPixel_frame image x y1 value
      have hrest : y ∈ rest := by
        rcases List.mem_cons.mp hmem with h | h
        · exact absurd h hy1
        · exact h
      exact ih _ (by rw [s1]; exact hx) (by rw [s2]; exact hy) hrest

theorem foldl_setPixel_row_sets (y value x : Nat) :
    ∀ (xs : List Nat) (image : QImage), x < image.width → y < image.height → x ∈ xs →
      (xs.foldl (fun img x => img.setPixel x y value) image).pixel x y = value := by
  intro xs
  induction xs with
  | nil => intro image _ _ h; simp at h
  | cons x1 rest ih =>
    intro image hx hy hmem
    simp only [List.foldl_cons]
    by_cases hx1 : x = x1
    · subst hx1
      apply foldl_setPixel_row_keeps
      unfold QImage.setPixel
      rw [if_pos ⟨hx, hy⟩]
      simp
    · obtain ⟨s1, s2, _⟩ := setPixel_frame image x1 y value
      have hrest : x ∈ rest := by
        rcases List.mem_cons.mp hmem with h | h
        · exact absurd h hx1
        · exact h
      exact ih _ (by rw [s1]; exact hx) (by rw [s2]; exact hy) hrest

theorem fillColumn_sets (image : QImage) (x value y : Nat) (hx : x < image.width)
    (hy : y < image.height) : (fillColumn image x value).pixel x y = value :=
  foldl_setPixel_column_sets x value y _ image hx hy (List.mem_range.mpr hy)

theorem fillRow_sets (image : QImage) (y value x : Nat) (hx : x < image.width)
    (hy : y < image.height) : (fillRow image y value).pixel x y = value :=
  foldl_setPixel_row_sets y value x _ image hx hy (List.mem_range.mpr hx)

/-- C22, the code against the claim: in the image 6 wide and 100 high whose
pixels are all the same grey, the right-boundary loop compares 9 sample pairs
and the bottom-boundary loop 1, all of them identical, so `sameColorCount * 10`
exceeds the number of samples on both edges; but the counts are compared with
`image.height() = 100`, and neither the right column nor the bottom row is
overwritten, although the contrasting colour differs from the grey. -/
theorem contrast_threshold_is_height :
    uniformImage.width > 5 ∧ uniformImage.height > 5 ∧
    rightSampleCount uniformImage = 9 ∧ rightSameColorCount uniformImage = 9 ∧
    bottomSampleCount uniformImage = 1 ∧ bottomSameColorCount uniformImage = 1 ∧
    contrastingColor 4286611584 = 4282400832 ∧
    (∀ x y, (ensureContrast uniformImage).pixel x y = 4286611584) := by
  refine ⟨by decide, by decide, by decide, by decide, by decide, by decide, by decide, ?_⟩
  have h1 : ensureContrastRight uniformImage = uniformImage := by
    have hc : rightSameColorCount uniformImage = 9 := by decide
    unfold rightSameColorCount at hc
    unfold ensureContrastRight
    simp only [hc]
    rfl
  have h2 : ensureContrastBottom uniformImage = uniformImage := by
    have hc : bottomSameColorCount uniformImage = 1 := by decide
    unfold bottomSameColorCount at hc
    unfold ensureContrastBottom
    simp only [hc]
    rfl
  intro x y
  unfold ensureContrast
  rw [h1, h2]
  rfl

/-- C22, amended: `ensureContrast` runs the right-boundary block and then the
bottom-boundary block on the image the first block left. For an image with
`width > 5` the right column is overwritten (every pixel of it with the
contrasting colour of its middle pixel) exactly when `sameColorCount * 10`
exceeds `image.height()`; otherwise the block leaves the image as it is. For an
image with `height > 5` the bottom row is overwritten when
`sameColorCount * 10` exceeds both the width and the height, and left as it is
when `sameColorCount * 10` exceeds neither. -/
theorem ensureContrast_threshold (image : QImage) :
    ensureContrast image = ensureContrastBottom (ensureContrastRight image) ∧
    (image.width > 5 →
      (rightSameColorCount image * 10 > image.height →
        ensureContrastRight image = fillColumn image (image.width - 1)
          (contrastingColor (image.pixel (image.width - 1) (image.height / 2))) ∧
        ∀ y, y < image.height →
          (ensureContrastRight image).pixel (image.width - 1) y =
            contrastingColor (image.pixel (image.width - 1) (image.height / 2))) ∧
      (¬ rightSameColorCount image * 10 > image.height →
        ensureContrastRight image = image)) ∧
    (image.height > 5 →
      (bottomSameColorCount image * 10 > max image.width image.height →
        ensureContrastBottom image = fillRow image (image.height - 1)
          (contrastingColor (image.pixel (image.width / 2) (image.height - 1))) ∧
        ∀ x, x < image.width →
          (ensureContrastBottom image).pixel x (image.height - 1) =
            contrastingColor (image.pixel (image.width / 2) (image.height - 1))) ∧
      (bottomSameColorCount image * 10 ≤ min image.width image.height →
        ensureContrastBottom image = image)) := by
  refine ⟨rfl, ?_, ?_⟩
  · intro hw
    constructor
    · intro hc
      have e : ensureContrastRight image = fillColumn image (image.width - 1)
          (contrastingColor (image.pixel (image.width - 1) (image.height / 2))) := by
        unfold rightSameColorCount at hc
        unfold ensureContrastRight
        rw [if_pos hw]
        simp only
        rw [if_pos hc]
      refine ⟨e, ?_⟩
      intro y hy
      rw [e]
      exact fillColumn_sets image _ _ y (by omega) hy
    · intro hc
      unfold rightSameColorCount at hc
      unfold ensureContrastRight
      rw [if_pos hw]
      simp only
      rw [if_neg hc]
  · intro hh
    constructor
    · intro hc
      have hc1 : bottomSameColorCount image * 10 > image.height :=
        lt_of_le_of_lt (le_max_right _ _) hc
      have e : ensureContrastBottom image = fillRow image (image.height - 1)
          (contrastingColor (image.pixel (image.width / 2) (image.height - 1))) := by
        unfold bottomSameColorCount at hc1
        unfold ensureContrastBottom
        rw [if_pos hh]
        simp only
        rw [if_pos hc1]
      refine ⟨e, ?_⟩
      intro x hx
      rw [e]
      exact fillRow_sets image _ _ x hx (by omega)
    · intro hc
      have hc1 : ¬ bottomSameColorCount image * 10 > image.height :=
        not_lt.mpr (le_trans hc (min_le_right _ _))
      unfold bottomSameColorCount at hc1
      unfold ensureContrastBottom
      rw [if_pos hh]
      simp only
      rw [if_neg hc1]

theorem ensureContrast_threshold_witness :
    ensureContrastRight uniformImage = uniformImage ∧
    (ensureContrastRight ⟨6, 9, fun _ _ => 4286611584⟩).pixel 5 0 =
      contrastingColor 4286611584 :=
  ⟨((ensureContrast_threshold uniformImage).2.1 (by decide)).2 (by decide),
    (((ensureContrast_threshold ⟨6, 9, fun _ _ => 4286611584⟩).2.1 (by decide)).1
      (by decide)).2 0 (by decide)⟩

/-! ## C23: the contrasting colour -/

theorem qGreen_qRgb (r g b : Int) : qGreen (qRgb r g b) = g % 256 := by
  unfold qGreen qRgb
  have hr := Int.emod_nonneg r (by norm_num : (256 : Int) ≠ 0)
  have hg := Int.emod_nonneg g (by norm_num : (256 : Int) ≠ 0)
  have hb := Int.emod_nonneg b (by norm_num : (256 : Int) ≠ 0)
  have hr2 := Int.emod_lt_of_pos r (by norm_num : (0 : Int) < 256)
  have hg2 := Int.emod_lt_of_pos g (by norm_num : (0 : Int) < 256)
  have hb2 := Int.emod_lt_of_pos b (by norm_num : (0 : Int) < 256)
  omega

theorem qBlue_qRgb (r g b : Int) : qBlue (qRgb r g b) = b % 256 := by
  unfold qBlue qRgb
  have hr := Int.emod_nonneg r (by norm_num : (256 : Int) ≠ 0)
  have hg := Int.emod_nonneg g (by norm_num : (256 : Int) ≠ 0)
  have hb := Int.emod_nonneg b (by norm_num : (256 : Int) ≠ 0)
  have hr2 := Int.emod_lt_of_pos r (by norm_num : (0 : Int) < 256)
  have hg2 := Int.emod_lt_of_pos g (by norm_num : (0 : Int) < 256)
  have hb2 := Int.emod_lt_of_pos b (by norm_num : (0 : Int) < 256)
  omega

theorem channel_range (n : Nat) : (0 : Int) ≤ ((n % 256 : Nat) : Int) ∧
    ((n % 256 : Nat) : Int) < 256 := by
  omega

/-- C23, the code against the claim. The red `qRgb(200, 0, 0)` has the grey
value 68, so all three channels are doubled: the red channel 200, which the
per-channel rule would halve to 100, becomes `400 & 0xff = 144`. The colour
`qRgb(100, 200, 100)` has the grey value 150, so all three channels are halved:
the red channel 100, which the per-channel rule would double to 200, becomes
50. -/
theorem contrastingColor_not_per_channel :
    qRed (qRgb 200 0 0) = 200 ∧ qGray (qRgb 200 0 0) = 68 ∧
    perChannelContrast 200 = 100 ∧ qRed (contrastingColor (qRgb 200 0 0)) = 144 ∧
    qRed (qRgb 100 200 100) = 100 ∧ qGray (qRgb 100 200 100) = 150 ∧
    perChannelContrast 100 = 200 ∧ qRed (contrastingColor (qRgb 100 200 100)) = 50 := by
  decide

/-- C23, amended: `contrastingColor` decides once for the whole colour, on its
grey value `qGray(col) = (11 * red + 16 * green + 5 * blue) / 32`. When the
grey value is below 128 every channel `c` of the result is `c * 2` reduced
modulo 256 (`qRgb` masks each channel with `0xff`), otherwise every channel is
`c / 2`. A channel of the result therefore follows the per-channel rule
(`c * 2` when `c < 128`, `c / 2` otherwise) whenever the channel lies on the
same side of 128 as the grey value. -/
theorem contrastingColor_spec (col : Nat) :
    (qGray col < 128 →
      qRed (contrastingColor col) = qRed col * 2 % 256 ∧
      qGreen (contrastingColor col) = qGreen col * 2 % 256 ∧
      qBlue (contrastingColor col) = qBlue col * 2 % 256) ∧
    (¬ qGray col < 128 →
      qRed (contrastingColor col) = qRed col / 2 ∧
      qGreen (contrastingColor col) = qGreen col / 2 ∧
      qBlue (contrastingColor col) = qBlue col / 2) ∧
    ((qGray col < 128 ↔ qRed col < 128) →
      qRed (contrastingColor col) = perChannelContrast (qRed col)) ∧
    ((qGray col < 128 ↔ qGreen col < 128) →
      qGreen (contrastingColor col) = perChannelContrast (qGreen col)) ∧
    ((qGray col < 128 ↔ qBlue col < 128) →
      qBlue (contrastingColor col) = perChannelContrast (qBlue col)) := by
  have hR := channel_range (col / 65536)
  have hG := channel_range (col / 256)
  have hB := channel_range col
  have hr : qRed col = ((col / 65536 % 256 : Nat) : Int) := rfl
  have hg : qGreen col = ((col / 256 % 256 : Nat) : Int) := rfl
  have hb : qBlue col = ((col % 256 : Nat) : Int) := rfl
  by_cases hgray : qGray col < 128
  · have e : contrastingColor col = qRgb (qRed col * 2) (qGreen col * 2) (qBlue col * 2) := by
      unfold contrastingColor
      rw [if_pos hgray]
    rw [e, qRed_qRgb, qGreen_qRgb, qBlue_qRgb]
    refine ⟨fun _ => ⟨rfl, rfl, rfl⟩, fun h => absurd hgray h, ?_, ?_, ?_⟩
    · intro h
      have h1 := h.mp hgray
      unfold perChannelContrast
      rw [if_pos h1]
      omega
    · intro h
      have h1 := h.mp hgray
      unfold perChannelContrast
      rw [if_pos h1]
      omega
    · intro h
      have h1 := h.mp hgray
      unfold perChannelContrast
      rw [if_pos h1]
      omega
  · have e : contrastingColor col = qRgb (qRed col / 2) (qGreen col / 2) (qBlue col / 2) := by
      unfold contrastingColor
      rw [if_neg hgray]
    rw [e, qRed_qRgb, qGreen_qRgb, qBlue_qRgb]
    refine ⟨fun h => absurd h hgray, fun _ => ⟨by omega, by omega, by omega⟩, ?_, ?_, ?_⟩
    · intro h
      have h1 : ¬ qRed col < 128 := fun h2 => hgray (h.mpr h2)
      unfold perChannelContrast
      rw [if_neg h1]
      omega
    · intro h
      have h1 : ¬ qGreen col < 128 := fun h2 => hgray (h.mpr h2)
      unfold perChannelContrast
      rw [if_neg h1]
      omega
    · intro h
      have h1 : ¬ qBlue col < 128 := fun h2 => hgray (h.mpr h2)
      unfold perChannelContrast
      rw [if_neg h1]
      omega

theorem contrastingColor_spec_witness :
    qRed (contrastingColor (qRgb 200 0 0)) = qRed (qRgb 200 0 0) * 2 % 256 ∧
    qGreen (contrastingColor (qRgb 100 200 100)) = qGreen (qRgb 100 200 100) / 2 ∧
    qBlue (contrastingColor (qRgb 10 20 30)) = perChannelContrast (qBlue (qRgb 10 20 30)) :=
  ⟨((contrastingColor_spec (qRgb 200 0 0)).1 (by decide)).1,
    ((contrastingColor_spec (qRgb 100 200 100)).2.1 (by decide)).2.1,
    (contrastingColor_spec (qRgb 10 20 30)).2.2.2.2 (by decide)⟩

/-! ## C24: orientations in the simple strategy -/

theorem simpleLoop_orientation (p : Platform) (view : KTreemapView)
    (dir childDir : KOrientation) (rect : Rect) (scale : ℚ) (surface : KCushionSurface) :
    ∀ (l : List KFileInfo) (offset : Int) (ts : List ChildTile),
      createChildrenSimpleLoop p view dir childDir rect scale surface l offset = some ts →
      ∀ t ∈ ts, t.orientation = childDir := by
  intro l
  induction l with
  | nil =>
    intro offset ts h
    simp only [createChildrenSimpleLoop, Option.some.injEq] at h
    subst h
    simp
  | cons c rest ih =>
    intro offset ts h
    simp only [createChildrenSimpleLoop] at h
    split at h
    · exact absurd h (by simp)
    · cases hrec : createChildrenSimpleLoop p view dir childDir rect scale surface rest
          (offset + truncate (scale * (c.totalSize : ℚ))) with
      | none => rw [hrec] at h; simp at h
      | some ts1 =>
        rw [hrec] at h
        simp only [Option.map_some', Option.some.injEq] at h
        subst h
        intro t ht
        rcases List.mem_cons.mp ht with rfl | ht
        · rfl
        · exact ih _ _ hrec t ht

/-- C24, the code against the claim. The node of the worked example in the
rectangle 100x10 with orientation Auto: the children are laid out along the
horizontal direction, and each child tile is constructed with the orientation
Auto, not Vertical. The first three children, whose rectangles are wider than
high, would lay out their own children horizontally again. -/
theorem auto_child_not_orthogonal :
    simpleDir ⟨0, 0, 100, 10⟩ KTreemapAuto = KTreemapHorizontal ∧
    (createChildrenSimple Platform.debug ⟨false, 1, 1 / 2⟩ exampleRoot ⟨0, 0, 0, 0, 1⟩
        ⟨0, 0, 100, 10⟩ KTreemapAuto).map
      (fun c => c.tiles.map
        (fun t => (t.rect, t.orientation, simpleDir t.rect t.orientation))) =
      some [(⟨0, 0, 50, 10⟩, KTreemapAuto, KTreemapHorizontal),
        (⟨50, 0, 30, 10⟩, KTreemapAuto, KTreemapHorizontal),
        (⟨80, 0, 15, 10⟩, KTreemapAuto, KTreemapHorizontal),
        (⟨95, 0, 5, 10⟩, KTreemapAuto, KTreemapVertical)] := by
  constructor
  · simp [simpleDir]
  · norm_num [createChildrenSimple, createChildrenSimpleLoop, simpleDir,
      simpleChildDir, sortedChildBySize, sortCandidates, minSizeFor, truncate,
      Platform.debug, stableSort, exampleRoot, KFileInfo.totalSize, KFileInfo.children,
      KFileInfo.dotEntry, KFileInfo.leaf, reduceCtorEq]
    decide

/-- C24, amended: in `createChildrenSimple` the direction `dir` of the layout
is the orientation itself for Horizontal and Vertical, and for Auto it is
Horizontal when `width > height` and Vertical otherwise. Every child tile spans
the rectangle across `dir` and receives its ridge along `dir`. A child tile is
constructed with the orthogonal orientation when the parent's orientation is
Horizontal or Vertical; when the parent's orientation is Auto the child is
constructed with Auto as well, so it resolves its direction from its own
rectangle. -/
theorem createChildrenSimple_orientation (p : Platform) (view : KTreemapView)
    (orig : KFileInfo) (surface : KCushionSurface) (rect : Rect)
    (orientation : KOrientation) (c : Children)
    (h : createChildrenSimple p view orig surface rect orientation = some c) :
    (orientation = KTreemapHorizontal → simpleDir rect orientation = KTreemapHorizontal) ∧
    (orientation = KTreemapVertical → simpleDir rect orientation = KTreemapVertical) ∧
    (orientation = KTreemapAuto →
      (rect.width > rect.height → simpleDir rect orientation = KTreemapHorizontal) ∧
      (¬ rect.width > rect.height → simpleDir rect orientation = KTreemapVertical)) ∧
    ∀ t ∈ c.tiles,
      t.ridgeDir = simpleDir rect orientation ∧
      (simpleDir rect orientation = KTreemapHorizontal →
        t.rect.y = rect.y ∧ t.rect.height = rect.height) ∧
      (simpleDir rect orientation = KTreemapVertical →
        t.rect.x = rect.x ∧ t.rect.width = rect.width) ∧
      (orientation = KTreemapHorizontal → t.orientation = KTreemapVertical) ∧
      (orientation = KTreemapVertical → t.orientation = KTreemapHorizontal) ∧
      (orientation = KTreemapAuto → t.orientation = KTreemapAuto ∧
        (t.rect.width > t.rect.height →
          simpleDir t.rect t.orientation = KTreemapHorizontal) ∧
        (¬ t.rect.width > t.rect.height →
          simpleDir t.rect t.orientation = KTreemapVertical)) := by
  rw [createChildrenSimple_eq] at h
  simp only [Option.map_eq_some'] at h
  obtain ⟨ts, hts, rfl⟩ := h
  have hseed := simpleLoop_seed _ _ _ _ _ _ _ _ _ _ hts
  have hform := simpleLoop_rect_form _ _ _ _ _ _ _ _ _ _ hts
  have hor := simpleLoop_orientation _ _ _ _ _ _ _ _ _ _ hts
  refine ⟨?_, ?_, ?_, ?_⟩
  · intro ho; subst ho; simp [simpleDir]
  · intro ho; subst ho; simp [simpleDir]
  · intro ho; subst ho
    constructor
    · intro hw; simp [simpleDir, hw]
    · intro hw; simp [simpleDir, hw]
  · intro t ht
    obtain ⟨_, h2, _⟩ := hseed t ht
    obtain ⟨k, o, _, _, hrect⟩ := hform t ht
    have ho := hor t ht
    refine ⟨h2, ?_, ?_, ?_, ?_, ?_⟩
    · intro hd
      rw [if_pos hd] at hrect
      rw [hrect]
      exact ⟨rfl, rfl⟩
    · intro hd
      rw [if_neg (by rw [hd]; decide)] at hrect
      rw [hrect]
      exact ⟨rfl, rfl⟩
    · intro hh; rw [ho, hh]; rfl
    · intro hh; rw [ho, hh]; rfl
    · intro hh
      have ha : t.orientation = KTreemapAuto := by rw [ho, hh]; rfl
      refine ⟨ha, ?_, ?_⟩
      · intro hw; rw [ha]; simp [simpleDir, hw]
      · intro hw; rw [ha]; simp [simpleDir, hw]

theorem createChildrenSimple_orientation_witness :
    (createChildrenSimple Platform.debug ⟨false, 1, 1 / 2⟩ exampleRoot ⟨0, 0, 0, 0, 1⟩
        ⟨0, 0, 100, 10⟩ KTreemapAuto).isSome ∧
    simpleDir ⟨0, 0, 100, 10⟩ KTreemapAuto = KTreemapHorizontal := by
  have hsome : (createChildrenSimple Platform.debug ⟨false, 1, 1 / 2⟩ exampleRoot
      ⟨0, 0, 0, 0, 1⟩ ⟨0, 0, 100, 10⟩ KTreemapAuto).isSome := by
    norm_num [createChildrenSimple, createChildrenSimpleLoop, simpleDir,
      simpleChildDir, sortedChildBySize, sortCandidates, minSizeFor, truncate,
      Platform.debug, stableSort, exampleRoot, KFileInfo.totalSize, KFileInfo.children,
      KFileInfo.dotEntry, KFileInfo.leaf, reduceCtorEq]
  obtain ⟨c, hc⟩ := Option.isSome_iff_exists.mp hsome
  exact ⟨hsome, ((createChildrenSimple_orientation Platform.debug ⟨false, 1, 1 / 2⟩
    exampleRoot ⟨0, 0, 0, 0, 1⟩ ⟨0, 0, 100, 10⟩ KTreemapAuto c hc).2.2.1 rfl).1
      (by decide)⟩

/-! ## C25: the loop of createSquarifiedChildren ends -/

/-- One call of `squarify` on a non-empty range: the iterator moves forward by
`k >= 1` elements, and unless the longer side of the rectangle is zero the row
consists of the `k` elements passed. -/
theorem squarify_advance (r : Rect) (scale : ℚ) (c : KFileInfo) (rest : List KFileInfo) :
    ∃ k, 1 ≤ k ∧ (squarify r scale (c :: rest)).2 = (c :: rest).drop k ∧
      (max r.width r.height ≠ 0 → (squarify r scale (c :: rest)).1 = (c :: rest).take k) := by
  by_cases hlen : max r.width r.height = 0
  · refine ⟨1, le_refl _, ?_, fun h => absurd hlen h⟩
    unfold squarify
    simp only [hlen, if_true]
    rfl
  · have e : squarify r scale (c :: rest) =
        squarifyLoop (max r.width r.height) scale [c] (0 + (c.totalSize : ℚ))
          (AspectValue.fin (-1)) rest := by
      unfold squarify
      simp only [hlen, if_false]
      simp only [squarifyLoop, List.nil_append]
    have happ := squarifyLoop_append (max r.width r.height) scale rest [c]
      (0 + (c.totalSize : ℚ)) (AspectValue.fin (-1))
    have hlength := (squarifyLoop_length (max r.width r.height) scale rest [c]
      (0 + (c.totalSize : ℚ)) (AspectValue.fin (-1))).2
    rw [← e] at happ hlength
    simp only [List.singleton_append] at happ
    simp only [List.length_cons, List.length_nil] at hlength
    clear e
    generalize squarify r scale (c :: rest) = s at happ hlength ⊢
    refine ⟨s.1.length, by omega, ?_, fun _ => ?_⟩
    · rw [← happ, List.drop_left]
    · rw [← happ, List.take_left]

theorem squarifiedRows_partition (view : KTreemapView) (surface : KCushionSurface)
    (scale : ℚ) :
    ∀ (n : Nat) (rect : Rect) (it : List KFileInfo), it.length ≤ n →
      (squarifiedRows view surface scale rect it).length ≤ it.length ∧
      ((∀ r ∈ squarifiedRows view surface scale rect it,
          max r.rect.width r.rect.height ≠ 0) →
        (∀ r ∈ squarifiedRows view surface scale rect it, r.row ≠ []) ∧
        ((squarifiedRows view surface scale rect it).map RowLayout.row).flatten = it) := by
  intro n
  induction n with
  | zero =>
    intro rect it hlen
    have : it = [] := List.length_eq_zero.mp (Nat.le_zero.mp hlen)
    subst this
    simp [squarifiedRows]
  | succ n ih =>
    intro rect it hlen
    cases it with
    | nil => simp [squarifiedRows]
    | cons c rest =>
      rw [squarifiedRows_cons]
      obtain ⟨k, hk, hdrop, htake⟩ := squarify_advance rect scale c rest
      have hlt := squarify_snd_length_lt rect scale c rest
      simp only [List.length_cons] at hlt hlen
      obtain ⟨i1, i2⟩ := ih
        (layoutRow view surface rect scale (squarify rect scale (c :: rest)).1).2
        (squarify rect scale (c :: rest)).2 (by omega)
      constructor
      · simp only [List.length_cons]
        omega
      · intro hall
        have hhead : max rect.width rect.height ≠ 0 :=
          hall _ (List.mem_cons_self _ _)
        obtain ⟨j1, j2⟩ := i2 (fun r hr => hall r (List.mem_cons_of_mem _ hr))
        have hrow := htake hhead
        constructor
        · intro r hr
          rcases List.mem_cons.mp hr with rfl | hr
          · simp only
            rw [hrow]
            intro hnil
            have := congrArg List.length hnil
            simp only [List.length_take, List.length_cons, List.length_nil] at this
            omega
          · exact j1 r hr
        · simp only [List.map_cons, List.flatten_cons, j2]
          rw [hrow, hdrop]
          exact List.take_append_drop k (c :: rest)

/-- C25: the squarified layout loop ends on every input. Each call of
`squarify` on a non-empty range moves the iterator forward by at least one
element, also when the longer side of the rectangle is zero, so the loop of
`createSquarifiedChildren` makes at most `sorted.size()` turns; and when no
turn meets a rectangle whose longer side is zero, every committed row is
non-empty and the rows, concatenated in order, are the sorted child list. -/
theorem squarified_loop_terminates (view : KTreemapView) (surface : KCushionSurface)
    (scale : ℚ) (rect : Rect) (sorted : List KFileInfo) :
    (∀ (r : Rect) (c : KFileInfo) (rest : List KFileInfo),
      ∃ k, 1 ≤ k ∧ (squarify r scale (c :: rest)).2 = (c :: rest).drop k) ∧
    (squarifiedRows view surface scale rect sorted).length ≤ sorted.length ∧
    ((∀ r ∈ squarifiedRows view surface scale rect sorted,
        max r.rect.width r.rect.height ≠ 0) →
      (∀ r ∈ squarifiedRows view surface scale rect sorted, r.row ≠ []) ∧
      ((squarifiedRows view surface scale rect sorted).map RowLayout.row).flatten =
        sorted) := by
  refine ⟨?_, ?_⟩
  · intro r c rest
    obtain ⟨k, hk, hdrop, _⟩ := squarify_advance r scale c rest
    exact ⟨k, hk, hdrop⟩
  · exact squarifiedRows_partition view surface scale sorted.length rect sorted (le_refl _)

theorem squarified_loop_terminates_witness :
    ((squarifiedRows ⟨true, 1, 1 / 2⟩ ⟨0, 0, 0, 0, 1⟩ 50 ⟨0, 0, 100, 50⟩
      [.leaf 1 50, .leaf 2 30, .leaf 3 15, .leaf 4 5]).map RowLayout.row).flatten =
        [.leaf 1 50, .leaf 2 30, .leaf 3 15, .leaf 4 5] :=
  ((squarified_loop_terminates ⟨true, 1, 1 / 2⟩ ⟨0, 0, 0, 0, 1⟩ 50 ⟨0, 0, 100, 50⟩
    [.leaf 1 50, .leaf 2 30, .leaf 3 15, .leaf 4 5]).2.2 (by
      norm_num [squarifiedRows, squarify, squarifyLoop, worstAspectRatio, layoutRow,
        layoutRowLoop, rowSecondary, truncate, KFileInfo.totalSize, KFileInfo.leaf,
        AspectValue.geZero, AspectValue.gt])).2

/-! ## C26: the assertion of createChildrenSimple -/

/-- C26, the code at a failing input. Node of weight 10 with children of weights
7 and 3, rectangle 15x10, horizontal, `minTileSize = 5`: `scale = 1.5` and the
threshold handed to `sortedChildBySize` is `(KFileSize)(5 / 1.5) = 3`, so the
child of weight 3 is returned; its `childSize` is `(int)(1.5 * 3) = 4 < 5` and
`assert(childSize >= minTileSize)` fails. With `NDEBUG` the child receives a
tile 4 wide. -/
theorem createChildrenSimple_assert_fails :
    0 < thresholdNode.totalSize ∧
    simpleDir ⟨0, 0, 15, 10⟩ KTreemapHorizontal = KTreemapHorizontal ∧
    0 < primaryExtent KTreemapHorizontal ⟨0, 0, 15, 10⟩ ∧
    simpleScale thresholdNode ⟨0, 0, 15, 10⟩ KTreemapHorizontal = 3 / 2 ∧
    minSizeFor Platform.debug 5 (3 / 2) = 3 ∧
    sortedChildBySize Platform.debug thresholdNode 3 = [.leaf 1 7, .leaf 2 3] ∧
    truncate ((3 / 2 : ℚ) * ((KFileInfo.leaf 2 3).totalSize : ℚ)) = 4 ∧
    (createChildrenSimple Platform.debug ⟨false, 5, 1 / 2⟩ thresholdNode ⟨0, 0, 0, 0, 1⟩
      ⟨0, 0, 15, 10⟩ KTreemapHorizontal).isNone ∧
    (createChildrenSimple Platform.release ⟨false, 5, 1 / 2⟩ thresholdNode ⟨0, 0, 0, 0, 1⟩
      ⟨0, 0, 15, 10⟩ KTreemapHorizontal).map (fun c => c.tiles.map ChildTile.place) =
      some [(.leaf 1 7, ⟨0, 0, 10, 10⟩), (.leaf 2 3, ⟨10, 0, 4, 10⟩)] := by
  refine ⟨by decide, by simp [simpleDir], by decide, ?_, ?_, ?_, ?_, ?_, ?_⟩
  · norm_num [simpleScale, primaryExtent, simpleDir, thresholdNode, KFileInfo.totalSize]
  · norm_num [minSizeFor, truncate]
  · norm_num [sortedChildBySize, sortCandidates, Platform.debug, stableSort, thresholdNode,
      KFileInfo.totalSize, KFileInfo.children, KFileInfo.dotEntry, KFileInfo.leaf]
  · norm_num [truncate, KFileInfo.totalSize, KFileInfo.leaf]
  · norm_num [createChildrenSimple, createChildrenSimpleLoop, simpleDir,
      simpleChildDir, sortedChildBySize, sortCandidates, minSizeFor, truncate,
      Platform.debug, stableSort, thresholdNode, KFileInfo.totalSize, KFileInfo.children,
      KFileInfo.dotEntry, KFileInfo.leaf]
  · norm_num [createChildrenSimple, createChildrenSimpleLoop, simpleDir,
      simpleChildDir, sortedChildBySize, sortCandidates, minSizeFor, truncate,
      Platform.release, stableSort, thresholdNode, KFileInfo.totalSize, KFileInfo.children,
      KFileInfo.dotEntry, KFileInfo.leaf, ChildTile.place]

/-! ## C27: the first two members of a row -/

theorem squarifyLoop_row_is_head (length : Int) (scale : ℚ) (it : List KFileInfo)
    (row : List KFileInfo) (sum : ℚ) (lastWorst : AspectValue) :
    ∃ tl, (squarifyLoop length scale row sum lastWorst it).1 = row ++ tl := by
  have happ := squarifyLoop_append length scale it row sum lastWorst
  have hlen := (squarifyLoop_length length scale it row sum lastWorst).2
  generalize squarifyLoop length scale row sum lastWorst it = s at happ hlen
  rcases List.append_eq_append_iff.mp happ with ⟨a, h1, _⟩ | ⟨c, h1, _⟩
  · have hl := congrArg List.length h1
    simp only [List.length_append] at hl
    have ha : a = [] := List.length_eq_zero.mp (by omega)
    subst ha
    exact ⟨[], by rw [h1]; simp⟩
  · exact ⟨c, h1⟩

theorem squarifyLoop_second (length : Int) (scale : ℚ) (a b : KFileInfo)
    (rest : List KFileInfo) (sum : ℚ) :
    ∃ (sum1 : ℚ) (lastWorst : AspectValue),
      squarifyLoop length scale [a] sum (AspectValue.fin (-1)) (b :: rest) =
        squarifyLoop length scale [a, b] sum1 lastWorst rest := by
  simp only [squarifyLoop]
  have hneg : (AspectValue.fin (-1)).geZero = false := by
    simp only [AspectValue.geZero]
    norm_num
  simp only [hneg, Bool.false_and, List.singleton_append]
  split
  · exact ⟨_, _, rfl⟩
  · exact ⟨_, _, rfl⟩

/-- C27: on a rectangle whose longer side is not zero, the row built by
`squarify` starts with the first remaining child and, when there is one, the
second: the second child is appended whatever the worst aspect ratio becomes,
since `lastWorstAspectRatio` is still -1 when it is examined. The row therefore
has at least `min(2, number of remaining children)` members. -/
theorem squarify_first_two (rect : Rect) (scale : ℚ)
    (hlen : max rect.width rect.height ≠ 0) :
    (∀ (a : KFileInfo) (rest : List KFileInfo),
      ∃ tl, (squarify rect scale (a :: rest)).1 = a :: tl) ∧
    (∀ (a b : KFileInfo) (rest : List KFileInfo),
      ∃ tl, (squarify rect scale (a :: b :: rest)).1 = a :: b :: tl) ∧
    (∀ it : List KFileInfo, min 2 it.length ≤ (squarify rect scale it).1.length) := by
  have h1 : ∀ (a : KFileInfo) (rest : List KFileInfo),
      ∃ tl, (squarify rect scale (a :: rest)).1 = a :: tl := by
    intro a rest
    unfold squarify
    simp only [hlen, if_false]
    simp only [squarifyLoop, List.nil_append]
    obtain ⟨tl, htl⟩ := squarifyLoop_row_is_head (max rect.width rect.height) scale rest [a]
      (0 + (a.totalSize : ℚ)) (AspectValue.fin (-1))
    exact ⟨tl, by rw [htl]; rfl⟩
  have h2 : ∀ (a b : KFileInfo) (rest : List KFileInfo),
      ∃ tl, (squarify rect scale (a :: b :: rest)).1 = a :: b :: tl := by
    intro a b rest
    unfold squarify
    simp only [hlen, if_false]
    have e : squarifyLoop (max rect.width rect.height) scale [] 0 (AspectValue.fin (-1))
        (a :: b :: rest) =
        squarifyLoop (max rect.width rect.height) scale [a] (0 + (a.totalSize : ℚ))
          (AspectValue.fin (-1)) (b :: rest) := by
      simp only [squarifyLoop, List.nil_append]
    obtain ⟨sum1, lw, e2⟩ := squarifyLoop_second (max rect.width rect.height) scale a b rest
      (0 + (a.totalSize : ℚ))
    obtain ⟨tl, htl⟩ := squarifyLoop_row_is_head (max rect.width rect.height) scale rest
      [a, b] sum1 lw
    exact ⟨tl, by rw [e, e2, htl]; rfl⟩
  refine ⟨h1, h2, ?_⟩
  intro it
  match it with
  | [] => simp
  | [a] =>
    obtain ⟨tl, htl⟩ := h1 a []
    rw [htl]
    simp
  | a :: b :: rest =>
    obtain ⟨tl, htl⟩ := h2 a b rest
    rw [htl]
    simp

theorem squarify_first_two_witness :
    (squarify ⟨0, 0, 10, 10⟩ 1 [.leaf 1 99, .leaf 2 1]).1.length ≥
      min 2 ([.leaf 1 99, .leaf 2 1] : List KFileInfo).length :=
  (squarify_first_two ⟨0, 0, 10, 10⟩ 1 (by decide)).2.2 [.leaf 1 99, .leaf 2 1]

/-! ## C28: sizes written to the cache are read back -/

theorem digitChar_facts (d : Nat) (h : d < 10) :
    isdigit (Nat.digitChar d) = true ∧ (Nat.digitChar d).toNat - 48 = d := by
  interval_cases d <;> decide

theorem isdigit_facts (c : Char) (h : isdigit c = true) :
    isspace c = false ∧ c ≠ '-' ∧ c ≠ '+' := by
  unfold isdigit at h
  simp only [Bool.and_eq_true, decide_eq_true_eq] at h
  refine ⟨?_, ?_, ?_⟩
  · unfold isspace
    simp only [Bool.or_eq_false_iff, Bool.and_eq_false_iff, decide_eq_false_iff_not]
    omega
  · intro hc
    subst hc
    revert h
    decide
  · intro hc
    subst hc
    revert h
    decide

theorem strtollDigits_append (l : List Char) (hl : ∀ c ∈ l, isdigit c = true) :
    ∀ (acc : Nat) (rest : List Char),
      strtollDigits (l ++ rest) acc =
        strtollDigits rest (l.foldl (fun a c => a * 10 + (c.toNat - 48)) acc) := by
  induction l with
  | nil => intro acc rest; rfl
  | cons c tl ih =>
    intro acc rest
    have hc := hl c (List.mem_cons_self _ _)
    simp only [List.cons_append, strtollDigits, hc, if_true, List.foldl_cons]
    exact ih (fun x hx => hl x (List.mem_cons_of_mem _ hx)) _ _

theorem strtollDigits_stop (rest : List Char) (acc : Nat)
    (hrest : rest.head?.map isdigit ≠ some true) :
    strtollDigits rest acc = (acc, rest) := by
  cases rest with
  | nil => rfl
  | cons c tl =>
    simp only [List.head?_cons, Option.map_some', ne_eq, Option.some.injEq] at hrest
    simp only [strtollDigits, hrest, if_false]
    rfl

theorem decimalDigits_facts (n : Nat) :
    (∀ c ∈ decimalDigits n, isdigit c = true) ∧
    (decimalDigits n).foldl (fun a c => a * 10 + (c.toNat - 48)) 0 = n ∧
    decimalDigits n ≠ [] := by
  induction n using Nat.strong_induction_on with
  | _ n ih =>
    rw [decimalDigits]
    split
    · rename_i h
      obtain ⟨h1, h2⟩ := digitChar_facts n h
      refine ⟨?_, ?_, by simp⟩
      · intro c hc
        rw [List.mem_singleton.mp hc]
        exact h1
      · simp only [List.foldl_cons, List.foldl_nil]
        omega
    · rename_i h
      obtain ⟨i1, i2, _⟩ := ih (n / 10) (by omega)
      obtain ⟨h1, h2⟩ := digitChar_facts (n % 10) (by omega)
      refine ⟨?_, ?_, by simp⟩
      · intro c hc
        rcases List.mem_append.mp hc with hc | hc
        · exact i1 c hc
        · rw [List.mem_singleton.mp hc]
          exact h1
      · rw [List.foldl_append, i2]
        simp only [List.foldl_cons, List.foldl_nil]
        omega

/-- What `strtoll` makes of the digits of `n` followed by a string that does not
start with a digit. -/
theorem strtoll_decimalDigits (n : Nat) (hn : (n : Int) ≤ LLONG_MAX) (rest : List Char)
    (hrest : rest.head?.map isdigit ≠ some true) :
    strtoll (decimalDigits n ++ rest) = ((n : Int), rest) := by
  obtain ⟨d1, d2, d3⟩ := decimalDigits_facts n
  obtain ⟨c, tl, hctl⟩ : ∃ c tl, decimalDigits n = c :: tl := by
    cases h : decimalDigits n with
    | nil => exact absurd h d3
    | cons c tl => exact ⟨c, tl, rfl⟩
  have hc : isdigit c = true := d1 c (by rw [hctl]; exact List.mem_cons_self _ _)
  obtain ⟨f1, f2, f3⟩ := isdigit_facts c hc
  have hdrop : (decimalDigits n ++ rest).dropWhile isspace = decimalDigits n ++ rest := by
    rw [hctl, List.cons_append]
    exact List.dropWhile_cons_of_neg (by rw [f1]; simp)
  have hhead : (decimalDigits n ++ rest).head? = some c := by
    rw [hctl]; rfl
  have hdigits := strtollDigits_append (decimalDigits n) d1 0 rest
  rw [d2, strtollDigits_stop rest n hrest] at hdigits
  unfold strtoll
  simp only [hdrop, hhead, Option.some.injEq, f2, f3, or_self, if_false, Option.map_some', hc,
    if_true, decide_False, hdigits, Bool.false_eq_true]
  have h2 : ¬ ((n : Int) > LLONG_MAX) := not_lt.mpr hn
  have h3 : ¬ ((n : Int) < LLONG_MIN) := by
    unfold LLONG_MIN
    omega
  simp only [h2, h3, if_false]

/-- C28: for every size from 0 to `LLONG_MAX`, reading the string that
`KCacheWriter::formatSize` produces the way `KCacheReader::addItem` reads the
size field (`strtoll` in base 10, then the suffix `K`, `M` or `G` multiplying
by 1024, 1024^2 or 1024^3) gives back the size. -/
theorem formatSize_round_trip (size : Int) (h0 : 0 ≤ size) (hmax : size ≤ LLONG_MAX) :
    KCacheReader.parseSize (KCacheWriter.formatSize size) = size := by
  have hfmt : ∀ q : Int, 0 ≤ q → formatLongLong q = decimalDigits q.toNat := by
    intro q hq
    unfold formatLongLong
    rw [if_neg (not_lt.mpr hq)]
  have hparse : ∀ (q : Int) (rest : List Char), 0 ≤ q → q ≤ LLONG_MAX →
      rest.head?.map isdigit ≠ some true →
      strtoll (formatLongLong q ++ rest) = (q, rest) := by
    intro q rest hq hq2 hrest
    rw [hfmt q hq, strtoll_decimalDigits q.toNat (by rw [Int.toNat_of_nonneg hq]; exact hq2)
      rest hrest, Int.toNat_of_nonneg hq]
  unfold LLONG_MAX at hmax hparse
  unfold KCacheWriter.formatSize
  split
  · rename_i hG
    obtain ⟨hG1, hG2⟩ := hG
    have hG0 : (0 : Int) ≤ GB := by unfold GB; norm_num
    rw [Int.tmod_eq_emod h0 hG0] at hG2
    rw [Int.tdiv_eq_ediv h0 hG0]
    unfold GB at hG1 hG2 ⊢
    unfold KCacheReader.parseSize
    rw [hparse _ ['G'] (by omega) (by omega) (by decide)]
    simp only [List.head?_cons, Option.some.injEq]
    rw [if_neg (by decide), if_neg (by decide), if_pos trivial]
    unfold wrapLongLong GB
    omega
  · split
    · rename_i hG hM
      obtain ⟨hM1, hM2⟩ := hM
      have hM0 : (0 : Int) ≤ MB := by unfold MB; norm_num
      rw [Int.tmod_eq_emod h0 hM0] at hM2
      rw [Int.tdiv_eq_ediv h0 hM0]
      unfold MB at hM1 hM2 ⊢
      unfold KCacheReader.parseSize
      rw [hparse _ ['M'] (by omega) (by omega) (by decide)]
      simp only [List.head?_cons, Option.some.injEq]
      rw [if_neg (by decide), if_pos trivial]
      unfold wrapLongLong MB
      omega
    · split
      · rename_i hG hM hK
        obtain ⟨hK1, hK2⟩ := hK
        have hK0 : (0 : Int) ≤ KB := by unfold KB; norm_num
        rw [Int.tmod_eq_emod h0 hK0] at hK2
        rw [Int.tdiv_eq_ediv h0 hK0]
        unfold KB at hK1 hK2 ⊢
        unfold KCacheReader.parseSize
        rw [hparse _ ['K'] (by omega) (by omega) (by decide)]
        simp only [List.head?_cons, Option.some.injEq]
        rw [if_pos trivial]
        unfold wrapLongLong KB
        omega
      · have e := hparse size [] h0 hmax (by decide)
        rw [List.append_nil] at e
        unfold KCacheReader.parseSize
        rw [e]
        simp

theorem formatSize_round_trip_witness :
    KCacheReader.parseSize (KCacheWriter.formatSize 3072) = 3072 ∧
    KCacheReader.parseSize (KCacheWriter.formatSize 1000) = 1000 :=
  ⟨formatSize_round_trip 3072 (by decide) (by decide),
    formatSize_round_trip 1000 (by decide) (by decide)⟩

/-! ## Double arithmetic: rounding -/

theorem roundTiesEven_eq_of_lt (y : ℚ) (m : Int) (h1 : (m : ℚ) - 1 / 2 < y)
    (h2 : y < (m : ℚ) + 1 / 2) : roundTiesEven y = m := by
  have hf1 : (⌊y⌋ : ℚ) ≤ y := Int.floor_le y
  have hf2 : y < (⌊y⌋ : ℚ) + 1 := Int.lt_floor_add_one y
  have hlo : m - 1 < ⌊y⌋ + 1 := by
    have : ((m - 1 : Int) : ℚ) < ((⌊y⌋ + 1 : Int) : ℚ) := by push_cast; linarith
    exact_mod_cast this
  have hhi : ⌊y⌋ < m + 1 := by
    have : ((⌊y⌋ : Int) : ℚ) < ((m + 1 : Int) : ℚ) := by push_cast; linarith
    exact_mod_cast this
  unfold roundTiesEven
  rcases (by omega : ⌊y⌋ = m ∨ ⌊y⌋ = m - 1) with h | h
  · rw [h]
    rw [if_pos (by linarith)]
  · rw [h]
    have e : ((m - 1 : Int) : ℚ) = (m : ℚ) - 1 := by push_cast; ring
    rw [e, if_neg (by linarith), if_pos (by linarith)]
    ring

theorem roundTiesEven_intCast (m : Int) : roundTiesEven (m : ℚ) = m :=
  roundTiesEven_eq_of_lt _ m (by linarith) (by linarith)

theorem abs_roundTiesEven_sub_le (y : ℚ) : |(roundTiesEven y : ℚ) - y| ≤ 1 / 2 := by
  have hf1 : (⌊y⌋ : ℚ) ≤ y := Int.floor_le y
  have hf2 : y < (⌊y⌋ : ℚ) + 1 := Int.lt_floor_add_one y
  unfold roundTiesEven
  rw [abs_le]
  split
  · constructor <;> linarith
  · split
    · push_cast
      constructor <;> linarith
    · split
      · constructor <;> linarith
      · push_cast
        constructor <;> linarith

theorem roundTiesEven_nonneg (y : ℚ) (hy : 0 ≤ y) : 0 ≤ roundTiesEven y := by
  have hf : 0 ≤ ⌊y⌋ := Int.floor_nonneg.mpr hy
  unfold roundTiesEven
  split
  · exact hf
  · split
    · omega
    · split
      · exact hf
      · omega

theorem log_two_abs (q : ℚ) (hq : q ≠ 0) :
    (2 : ℚ) ^ (Int.log 2 |q|) ≤ |q| ∧ |q| < (2 : ℚ) ^ (Int.log 2 |q| + 1) := by
  have hpos : 0 < |q| := abs_pos.mpr hq
  exact ⟨by exact_mod_cast Int.zpow_log_le_self (b := 2) (by norm_num) hpos,
    by exact_mod_cast Int.lt_zpow_succ_log_self (b := 2) (by norm_num) |q|⟩

theorem log_two_abs_eq (q : ℚ) (k : Int) (h1 : (2 : ℚ) ^ k ≤ |q|) (h2 : |q| < (2 : ℚ) ^ (k + 1)) :
    Int.log 2 |q| = k := by
  have hpos : 0 < |q| := lt_of_lt_of_le (by positivity) h1
  have a : k ≤ Int.log 2 |q| :=
    (Int.zpow_le_iff_le_log (b := 2) (by norm_num) hpos).mp (by exact_mod_cast h1)
  have b : Int.log 2 |q| < k + 1 :=
    (Int.lt_zpow_iff_log_lt (b := 2) (by norm_num) hpos).mp (by exact_mod_cast h2)
  omega

/-- Evaluation of `roundDouble`: for `2^52 * 2^e <= q < 2^53 * 2^e` the
result is `m * 2^e` for the integer `m` nearest to `q / 2^e`. -/
theorem roundDouble_eval (q : ℚ) (e m : Int) (h1 : (2 : ℚ) ^ (52 : Int) * (2 : ℚ) ^ e ≤ q)
    (h2 : q < (2 : ℚ) ^ (53 : Int) * (2 : ℚ) ^ e) (h3 : (m : ℚ) - 1 / 2 < q / (2 : ℚ) ^ e)
    (h4 : q / (2 : ℚ) ^ e < (m : ℚ) + 1 / 2) : roundDouble q = (m : ℚ) * (2 : ℚ) ^ e := by
  have hq0 : 0 < q := lt_of_lt_of_le (by positivity) h1
  have hq : q ≠ 0 := ne_of_gt hq0
  rw [← abs_of_pos hq0] at h1 h2
  have hlog : Int.log 2 |q| = e + 52 := by
    apply log_two_abs_eq
    · rw [zpow_add₀ (by norm_num : (2 : ℚ) ≠ 0), mul_comm]; exact h1
    · have : (2 : ℚ) ^ (e + 52 + 1) = (2 : ℚ) ^ (53 : Int) * (2 : ℚ) ^ e := by
        rw [← zpow_add₀ (by norm_num : (2 : ℚ) ≠ 0)]
        congr 1
        ring
      rw [this]; exact h2
  unfold roundDouble
  rw [if_neg hq, hlog]
  have : e + 52 - 52 = e := by ring
  rw [this, roundTiesEven_eq_of_lt _ m h3 h4]

theorem roundDouble_zero : roundDouble 0 = 0 := by
  unfold roundDouble
  rw [if_pos rfl]

theorem roundDouble_nonneg (q : ℚ) (hq : 0 ≤ q) : 0 ≤ roundDouble q := by
  unfold roundDouble
  split
  · exact le_refl _
  · have h := roundTiesEven_nonneg (q / (2 : ℚ) ^ (Int.log 2 |q| - 52))
      (div_nonneg hq (by positivity))
    have h2 : (0 : ℚ) ≤ (roundTiesEven (q / (2 : ℚ) ^ (Int.log 2 |q| - 52)) : ℚ) := by
      exact_mod_cast h
    exact mul_nonneg h2 (by positivity)

/-- The relative error of one rounding is at most `2 ^ (-53)`. -/
theorem roundDouble_error (q : ℚ) : |roundDouble q - q| ≤ |q| * (2 : ℚ) ^ (-53 : Int) := by
  by_cases hq : q = 0
  · rw [hq, roundDouble_zero]; simp
  · obtain ⟨hlo, _⟩ := log_two_abs q hq
    unfold roundDouble
    rw [if_neg hq]
    generalize Int.log 2 |q| = k at hlo ⊢
    have hpos : (0 : ℚ) < (2 : ℚ) ^ (k - 52) := by positivity
    have herr := abs_roundTiesEven_sub_le (q / (2 : ℚ) ^ (k - 52))
    have hrw : (roundTiesEven (q / (2 : ℚ) ^ (k - 52)) : ℚ) * (2 : ℚ) ^ (k - 52) - q =
        ((roundTiesEven (q / (2 : ℚ) ^ (k - 52)) : ℚ) - q / (2 : ℚ) ^ (k - 52)) *
          (2 : ℚ) ^ (k - 52) := by
      field_simp
    rw [hrw, abs_mul, abs_of_pos hpos]
    have hk : (2 : ℚ) ^ (k - 52) * (1 / 2) = (2 : ℚ) ^ k * (2 : ℚ) ^ (-53 : Int) := by
      rw [← zpow_add₀ (by norm_num : (2 : ℚ) ≠ 0)]
      have : k + -53 = (k - 52) + (-1) := by ring
      rw [this, zpow_add₀ (by norm_num : (2 : ℚ) ≠ 0)]
      norm_num
    calc |(roundTiesEven (q / (2 : ℚ) ^ (k - 52)) : ℚ) - q / (2 : ℚ) ^ (k - 52)| *
          (2 : ℚ) ^ (k - 52)
        ≤ 1 / 2 * (2 : ℚ) ^ (k - 52) := mul_le_mul_of_nonneg_right herr hpos.le
      _ = (2 : ℚ) ^ k * (2 : ℚ) ^ (-53 : Int) := by rw [mul_comm, hk]
      _ ≤ |q| * (2 : ℚ) ^ (-53 : Int) := mul_le_mul_of_nonneg_right hlo (by positivity)

/-- A number with at most 53 significant bits is a `double`: rounding keeps
it. -/
theorem roundDouble_of_dyadic (m e : Int) (hm : |m| < 2 ^ 53) :
    roundDouble ((m : ℚ) * (2 : ℚ) ^ e) = (m : ℚ) * (2 : ℚ) ^ e := by
  by_cases hm0 : m = 0
  · rw [hm0]; simp [roundDouble_zero]
  · have h2pos : (0 : ℚ) < (2 : ℚ) ^ e := by positivity
    have hq : (m : ℚ) * (2 : ℚ) ^ e ≠ 0 :=
      mul_ne_zero (by exact_mod_cast hm0) (ne_of_gt h2pos)
    obtain ⟨hlo, _⟩ := log_two_abs _ hq
    unfold roundDouble
    rw [if_neg hq]
    generalize Int.log 2 |(m : ℚ) * (2 : ℚ) ^ e| = k at hlo ⊢
    -- 2^k ≤ |m| 2^e < 2^(53+e), so k - 52 ≤ e
    have habs : |(m : ℚ) * (2 : ℚ) ^ e| = |(m : ℚ)| * (2 : ℚ) ^ e := by
      rw [abs_mul, abs_of_pos h2pos]
    have hmq : |(m : ℚ)| < (2 : ℚ) ^ (53 : Int) := by
      have : ((|m| : Int) : ℚ) < ((2 ^ 53 : Int) : ℚ) := by exact_mod_cast hm
      rw [Int.cast_abs] at this
      calc |(m : ℚ)| < ((2 ^ 53 : Int) : ℚ) := this
        _ = (2 : ℚ) ^ (53 : Int) := by norm_num
    have hlt : (2 : ℚ) ^ k < (2 : ℚ) ^ (53 + e) := by
      rw [zpow_add₀ (by norm_num : (2 : ℚ) ≠ 0)]
      calc (2 : ℚ) ^ k ≤ |(m : ℚ)| * (2 : ℚ) ^ e := by rw [← habs]; exact hlo
        _ < (2 : ℚ) ^ (53 : Int) * (2 : ℚ) ^ e := mul_lt_mul_of_pos_right hmq h2pos
    have hke : k < 53 + e := (zpow_lt_zpow_iff_right₀ (by norm_num : (1 : ℚ) < 2)).mp hlt
    obtain ⟨d, hd⟩ : ∃ d : Nat, e = (k - 52) + (d : Int) := ⟨(e - (k - 52)).toNat, by omega⟩
    have hdiv : (m : ℚ) * (2 : ℚ) ^ e / (2 : ℚ) ^ (k - 52) = ((m * 2 ^ d : Int) : ℚ) := by
      rw [hd, zpow_add₀ (by norm_num : (2 : ℚ) ≠ 0)]
      have : (0 : ℚ) < (2 : ℚ) ^ (k - 52) := by positivity
      push_cast
      field_simp
      ring
    rw [hdiv, roundTiesEven_intCast, hd, zpow_add₀ (by norm_num : (2 : ℚ) ≠ 0), zpow_natCast]
    push_cast
    ring

/-- Integers of magnitude below `2 ^ 53` are converted to `double` without
rounding. -/
theorem roundDouble_intCast (n : Int) (hn : |n| < 2 ^ 53) : roundDouble (n : ℚ) = (n : ℚ) := by
  have h := roundDouble_of_dyadic n 0 hn
  simpa using h

/-! ## Double arithmetic: the simple strategy -/

theorem ieee_simpleLoop_nth (p : Platform) (view : KTreemapView) (dir : KOrientation)
    (rect : Rect) (scale : ℚ) :
    ∀ (l : List KFileInfo) (offset : Int) (ts : List (KFileInfo × Rect)),
      Ieee.createChildrenSimpleLoop p view dir rect scale l offset = some ts →
      ts.length = l.length ∧
      (ts.map (fun t => primaryExtent dir t.2)).sum = Ieee.simpleExtent scale l ∧
      (ts.map (fun t => t.2.area)).sum =
        Ieee.simpleExtent scale l * secondaryExtent dir rect ∧
      ∀ (i : Nat) (t : KFileInfo × Rect), ts[i]? = some t →
        l[i]? = some t.1 ∧
          primaryExtent dir t.2 = Ieee.simpleChildSize scale t.1 ∧
          secondaryExtent dir t.2 = secondaryExtent dir rect ∧
          primaryOffset dir rect t.2 = offset + Ieee.simpleExtent scale (l.take i) ∧
          ((ts.take i).map (fun u => primaryExtent dir u.2)).sum =
            Ieee.simpleExtent scale (l.take i) ∧
          (dir = KTreemapHorizontal → t.2.y = rect.y) ∧
          (dir ≠ KTreemapHorizontal → t.2.x = rect.x) := by
  intro l
  induction l with
  | nil =>
    intro offset ts h
    simp only [Ieee.createChildrenSimpleLoop, Option.some.injEq] at h
    subst h
    simp [Ieee.simpleExtent]
  | cons c rest ih =>
    intro offset ts h
    simp only [Ieee.createChildrenSimpleLoop] at h
    split at h
    · exact absurd h (by simp)
    · cases hrec : Ieee.createChildrenSimpleLoop p view dir rect scale rest
          (offset + Ieee.simpleChildSize scale c) with
      | none => rw [hrec] at h; simp at h
      | some ts1 =>
        rw [hrec] at h
        simp only [Option.map_some', Option.some.injEq] at h
        subst h
        obtain ⟨ih1, ih2, ih3, ih4⟩ := ih _ _ hrec
        refine ⟨by simp [ih1], ?_, ?_, ?_⟩
        · simp only [List.map_cons, List.sum_cons, ih2, Ieee.simpleExtent]
          by_cases hd : dir = KTreemapHorizontal <;> simp [primaryExtent, hd]
        · simp only [List.map_cons, List.sum_cons, ih3, Ieee.simpleExtent]
          by_cases hd : dir = KTreemapHorizontal <;>
            simp [secondaryExtent, Rect.area, hd] <;> ring
        · intro i t hi
          cases i with
          | zero =>
            simp only [List.getElem?_cons_zero, Option.some.injEq] at hi
            subst hi
            refine ⟨by simp, ?_, ?_, ?_, ?_, ?_, ?_⟩
            · by_cases hd : dir = KTreemapHorizontal <;> simp [primaryExtent, hd]
            · by_cases hd : dir = KTreemapHorizontal <;> simp [secondaryExtent, hd]
            · by_cases hd : dir = KTreemapHorizontal <;>
                simp [primaryOffset, hd, Ieee.simpleExtent]
            · simp [Ieee.simpleExtent]
            · intro hd; simp [hd]
            · intro hd; simp [hd]
          | succ j =>
            simp only [List.getElem?_cons_succ] at hi
            obtain ⟨h1, h2, h3, h4, h5, h6, h7⟩ := ih4 j t hi
            refine ⟨by simpa using h1, h2, h3, ?_, ?_, h6, h7⟩
            · rw [h4]
              simp only [List.take_succ_cons, Ieee.simpleExtent, List.map_cons, List.sum_cons]
              ring
            · simp only [List.take_succ_cons, List.map_cons, List.sum_cons, h5,
                Ieee.simpleExtent]
              by_cases hd : dir = KTreemapHorizontal <;> simp [primaryExtent, hd]

theorem ieee_simpleLoop_isSome (p : Platform) (hnd : p.ndebug = true) (view : KTreemapView)
    (dir : KOrientation) (rect : Rect) (scale : ℚ) :
    ∀ (l : List KFileInfo) (offset : Int),
      (Ieee.createChildrenSimpleLoop p view dir rect scale l offset).isSome := by
  intro l
  induction l with
  | nil => intro offset; rfl
  | cons c rest ih =>
    intro offset
    simp only [Ieee.createChildrenSimpleLoop, hnd, Bool.not_true, Bool.false_and,
      Bool.false_eq_true, if_false, Option.isSome_map']
    exact ih _


/-- One rounding multiplies a non-negative number by a factor between
`1 - 2^-53` and `1 + 2^-53`. -/
theorem roundDouble_factor (x : ℚ) (hx : 0 ≤ x) :
    ∃ d : ℚ, 1 - 1 / 2 ^ 53 ≤ d ∧ d ≤ 1 + 1 / 2 ^ 53 ∧ roundDouble x = x * d := by
  by_cases h0 : x = 0
  · exact ⟨1, by norm_num, by norm_num, by rw [h0, roundDouble_zero]; ring⟩
  · have hpos : 0 < x := lt_of_le_of_ne hx (Ne.symm h0)
    have herr := roundDouble_error x
    rw [abs_of_pos hpos, abs_le] at herr
    have hu : (2 : ℚ) ^ (-53 : Int) = 1 / 2 ^ 53 := by norm_num
    rw [hu] at herr
    refine ⟨roundDouble x / x, ?_, ?_, by field_simp⟩
    · rw [le_div_iff₀ hpos]
      linarith [herr.1]
    · rw [div_le_iff₀ hpos]
      linarith [herr.2]

/-- The double expression `a / b * c` (three conversions, one division, one
multiplication) against the exact value: the five roundings change it by a
factor between `1 - 2^-50` and `1 + 2^-50`. -/
theorem ieee_product_bounds (a b c : Int) (ha : 0 ≤ a) (hb : 0 < b) (hc : 0 ≤ c) :
    (a : ℚ) / (b : ℚ) * (c : ℚ) * (1 - 1 / 2 ^ 50) ≤
      roundDouble (roundDouble (Ieee.toDouble a / Ieee.toDouble b) * Ieee.toDouble c) ∧
    roundDouble (roundDouble (Ieee.toDouble a / Ieee.toDouble b) * Ieee.toDouble c) ≤
      (a : ℚ) / (b : ℚ) * (c : ℚ) * (1 + 1 / 2 ^ 50) ∧
    0 ≤ roundDouble (roundDouble (Ieee.toDouble a / Ieee.toDouble b) * Ieee.toDouble c) := by
  have hsq : (0 : ℚ) ≤ (a : ℚ) := by exact_mod_cast ha
  have hTq : (0 : ℚ) < (b : ℚ) := by exact_mod_cast hb
  have hwq : (0 : ℚ) ≤ (c : ℚ) := by exact_mod_cast hc
  unfold Ieee.toDouble
  obtain ⟨d1, a1, b1, e1⟩ := roundDouble_factor (a : ℚ) hsq
  obtain ⟨d2, a2, b2, e2⟩ := roundDouble_factor (b : ℚ) hTq.le
  obtain ⟨d4, a4, b4, e4⟩ := roundDouble_factor (c : ℚ) hwq
  have hd1 : 0 < d1 := lt_of_lt_of_le (by norm_num) a1
  have hd2 : 0 < d2 := lt_of_lt_of_le (by norm_num) a2
  have hd4 : 0 < d4 := lt_of_lt_of_le (by norm_num) a4
  rw [e1, e2, e4]
  have hq0 : 0 ≤ (a : ℚ) * d1 / ((b : ℚ) * d2) :=
    div_nonneg (mul_nonneg hsq hd1.le) (mul_pos hTq hd2).le
  obtain ⟨d3, a3, b3, e3⟩ := roundDouble_factor _ hq0
  have hd3 : 0 < d3 := lt_of_lt_of_le (by norm_num) a3
  rw [e3]
  have hp0 : 0 ≤ (a : ℚ) * d1 / ((b : ℚ) * d2) * d3 * ((c : ℚ) * d4) :=
    mul_nonneg (mul_nonneg hq0 hd3.le) (mul_nonneg hwq hd4.le)
  obtain ⟨d5, a5, b5, e5⟩ := roundDouble_factor _ hp0
  have hd5 : 0 < d5 := lt_of_lt_of_le (by norm_num) a5
  rw [e5]
  have hx : 0 ≤ (a : ℚ) / (b : ℚ) * (c : ℚ) :=
    mul_nonneg (div_nonneg hsq hTq.le) hwq
  have hform : (a : ℚ) * d1 / ((b : ℚ) * d2) * d3 * ((c : ℚ) * d4) * d5 =
      (a : ℚ) / (b : ℚ) * (c : ℚ) * (d1 * d3 * d4 * d5 / d2) := by
    field_simp
    ring
  rw [hform]
  have hnum_le : d1 * d3 * d4 * d5 ≤ (1 + 1 / 2 ^ 53) ^ 4 := by
    have h13 : d1 * d3 ≤ (1 + 1 / 2 ^ 53) * (1 + 1 / 2 ^ 53) :=
      mul_le_mul b1 b3 hd3.le (by norm_num)
    have h134 : d1 * d3 * d4 ≤ (1 + 1 / 2 ^ 53) * (1 + 1 / 2 ^ 53) * (1 + 1 / 2 ^ 53) :=
      mul_le_mul h13 b4 hd4.le (by norm_num)
    have h1345 : d1 * d3 * d4 * d5 ≤
        (1 + 1 / 2 ^ 53) * (1 + 1 / 2 ^ 53) * (1 + 1 / 2 ^ 53) * (1 + 1 / 2 ^ 53) :=
      mul_le_mul h134 b5 hd5.le (by norm_num)
    calc d1 * d3 * d4 * d5 ≤ _ := h1345
      _ = (1 + 1 / 2 ^ 53) ^ 4 := by ring
  have hnum_ge : (1 - 1 / 2 ^ 53) ^ 4 ≤ d1 * d3 * d4 * d5 := by
    have h13 : (1 - 1 / 2 ^ 53) * (1 - 1 / 2 ^ 53) ≤ d1 * d3 :=
      mul_le_mul a1 a3 (by norm_num) hd1.le
    have h134 : (1 - 1 / 2 ^ 53) * (1 - 1 / 2 ^ 53) * (1 - 1 / 2 ^ 53) ≤ d1 * d3 * d4 :=
      mul_le_mul h13 a4 (by norm_num) (mul_pos hd1 hd3).le
    have h1345 : (1 - 1 / 2 ^ 53) * (1 - 1 / 2 ^ 53) * (1 - 1 / 2 ^ 53) * (1 - 1 / 2 ^ 53) ≤
        d1 * d3 * d4 * d5 :=
      mul_le_mul h134 a5 (by norm_num) (mul_pos (mul_pos hd1 hd3) hd4).le
    calc (1 - 1 / 2 ^ 53) ^ 4 = _ := by ring
      _ ≤ d1 * d3 * d4 * d5 := h1345
  have hrho_le : d1 * d3 * d4 * d5 / d2 ≤ 1 + 1 / 2 ^ 50 := by
    rw [div_le_iff₀ hd2]
    have hc : (1 + 1 / 2 ^ 53 : ℚ) ^ 4 ≤ (1 + 1 / 2 ^ 50) * (1 - 1 / 2 ^ 53) := by norm_num
    calc d1 * d3 * d4 * d5 ≤ (1 + 1 / 2 ^ 53) ^ 4 := hnum_le
      _ ≤ (1 + 1 / 2 ^ 50) * (1 - 1 / 2 ^ 53) := hc
      _ ≤ (1 + 1 / 2 ^ 50) * d2 := mul_le_mul_of_nonneg_left a2 (by norm_num)
  have hrho_ge : 1 - 1 / 2 ^ 50 ≤ d1 * d3 * d4 * d5 / d2 := by
    rw [le_div_iff₀ hd2]
    have hc : (1 - 1 / 2 ^ 50 : ℚ) * (1 + 1 / 2 ^ 53) ≤ (1 - 1 / 2 ^ 53) ^ 4 := by norm_num
    calc (1 - 1 / 2 ^ 50) * d2 ≤ (1 - 1 / 2 ^ 50) * (1 + 1 / 2 ^ 53) :=
          mul_le_mul_of_nonneg_left b2 (by norm_num)
      _ ≤ (1 - 1 / 2 ^ 53) ^ 4 := hc
      _ ≤ d1 * d3 * d4 * d5 := hnum_ge
  refine ⟨mul_le_mul_of_nonneg_left hrho_ge hx, mul_le_mul_of_nonneg_left hrho_le hx, ?_⟩
  exact mul_nonneg hx (le_trans (by norm_num) hrho_ge)

theorem ieee_simpleChildSize_bounds (size : Int) (T : Nat) (c : KFileInfo) (hs : 0 ≤ size)
    (hT : 0 < T) :
    (size : ℚ) / (T : ℚ) * (c.totalSize : ℚ) * (1 - 1 / 2 ^ 50) - 1 <
      ((Ieee.simpleChildSize
        (roundDouble (Ieee.toDouble size / Ieee.toDouble (T : Int))) c : Int) : ℚ) ∧
    ((Ieee.simpleChildSize
        (roundDouble (Ieee.toDouble size / Ieee.toDouble (T : Int))) c : Int) : ℚ) ≤
      (size : ℚ) / (T : ℚ) * (c.totalSize : ℚ) * (1 + 1 / 2 ^ 50) := by
  obtain ⟨h1, h2, h3⟩ := ieee_product_bounds size (T : Int) (c.totalSize : Int) hs
    (by exact_mod_cast hT) (Int.natCast_nonneg _)
  simp only [Int.cast_natCast] at h1 h2
  unfold Ieee.simpleChildSize
  rw [truncate_of_nonneg h3]
  constructor
  · have := Int.sub_one_lt_floor (roundDouble
      (roundDouble (Ieee.toDouble size / Ieee.toDouble (T : Int)) *
        Ieee.toDouble (c.totalSize : Int)))
    linarith
  · exact le_trans (Int.floor_le _) h2

theorem ieee_simpleExtent_bounds (size : Int) (T : Nat) (hs : 0 ≤ size) (hT : 0 < T)
    (l : List KFileInfo) :
    (size : ℚ) / (T : ℚ) * (((l.map KFileInfo.totalSize).sum : Nat) : ℚ) * (1 - 1 / 2 ^ 50) -
        (l.length : ℚ) ≤
      ((Ieee.simpleExtent
        (roundDouble (Ieee.toDouble size / Ieee.toDouble (T : Int))) l : Int) : ℚ) ∧
    ((Ieee.simpleExtent
        (roundDouble (Ieee.toDouble size / Ieee.toDouble (T : Int))) l : Int) : ℚ) ≤
      (size : ℚ) / (T : ℚ) * (((l.map KFileInfo.totalSize).sum : Nat) : ℚ) *
        (1 + 1 / 2 ^ 50) := by
  induction l with
  | nil => simp [Ieee.simpleExtent]
  | cons c rest ih =>
    obtain ⟨c1, c2⟩ := ieee_simpleChildSize_bounds size T c hs hT
    obtain ⟨i1, i2⟩ := ih
    simp only [Ieee.simpleExtent, List.map_cons, List.sum_cons, Int.cast_add, Nat.cast_add,
      List.length_cons, Nat.cast_one] at i1 i2 ⊢
    constructor
    · have : (size : ℚ) / (T : ℚ) * ((c.totalSize : ℚ) +
          (((rest.map KFileInfo.totalSize).sum : Nat) : ℚ)) * (1 - 1 / 2 ^ 50) =
          (size : ℚ) / (T : ℚ) * (c.totalSize : ℚ) * (1 - 1 / 2 ^ 50) +
          (size : ℚ) / (T : ℚ) * (((rest.map KFileInfo.totalSize).sum : Nat) : ℚ) *
            (1 - 1 / 2 ^ 50) := by ring
      linarith
    · have : (size : ℚ) / (T : ℚ) * ((c.totalSize : ℚ) +
          (((rest.map KFileInfo.totalSize).sum : Nat) : ℚ)) * (1 + 1 / 2 ^ 50) =
          (size : ℚ) / (T : ℚ) * (c.totalSize : ℚ) * (1 + 1 / 2 ^ 50) +
          (size : ℚ) / (T : ℚ) * (((rest.map KFileInfo.totalSize).sum : Nat) : ℚ) *
            (1 + 1 / 2 ^ 50) := by ring
      linarith


theorem ieee_createChildrenSimple_eq (p : Platform) (view : KTreemapView) (orig : KFileInfo)
    (rect : Rect) (orientation : KOrientation) :
    Ieee.createChildrenSimple p view orig rect orientation =
      Ieee.createChildrenSimpleLoop p view (simpleDir rect orientation) rect
        (Ieee.simpleScale orig rect orientation)
        (sortedChildBySize p orig
          (Ieee.minSizeFor p view.minTileSize (Ieee.simpleScale orig rect orientation))) 0 :=
  rfl

/-! ## C11: the unfilled strip of the simple strategy -/

/-- C11 fails as stated. Node of weight 7 with one child of weight 7, rectangle
61x10, horizontal, `minTileSize = 0`: the double `61 / 7.0` is slightly below
61/7, its product with 7 is `60.99999999999999`, and the child gets the tile
60 wide. The unfilled strip is 1, the number of children, not less. -/
theorem simple_strip_equals_child_count :
    Ieee.simpleScale singleChildNode ⟨0, 0, 61, 10⟩ KTreemapHorizontal =
      4905706736957147 / 562949953421312 ∧
    roundDouble (Ieee.simpleScale singleChildNode ⟨0, 0, 61, 10⟩ KTreemapHorizontal * 7) =
      8584986789675007 / 140737488355328 ∧
    Ieee.createChildrenSimple Platform.debug ⟨false, 0, 1 / 2⟩ singleChildNode
      ⟨0, 0, 61, 10⟩ KTreemapHorizontal = some [(.leaf 1 7, ⟨0, 0, 60, 10⟩)] ∧
    primaryExtent KTreemapHorizontal ⟨0, 0, 61, 10⟩ - 60 = 1 := by
  have f61 : roundDouble (61) = 61 := by
    rw [roundDouble_eval (61) (-47) 8584986789675008 (by norm_num) (by norm_num)
      (by norm_num) (by norm_num)]
    norm_num
  have f7 : roundDouble (7) = 7 := by
    rw [roundDouble_eval (7) (-50) 7881299347898368 (by norm_num) (by norm_num)
      (by norm_num) (by norm_num)]
    norm_num
  have fs : roundDouble (61 / 7) = 4905706736957147 / 562949953421312 := by
    rw [roundDouble_eval (61 / 7) (-49) 4905706736957147 (by norm_num) (by norm_num)
      (by norm_num) (by norm_num)]
    norm_num
  have fp : roundDouble (34339947158700029 / 562949953421312) = 8584986789675007 / 140737488355328 := by
    rw [roundDouble_eval (34339947158700029 / 562949953421312) (-47) 8584986789675007 (by norm_num) (by norm_num)
      (by norm_num) (by norm_num)]
    norm_num
  have hscale : Ieee.simpleScale singleChildNode ⟨0, 0, 61, 10⟩ KTreemapHorizontal =
      4905706736957147 / 562949953421312 := by
    norm_num [Ieee.simpleScale, Ieee.toDouble, primaryExtent, simpleDir, singleChildNode,
      KFileInfo.totalSize, f61, f7, fs]
  have hprod : roundDouble ((4905706736957147 / 562949953421312 : ℚ) * 7) =
      8584986789675007 / 140737488355328 := by
    norm_num [fp]
  refine ⟨hscale, by rw [hscale]; exact hprod, ?_, by decide⟩
  rw [ieee_createChildrenSimple_eq, hscale]
  have hmin : Ieee.minSizeFor Platform.debug 0 (4905706736957147 / 562949953421312) = 0 := by
    norm_num [Ieee.minSizeFor, Ieee.toDouble, roundDouble_zero, truncate]
  have hsorted : sortedChildBySize Platform.debug singleChildNode 0 = [.leaf 1 7] := by
    norm_num [sortedChildBySize, sortCandidates, Platform.debug, stableSort, singleChildNode,
      KFileInfo.totalSize, KFileInfo.children, KFileInfo.dotEntry, KFileInfo.leaf]
  have hsize : Ieee.simpleChildSize (4905706736957147 / 562949953421312) (.leaf 1 7) = 60 := by
    have h7 : Ieee.toDouble ((KFileInfo.leaf 1 7).totalSize : Int) = 7 := by
      norm_num [Ieee.toDouble, KFileInfo.leaf, KFileInfo.totalSize, f7]
    unfold Ieee.simpleChildSize
    rw [h7, hprod]
    norm_num [truncate]
  rw [hmin, hsorted]
  simp only [Ieee.createChildrenSimpleLoop, hsize]
  norm_num [simpleDir, Platform.debug]

/-- C11, amended: simple strategy in double arithmetic, node whose children's
weights (dot entry included) sum to the node's positive weight, no child
filtered out, primary length within the range of `int`. The areas of the
placed children's rectangles sum to at most the area of the rectangle, and the
unfilled strip along the primary axis (primary length minus the sum of the
children's extents) is non-negative and at most the number of children. With
`NDEBUG` the call always returns its tiles. -/
theorem simple_unfilled_strip (p : Platform) (hp : p.SortConforms) (view : KTreemapView)
    (orig : KFileInfo) (rect : Rect)
    (orientation : KOrientation) (hpos : 0 < orig.totalSize)
    (hsum : orig.childrenSize = orig.totalSize)
    (hw : 0 ≤ rect.width) (hh : 0 ≤ rect.height)
    (hint : primaryExtent (simpleDir rect orientation) rect < 2 ^ 31)
    (hall : ∀ c, (c ∈ orig.children ∨ orig.dotEntry = some c) →
      Ieee.minSizeFor p view.minTileSize (Ieee.simpleScale orig rect orientation) ≤
        (c.totalSize : Int)) :
    (∀ ts, Ieee.createChildrenSimple p view orig rect orientation = some ts →
      (ts.map (fun t => t.2.area)).sum ≤ rect.area ∧
      0 ≤ primaryExtent (simpleDir rect orientation) rect -
        (ts.map (fun t => primaryExtent (simpleDir rect orientation) t.2)).sum ∧
      primaryExtent (simpleDir rect orientation) rect -
        (ts.map (fun t => primaryExtent (simpleDir rect orientation) t.2)).sum ≤
          (ts.length : Int)) ∧
    (p.ndebug = true →
      (Ieee.createChildrenSimple p view orig rect orientation).isSome) := by
  constructor
  · intro ts hts
    rw [ieee_createChildrenSimple_eq] at hts
    obtain ⟨hlen, hext, harea, _⟩ := ieee_simpleLoop_nth _ _ _ _ _ _ _ _ hts
    set dir := simpleDir rect orientation with hdir
    set sorted := sortedChildBySize p orig
      (Ieee.minSizeFor p view.minTileSize (Ieee.simpleScale orig rect orientation)) with hsorted
    have hsize : 0 ≤ primaryExtent dir rect := by
      unfold primaryExtent; split <;> assumption
    have hsec : 0 ≤ secondaryExtent dir rect := by
      unfold secondaryExtent; split <;> assumption
    have hT : (0 : ℚ) < (orig.totalSize : ℚ) := by exact_mod_cast hpos
    have hperm := (hp (sortCandidates orig
      (Ieee.minSizeFor p view.minTileSize (Ieee.simpleScale orig rect orientation)))).1
    have hsumeq : ((sorted.map KFileInfo.totalSize).sum : Nat) = orig.totalSize := by
      have h1 := (hperm.map KFileInfo.totalSize).sum_eq
      rw [hsorted]
      unfold sortedChildBySize
      rw [h1, sum_sortCandidates_eq orig _ hall, hsum]
    obtain ⟨b1, b2⟩ := ieee_simpleExtent_bounds (primaryExtent dir rect) orig.totalSize
      hsize hpos sorted
    have hscale : roundDouble (Ieee.toDouble (primaryExtent dir rect) /
        Ieee.toDouble (orig.totalSize : Int)) = Ieee.simpleScale orig rect orientation := rfl
    rw [hscale, hsumeq] at b1 b2
    have hcancel : ((primaryExtent dir rect : Int) : ℚ) / (orig.totalSize : ℚ) *
        (orig.totalSize : ℚ) = ((primaryExtent dir rect : Int) : ℚ) := by
      field_simp
    rw [hcancel] at b1 b2
    have hsz0 : (0 : ℚ) ≤ ((primaryExtent dir rect : Int) : ℚ) := by exact_mod_cast hsize
    have hsz1 : ((primaryExtent dir rect : Int) : ℚ) < 2 ^ 31 := by exact_mod_cast hint
    have hle2 : Ieee.simpleExtent (Ieee.simpleScale orig rect orientation) sorted ≤
        primaryExtent dir rect := by
      have : ((Ieee.simpleExtent (Ieee.simpleScale orig rect orientation) sorted : Int) : ℚ) <
          ((primaryExtent dir rect + 1 : Int) : ℚ) := by
        push_cast
        have : ((primaryExtent dir rect : Int) : ℚ) * (1 + 1 / 2 ^ 50) <
            ((primaryExtent dir rect : Int) : ℚ) + 1 := by
          have : ((primaryExtent dir rect : Int) : ℚ) * (1 / 2 ^ 50) < 1 := by
            calc ((primaryExtent dir rect : Int) : ℚ) * (1 / 2 ^ 50)
                ≤ 2 ^ 31 * (1 / 2 ^ 50) :=
                  mul_le_mul_of_nonneg_right hsz1.le (by norm_num)
              _ < 1 := by norm_num
          linarith
        linarith
      have h2 : Ieee.simpleExtent (Ieee.simpleScale orig rect orientation) sorted <
          primaryExtent dir rect + 1 := by exact_mod_cast this
      omega
    have hge2 : primaryExtent dir rect - (sorted.length : Int) ≤
        Ieee.simpleExtent (Ieee.simpleScale orig rect orientation) sorted := by
      have : ((primaryExtent dir rect - (sorted.length : Int) - 1 : Int) : ℚ) <
          ((Ieee.simpleExtent (Ieee.simpleScale orig rect orientation) sorted : Int) : ℚ) := by
        push_cast
        have : ((primaryExtent dir rect : Int) : ℚ) * (1 / 2 ^ 50) < 1 := by
          calc ((primaryExtent dir rect : Int) : ℚ) * (1 / 2 ^ 50)
              ≤ 2 ^ 31 * (1 / 2 ^ 50) :=
                mul_le_mul_of_nonneg_right hsz1.le (by norm_num)
            _ < 1 := by norm_num
        linarith
      have h2 : primaryExtent dir rect - (sorted.length : Int) - 1 <
          Ieee.simpleExtent (Ieee.simpleScale orig rect orientation) sorted := by
        exact_mod_cast this
      omega
    rw [hext, harea, hlen]
    refine ⟨?_, by omega, by omega⟩
    have harea2 : rect.area = primaryExtent dir rect * secondaryExtent dir rect := by
      unfold Rect.area primaryExtent secondaryExtent
      split
      · rfl
      · exact mul_comm _ _
    rw [harea2]
    exact mul_le_mul_of_nonneg_right hle2 hsec
  · intro hnd
    rw [ieee_createChildrenSimple_eq]
    exact ieee_simpleLoop_isSome p hnd _ _ _ _ _ _

theorem simple_unfilled_strip_witness :
    Platform.release.SortConforms ∧
      (Ieee.createChildrenSimple Platform.release ⟨false, 0, 1 / 2⟩ exampleRoot
        ⟨0, 0, 100, 50⟩ KTreemapAuto).isSome := by
  refine ⟨release_sortConforms,
    (simple_unfilled_strip Platform.release release_sortConforms ⟨false, 0, 1 / 2⟩
      exampleRoot ⟨0, 0, 100, 50⟩ KTreemapAuto (by decide) (by decide)
      (by decide) (by decide) (by decide) ?_).2 rfl⟩
  intro c _
  have h : Ieee.minSizeFor Platform.release 0
      (Ieee.simpleScale exampleRoot ⟨0, 0, 100, 50⟩ KTreemapAuto) = 0 := by
    unfold Ieee.minSizeFor
    split
    · rfl
    · norm_num [Ieee.toDouble, roundDouble_zero, truncate]
  show Ieee.minSizeFor Platform.release 0
      (Ieee.simpleScale exampleRoot ⟨0, 0, 100, 50⟩ KTreemapAuto) ≤ (c.totalSize : Int)
  rw [h]
  exact Int.natCast_nonneg _

/-! ## C15: extents in the simple strategy -/

/-- C15 fails as stated: the extent is the truncation of `scale * weight`, not
its rounding to the nearest integer. Node of weight 16 with children of weight
13 and 3, rectangle 100x50, horizontal, `minTileSize = 1`: `scale = 6.25`, the
child of weight 3 has `scale * weight = 18.75` and gets the extent 18, while
rounding to the nearest integer gives 19. All values are exact in doubles, and
the layout in double arithmetic is the same. -/
theorem simple_extent_is_truncated :
    (createChildrenSimple Platform.debug ⟨false, 1, 1 / 2⟩
        (.mk 0 16 [.leaf 1 13, .leaf 2 3] none) ⟨0, 0, 0, 0, 1⟩ ⟨0, 0, 100, 50⟩
        KTreemapHorizontal).map (fun c => c.tiles.map ChildTile.place) =
      some [(.leaf 1 13, ⟨0, 0, 81, 50⟩), (.leaf 2 3, ⟨81, 0, 18, 50⟩)] ∧
    simpleScale (.mk 0 16 [.leaf 1 13, .leaf 2 3] none) ⟨0, 0, 100, 50⟩
        KTreemapHorizontal * 3 = 75 / 4 ∧
    roundNearest (simpleScale (.mk 0 16 [.leaf 1 13, .leaf 2 3] none) ⟨0, 0, 100, 50⟩
        KTreemapHorizontal * 3) = 19 ∧
    Ieee.simpleScale (.mk 0 16 [.leaf 1 13, .leaf 2 3] none) ⟨0, 0, 100, 50⟩
        KTreemapHorizontal = 25 / 4 ∧
    roundDouble ((25 / 4 : ℚ) * Ieee.toDouble 3) = 75 / 4 ∧
    Ieee.createChildrenSimple Platform.debug ⟨false, 1, 1 / 2⟩
        (.mk 0 16 [.leaf 1 13, .leaf 2 3] none) ⟨0, 0, 100, 50⟩ KTreemapHorizontal =
      some [(.leaf 1 13, ⟨0, 0, 81, 50⟩), (.leaf 2 3, ⟨81, 0, 18, 50⟩)] := by
  have f100 : roundDouble (100) = 100 := by
    rw [roundDouble_eval (100) (-46) 7036874417766400 (by norm_num) (by norm_num)
      (by norm_num) (by norm_num)]
    norm_num
  have f16 : roundDouble (16) = 16 := by
    rw [roundDouble_eval (16) (-48) 4503599627370496 (by norm_num) (by norm_num)
      (by norm_num) (by norm_num)]
    norm_num
  have fs : roundDouble (25 / 4) = 25 / 4 := by
    rw [roundDouble_eval (25 / 4) (-50) 7036874417766400 (by norm_num) (by norm_num)
      (by norm_num) (by norm_num)]
    norm_num
  have f1 : roundDouble (1) = 1 := by
    rw [roundDouble_eval (1) (-52) 4503599627370496 (by norm_num) (by norm_num)
      (by norm_num) (by norm_num)]
    norm_num
  have fm : roundDouble (4 / 25) = 5764607523034235 / 36028797018963968 := by
    rw [roundDouble_eval (4 / 25) (-55) 5764607523034235 (by norm_num) (by norm_num)
      (by norm_num) (by norm_num)]
    norm_num
  have f13 : roundDouble (13) = 13 := by
    rw [roundDouble_eval (13) (-49) 7318349394477056 (by norm_num) (by norm_num)
      (by norm_num) (by norm_num)]
    norm_num
  have f3 : roundDouble (3) = 3 := by
    rw [roundDouble_eval (3) (-51) 6755399441055744 (by norm_num) (by norm_num)
      (by norm_num) (by norm_num)]
    norm_num
  have fa : roundDouble (325 / 4) = 325 / 4 := by
    rw [roundDouble_eval (325 / 4) (-46) 5717460464435200 (by norm_num) (by norm_num)
      (by norm_num) (by norm_num)]
    norm_num
  have fb : roundDouble (75 / 4) = 75 / 4 := by
    rw [roundDouble_eval (75 / 4) (-48) 5277655813324800 (by norm_num) (by norm_num)
      (by norm_num) (by norm_num)]
    norm_num
  have hscale : Ieee.simpleScale (.mk 0 16 [.leaf 1 13, .leaf 2 3] none) ⟨0, 0, 100, 50⟩
      KTreemapHorizontal = 25 / 4 := by
    norm_num [Ieee.simpleScale, Ieee.toDouble, primaryExtent, simpleDir,
      KFileInfo.totalSize, f100, f16, fs]
  refine ⟨?_, ?_, ?_, hscale, ?_, ?_⟩
  · norm_num [createChildrenSimple, createChildrenSimpleLoop, simpleDir,
      simpleChildDir, sortedChildBySize, sortCandidates, minSizeFor, truncate,
      Platform.debug, stableSort, KFileInfo.totalSize, KFileInfo.children,
      KFileInfo.dotEntry, KFileInfo.leaf, ChildTile.place]
  · norm_num [simpleScale, primaryExtent, simpleDir, KFileInfo.totalSize]
  · norm_num [roundNearest, simpleScale, primaryExtent, simpleDir, KFileInfo.totalSize]
  · norm_num [Ieee.toDouble, f3, fb]
  · rw [ieee_createChildrenSimple_eq, hscale]
    have hmin : Ieee.minSizeFor Platform.debug 1 (25 / 4) = 0 := by
      norm_num [Ieee.minSizeFor, Ieee.toDouble, f1, fm, truncate]
    have hsorted : sortedChildBySize Platform.debug (.mk 0 16 [.leaf 1 13, .leaf 2 3] none) 0 =
        [.leaf 1 13, .leaf 2 3] := by
      norm_num [sortedChildBySize, sortCandidates, Platform.debug, stableSort,
        KFileInfo.totalSize, KFileInfo.children, KFileInfo.dotEntry, KFileInfo.leaf]
    have hs13 : Ieee.simpleChildSize (25 / 4) (.leaf 1 13) = 81 := by
      norm_num [Ieee.simpleChildSize, Ieee.toDouble, KFileInfo.leaf, KFileInfo.totalSize,
        f13, fa, truncate]
    have hs3 : Ieee.simpleChildSize (25 / 4) (.leaf 2 3) = 18 := by
      norm_num [Ieee.simpleChildSize, Ieee.toDouble, KFileInfo.leaf, KFileInfo.totalSize,
        f3, fb, truncate]
    rw [hmin, hsorted]
    simp only [Ieee.createChildrenSimpleLoop, hs13, hs3]
    norm_num [simpleDir, Platform.debug]

/-- C15, amended: for every child placed by `createChildrenSimple`, its extent
along the primary axis is the double product `scale * childWeight` truncated
toward zero (the conversion of the double to `int`), where `scale` is the
double quotient `primaryAxisLength / node weight`; its extent along the other
axis equals the parent's; and its offset along the primary axis equals the sum
of the extents of the children placed before it. The tiles are those of the
sorted children, in order. With `x = primaryAxisLength / node weight *
childWeight` the exact value, the extent lies between `x * (1 - 2^-50) - 1`
(exclusive) and `x * (1 + 2^-50)`: it is the truncation of `x`, or a neighbour
when the roundings carry the product across an integer. -/
theorem createChildrenSimple_extents (p : Platform) (view : KTreemapView)
    (orig : KFileInfo) (rect : Rect) (orientation : KOrientation)
    (ts : List (KFileInfo × Rect))
    (hc : Ieee.createChildrenSimple p view orig rect orientation = some ts) :
    ts.length = (sortedChildBySize p orig
      (Ieee.minSizeFor p view.minTileSize (Ieee.simpleScale orig rect orientation))).length ∧
    ∀ (i : Nat) (t : KFileInfo × Rect), ts[i]? = some t →
      (sortedChildBySize p orig
          (Ieee.minSizeFor p view.minTileSize (Ieee.simpleScale orig rect orientation)))[i]? =
            some t.1 ∧
        primaryExtent (simpleDir rect orientation) t.2 =
          truncate (roundDouble (Ieee.simpleScale orig rect orientation *
            Ieee.toDouble (t.1.totalSize : Int))) ∧
        secondaryExtent (simpleDir rect orientation) t.2 =
          secondaryExtent (simpleDir rect orientation) rect ∧
        primaryOffset (simpleDir rect orientation) rect t.2 =
          ((ts.take i).map
            (fun u => primaryExtent (simpleDir rect orientation) u.2)).sum ∧
        (0 ≤ primaryExtent (simpleDir rect orientation) rect → 0 < orig.totalSize →
          ((primaryExtent (simpleDir rect orientation) rect : Int) : ℚ) /
              (orig.totalSize : ℚ) * (t.1.totalSize : ℚ) * (1 - 1 / 2 ^ 50) - 1 <
            ((primaryExtent (simpleDir rect orientation) t.2 : Int) : ℚ) ∧
          ((primaryExtent (simpleDir rect orientation) t.2 : Int) : ℚ) ≤
            ((primaryExtent (simpleDir rect orientation) rect : Int) : ℚ) /
              (orig.totalSize : ℚ) * (t.1.totalSize : ℚ) * (1 + 1 / 2 ^ 50)) := by
  rw [ieee_createChildrenSimple_eq] at hc
  obtain ⟨hlen, _, _, hnth⟩ := ieee_simpleLoop_nth _ _ _ _ _ _ _ _ hc
  refine ⟨hlen, ?_⟩
  intro i t hi
  obtain ⟨h1, h2, h3, h4, h5, _, _⟩ := hnth i t hi
  refine ⟨h1, h2, h3, ?_, ?_⟩
  · rw [h4, h5]
    simp
  · intro hs hT
    rw [h2]
    exact ieee_simpleChildSize_bounds _ _ t.1 hs hT

theorem createChildrenSimple_extents_witness :
    (Ieee.createChildrenSimple Platform.release ⟨false, 1, 1 / 2⟩
        (.mk 0 16 [.leaf 1 13, .leaf 2 3] none) ⟨0, 0, 100, 50⟩
        KTreemapHorizontal).map List.length =
      some (sortedChildBySize Platform.release (.mk 0 16 [.leaf 1 13, .leaf 2 3] none)
        (Ieee.minSizeFor Platform.release 1
          (Ieee.simpleScale (.mk 0 16 [.leaf 1 13, .leaf 2 3] none)
            ⟨0, 0, 100, 50⟩ KTreemapHorizontal))).length := by
  have hsome : (Ieee.createChildrenSimple Platform.release ⟨false, 1, 1 / 2⟩
      (.mk 0 16 [.leaf 1 13, .leaf 2 3] none) ⟨0, 0, 100, 50⟩
      KTreemapHorizontal).isSome := by
    rw [ieee_createChildrenSimple_eq]
    exact ieee_simpleLoop_isSome Platform.release rfl _ _ _ _ _ _
  obtain ⟨ts, hts⟩ := Option.isSome_iff_exists.mp hsome
  rw [hts, Option.map_some', (createChildrenSimple_extents Platform.release ⟨false, 1, 1 / 2⟩
    (.mk 0 16 [.leaf 1 13, .leaf 2 3] none) ⟨0, 0, 100, 50⟩
    KTreemapHorizontal ts hts).1]

/-! ## C18: extents within a row -/

theorem ieee_rowChildSize_nonneg (sum : Nat) (primary : Int) (hp : 0 ≤ primary)
    (c : KFileInfo) : 0 ≤ Ieee.rowChildSize sum primary c := by
  unfold Ieee.rowChildSize Ieee.toDouble
  apply truncate_nonneg
  apply roundDouble_nonneg
  have h1 : 0 ≤ roundDouble (((c.totalSize : Int) : ℚ)) :=
    roundDouble_nonneg _ (by exact_mod_cast Int.natCast_nonneg _)
  have h2 : 0 ≤ roundDouble (((sum : Int) : ℚ)) :=
    roundDouble_nonneg _ (by exact_mod_cast Int.natCast_nonneg _)
  have h3 : 0 ≤ roundDouble ((primary : ℚ)) := roundDouble_nonneg _ (by exact_mod_cast hp)
  have h4 := roundDouble_nonneg _ (div_nonneg h1 h2)
  have h5 := roundDouble_nonneg _ (mul_nonneg h4 h3)
  linarith

/-- The value before the clamp against the exact value `x = weight / sum *
primary`: it is the truncation of a double within a factor `1 ± 2^-53` of
`x' + 1/2`, where `x'` is within a factor `1 ± 2^-50` of `x`. -/
theorem ieee_rowChildSize_bounds (sum : Nat) (primary : Int) (hs : 0 < sum)
    (hp : 0 ≤ primary) (c : KFileInfo) :
    ((c.totalSize : ℚ) / (sum : ℚ) * (primary : ℚ) * (1 - 1 / 2 ^ 50) + 1 / 2) *
        (1 - 1 / 2 ^ 53) - 1 < ((Ieee.rowChildSize sum primary c : Int) : ℚ) ∧
    ((Ieee.rowChildSize sum primary c : Int) : ℚ) ≤
      ((c.totalSize : ℚ) / (sum : ℚ) * (primary : ℚ) * (1 + 1 / 2 ^ 50) + 1 / 2) *
        (1 + 1 / 2 ^ 53) := by
  obtain ⟨h1, h2, h3⟩ := ieee_product_bounds (c.totalSize : Int) (sum : Int) primary
    (Int.natCast_nonneg _) (by exact_mod_cast hs) hp
  simp only [Int.cast_natCast] at h1 h2
  have hz : 0 ≤ roundDouble (roundDouble
      (Ieee.toDouble (c.totalSize : Int) / Ieee.toDouble (sum : Int)) *
        Ieee.toDouble primary) + 1 / 2 := by linarith
  obtain ⟨d, a, b, e⟩ := roundDouble_factor _ hz
  have hd : 0 < d := lt_of_lt_of_le (by norm_num) a
  have hy : 0 ≤ roundDouble (roundDouble (roundDouble
      (Ieee.toDouble (c.totalSize : Int) / Ieee.toDouble (sum : Int)) *
        Ieee.toDouble primary) + 1 / 2) := roundDouble_nonneg _ hz
  unfold Ieee.rowChildSize
  rw [truncate_of_nonneg hy]
  have hfl := Int.floor_le (roundDouble (roundDouble (roundDouble
      (Ieee.toDouble (c.totalSize : Int) / Ieee.toDouble (sum : Int)) *
        Ieee.toDouble primary) + 1 / 2))
  have hfl2 := Int.sub_one_lt_floor (roundDouble (roundDouble (roundDouble
      (Ieee.toDouble (c.totalSize : Int) / Ieee.toDouble (sum : Int)) *
        Ieee.toDouble primary) + 1 / 2))
  rw [e] at hfl hfl2 ⊢
  have hx0 : 0 ≤ (c.totalSize : ℚ) / (sum : ℚ) * (primary : ℚ) :=
    mul_nonneg (div_nonneg (Nat.cast_nonneg _) (Nat.cast_nonneg _)) (by exact_mod_cast hp)
  constructor
  · have hlow : ((c.totalSize : ℚ) / (sum : ℚ) * (primary : ℚ) * (1 - 1 / 2 ^ 50) + 1 / 2) *
        (1 - 1 / 2 ^ 53) ≤
        (roundDouble (roundDouble
          (Ieee.toDouble (c.totalSize : Int) / Ieee.toDouble (sum : Int)) *
            Ieee.toDouble primary) + 1 / 2) * d := by
      apply mul_le_mul (by linarith) a (by norm_num) hz
    linarith
  · have hup : (roundDouble (roundDouble
          (Ieee.toDouble (c.totalSize : Int) / Ieee.toDouble (sum : Int)) *
            Ieee.toDouble primary) + 1 / 2) * d ≤
        ((c.totalSize : ℚ) / (sum : ℚ) * (primary : ℚ) * (1 + 1 / 2 ^ 50) + 1 / 2) *
          (1 + 1 / 2 ^ 53) := by
      apply mul_le_mul (by linarith) b hd.le
      have : 0 ≤ (c.totalSize : ℚ) / (sum : ℚ) * (primary : ℚ) * (1 + 1 / 2 ^ 50) :=
        mul_nonneg hx0 (by norm_num)
      linarith
    linarith

theorem ieee_layoutRowSizes_spec (sum : Nat) (primary : Int) (hp : 0 ≤ primary) :
    ∀ (row : List KFileInfo) (remaining : Int), 0 ≤ remaining →
      (Ieee.layoutRowSizes sum primary row remaining).length = row.length ∧
      (∀ s ∈ Ieee.layoutRowSizes sum primary row remaining, 0 ≤ s) ∧
      (∀ i : Nat, ((Ieee.layoutRowSizes sum primary row remaining).take i).sum ≤ remaining) ∧
      (∀ (i : Nat) (c : KFileInfo) (s : Int), row[i]? = some c →
        (Ieee.layoutRowSizes sum primary row remaining)[i]? = some s →
        s = min (Ieee.rowChildSize sum primary c)
          (remaining - ((Ieee.layoutRowSizes sum primary row remaining).take i).sum)) := by
  intro row
  induction row with
  | nil => intro remaining hr; simp [Ieee.layoutRowSizes, hr]
  | cons c rest ih =>
    intro remaining hr
    have h0 : 0 ≤ Ieee.rowChildSize sum primary c := ieee_rowChildSize_nonneg sum primary hp c
    simp only [Ieee.layoutRowSizes]
    generalize hcs0 : Ieee.rowChildSize sum primary c = cs0 at h0
    have hmin : (if cs0 > remaining then remaining else cs0) = min cs0 remaining := by
      split
      · exact (min_eq_right (by omega)).symm
      · exact (min_eq_left (by omega)).symm
    rw [hmin]
    have hcs1 : 0 ≤ min cs0 remaining := le_min h0 hr
    have hcs2 : min cs0 remaining ≤ remaining := min_le_right _ _
    obtain ⟨i1, i2, i3, i4⟩ := ih (remaining - min cs0 remaining) (by omega)
    refine ⟨by simp [i1], ?_, ?_, ?_⟩
    · intro s hs
      rcases List.mem_cons.mp hs with rfl | hs
      · exact hcs1
      · exact i2 s hs
    · intro i
      cases i with
      | zero => simpa using hr
      | succ j =>
        have := i3 j
        simp only [List.take_succ_cons, List.sum_cons]
        omega
    · intro i d s hd hs
      cases i with
      | zero =>
        simp only [List.getElem?_cons_zero, Option.some.injEq] at hd hs
        subst hd; subst hs
        rw [hcs0]
        simp
      | succ j =>
        simp only [List.getElem?_cons_succ] at hd hs
        have := i4 j d s hd hs
        rw [this]
        simp only [List.take_succ_cons, List.sum_cons]
        congr 1
        ring

theorem ieee_layoutRowLoop_sizes (view : KTreemapView) (dir : KOrientation) (rect : Rect)
    (secondary : Int) (sum : Nat) (primary : Int) :
    ∀ (row : List KFileInfo) (offset remaining : Int),
      (Ieee.layoutRowLoop view dir rect secondary sum primary row offset remaining).map
          (fun t => (t.1, primaryExtent dir t.2)) =
        (row.zip (Ieee.layoutRowSizes sum primary row remaining)).filter
          (fun q => decide (view.minTileSize ≤ q.2)) := by
  intro row
  induction row with
  | nil => intro offset remaining; simp [Ieee.layoutRowLoop, Ieee.layoutRowSizes]
  | cons c rest ih =>
    intro offset remaining
    simp only [Ieee.layoutRowLoop, Ieee.layoutRowSizes]
    generalize (if Ieee.rowChildSize sum primary c > remaining then remaining
      else Ieee.rowChildSize sum primary c) = cs
    simp only [List.zip_cons_cons, List.filter_cons]
    by_cases hm : view.minTileSize ≤ cs
    · have hge : cs ≥ view.minTileSize := hm
      simp only [hge, hm, if_true, decide_True, List.map_cons, ih]
      congr 1
      by_cases hd : dir = KTreemapHorizontal <;> simp [primaryExtent, hd]
    · have hge : ¬ cs ≥ view.minTileSize := hm
      simp only [hge, hm, if_false, decide_False, ih]
      simp

theorem ieee_layoutRowLoop_geometry (view : KTreemapView) (dir : KOrientation) (rect : Rect)
    (secondary : Int) (sum : Nat) (primary : Int) (hp : 0 ≤ primary) :
    ∀ (row : List KFileInfo) (offset remaining : Int), 0 ≤ offset → 0 ≤ remaining →
      offset + remaining ≤ primary →
      ∀ t ∈ Ieee.layoutRowLoop view dir rect secondary sum primary row offset remaining,
        offset ≤ primaryOffset dir rect t.2 ∧
        primaryOffset dir rect t.2 + primaryExtent dir t.2 ≤ primary ∧
        secondaryExtent dir t.2 = secondary := by
  intro row
  induction row with
  | nil => intro offset remaining _ _ _ t ht; simp [Ieee.layoutRowLoop] at ht
  | cons c rest ih =>
    intro offset remaining ho hr hor t ht
    have h0 : 0 ≤ Ieee.rowChildSize sum primary c := ieee_rowChildSize_nonneg sum primary hp c
    simp only [Ieee.layoutRowLoop] at ht
    generalize hcs : (if Ieee.rowChildSize sum primary c > remaining then remaining
      else Ieee.rowChildSize sum primary c) = cs at ht
    have hcs0 : 0 ≤ cs := by
      rw [← hcs]; split <;> omega
    have hcs1 : cs ≤ remaining := by
      rw [← hcs]; split <;> omega
    split at ht
    · rcases List.mem_cons.mp ht with rfl | ht
      · by_cases hd : dir = KTreemapHorizontal
        · simp only [hd, if_true, primaryOffset, primaryExtent, secondaryExtent]
          refine ⟨by omega, by omega, trivial⟩
        · simp only [hd, if_false, primaryOffset, primaryExtent, secondaryExtent]
          refine ⟨by omega, by omega, trivial⟩
      · obtain ⟨a, b, c⟩ := ih (offset + cs) (remaining - cs) (by omega) (by omega)
          (by omega) t ht
        exact ⟨by omega, b, c⟩
    · obtain ⟨a, b, c⟩ := ih offset (remaining - cs) ho (by omega) (by omega) t ht
      exact ⟨a, b, c⟩

/-- The tiles `layoutRow` returns when it lays the row out. -/
theorem ieee_layoutRow_eq_loop (p : Platform) (view : KTreemapView) (rect : Rect)
    (scale : ℚ) (row : List KFileInfo)
    (hsum : 0 < (row.map KFileInfo.totalSize).sum)
    (hsec : view.minTileSize ≤ Ieee.rowSecondary p rect scale row) :
    (Ieee.layoutRow p view rect scale row).1 =
      Ieee.layoutRowLoop view
        (if rect.width > rect.height then KTreemapHorizontal else KTreemapVertical) rect
        (Ieee.rowSecondary p rect scale row) (row.map KFileInfo.totalSize).sum
        (max rect.width rect.height) row 0 (max rect.width rect.height) := by
  have hne : row.isEmpty = false := by
    cases row with
    | nil => simp at hsum
    | cons a t => rfl
  have h1 : ¬ (row.map KFileInfo.totalSize).sum = 0 := by omega
  have h2 : ¬ Ieee.rowSecondary p rect scale row < view.minTileSize := by omega
  unfold Ieee.layoutRow
  simp only [hne, Bool.false_eq_true, if_false, h1, h2]

/-- C18 fails as stated. The row of two children of weights 7 and 3 on the
rectangle 45x10 with `scale = 45`: `7 / 10.0` is slightly below 7/10, the
product with 45 is the double just below 31.5, adding 0.5 gives the double just
below 32, and the first child gets the extent 31, not `round(31.5) = 32`; the
second child gets `min(14, 45 - 31) = 14`. -/
theorem layoutRow_extent_not_nearest :
    Ieee.rowChildSize 10 45 (.leaf 1 7) = 31 ∧
    roundNearest ((7 : ℚ) / 10 * 45) = 32 ∧
    Ieee.rowChildSize 10 45 (.leaf 2 3) = 14 ∧
    Ieee.layoutRow Platform.release ⟨true, 1, 1 / 2⟩ ⟨0, 0, 45, 10⟩ 45
        [.leaf 1 7, .leaf 2 3] =
      ([(.leaf 1 7, ⟨0, 0, 31, 10⟩), (.leaf 2 3, ⟨31, 0, 14, 10⟩)], ⟨0, 10, 45, 0⟩) := by
  have f7 : roundDouble (7) = 7 := by
    rw [roundDouble_eval (7) (-50) 7881299347898368 (by norm_num) (by norm_num)
      (by norm_num) (by norm_num)]
    norm_num
  have f10 : roundDouble (10) = 10 := by
    rw [roundDouble_eval (10) (-49) 5629499534213120 (by norm_num) (by norm_num)
      (by norm_num) (by norm_num)]
    norm_num
  have f45 : roundDouble (45) = 45 := by
    rw [roundDouble_eval (45) (-47) 6333186975989760 (by norm_num) (by norm_num)
      (by norm_num) (by norm_num)]
    norm_num
  have f3 : roundDouble (3) = 3 := by
    rw [roundDouble_eval (3) (-51) 6755399441055744 (by norm_num) (by norm_num)
      (by norm_num) (by norm_num)]
    norm_num
  have fa : roundDouble (7 / 10) = 3152519739159347 / 4503599627370496 := by
    rw [roundDouble_eval (7 / 10) (-53) 6305039478318694 (by norm_num) (by norm_num)
      (by norm_num) (by norm_num)]
    norm_num
  have fb : roundDouble (141863388262170615 / 4503599627370496) = 8866461766385663 / 281474976710656 := by
    rw [roundDouble_eval (141863388262170615 / 4503599627370496) (-48) 8866461766385663 (by norm_num) (by norm_num)
      (by norm_num) (by norm_num)]
    norm_num
  have fc : roundDouble (9007199254740991 / 281474976710656) = 9007199254740991 / 281474976710656 := by
    rw [roundDouble_eval (9007199254740991 / 281474976710656) (-48) 9007199254740991 (by norm_num) (by norm_num)
      (by norm_num) (by norm_num)]
    norm_num
  have fd : roundDouble (3 / 10) = 5404319552844595 / 18014398509481984 := by
    rw [roundDouble_eval (3 / 10) (-54) 5404319552844595 (by norm_num) (by norm_num)
      (by norm_num) (by norm_num)]
    norm_num
  have fe : roundDouble (243194379878006775 / 18014398509481984) = 27 / 2 := by
    rw [roundDouble_eval (243194379878006775 / 18014398509481984) (-49) 7599824371187712 (by norm_num) (by norm_num)
      (by norm_num) (by norm_num)]
    norm_num
  have fg : roundDouble (14) = 14 := by
    rw [roundDouble_eval (14) (-49) 7881299347898368 (by norm_num) (by norm_num)
      (by norm_num) (by norm_num)]
    norm_num
  have f450 : roundDouble (450) = 450 := by
    rw [roundDouble_eval (450) (-44) 7916483719987200 (by norm_num) (by norm_num)
      (by norm_num) (by norm_num)]
    norm_num
  have h7 : Ieee.rowChildSize 10 45 (.leaf 1 7) = 31 := by
    norm_num [Ieee.rowChildSize, Ieee.toDouble, KFileInfo.leaf, KFileInfo.totalSize,
      f7, f10, f45, fa, fb, fc, truncate]
  have h3 : Ieee.rowChildSize 10 45 (.leaf 2 3) = 14 := by
    norm_num [Ieee.rowChildSize, Ieee.toDouble, KFileInfo.leaf, KFileInfo.totalSize,
      f3, f10, f45, fd, fe, fg, truncate]
  refine ⟨h7, by norm_num [roundNearest], h3, ?_⟩
  have hsec : Ieee.rowSecondary Platform.release ⟨0, 0, 45, 10⟩ 45
      [.leaf 1 7, .leaf 2 3] = 10 := by
    norm_num [Ieee.rowSecondary, Ieee.toDouble, KFileInfo.leaf, KFileInfo.totalSize,
      f10, f45, f450, truncate]
  have hsum : ([KFileInfo.leaf 1 7, KFileInfo.leaf 2 3].map KFileInfo.totalSize).sum = 10 := by
    simp [KFileInfo.leaf, KFileInfo.totalSize]
  have hmax : max (⟨0, 0, 45, 10⟩ : Rect).width (⟨0, 0, 45, 10⟩ : Rect).height = 45 := by
    decide
  unfold Ieee.layoutRow
  simp only [hsec, hsum, hmax, Ieee.layoutRowLoop, h7, h3]
  norm_num


/-- C18, amended: in `layoutRow`, for every row with positive weight sum on a
rectangle whose longer side `primary` is positive, each member's extent along
the primary axis is `min(c, remaining)`, where `c` is the double expression
`weight / (double)sum * primary + 0.5` converted to `int` and `remaining` is
`primary` minus the extents already assigned in the row. With
`x = weight / sum * primary` the exact value, `c` lies between
`(x * (1 - 2^-50) + 1/2) * (1 - 2^-53) - 1` (exclusive) and
`(x * (1 + 2^-50) + 1/2) * (1 + 2^-53)`: it is the nearest integer to `x`, or a
neighbour when the roundings carry the sum across an integer. The running
total of the extents never exceeds `primary`; the tiles created are those of
the members whose extent is at least `minTileSize`, with that extent; and
offset plus extent of every tile created is at most `primary`. -/
theorem layoutRow_extents (p : Platform) (view : KTreemapView) (rect : Rect)
    (scale : ℚ) (row : List KFileInfo)
    (hprim : 0 < max rect.width rect.height)
    (hsum : 0 < (row.map KFileInfo.totalSize).sum) :
    (∀ (i : Nat) (c : KFileInfo) (s : Int), row[i]? = some c →
      (Ieee.layoutRowSizes (row.map KFileInfo.totalSize).sum (max rect.width rect.height) row
        (max rect.width rect.height))[i]? = some s →
      s = min
        (Ieee.rowChildSize (row.map KFileInfo.totalSize).sum (max rect.width rect.height) c)
        (max rect.width rect.height -
          ((Ieee.layoutRowSizes (row.map KFileInfo.totalSize).sum
            (max rect.width rect.height) row (max rect.width rect.height)).take i).sum)) ∧
    (∀ c : KFileInfo,
      ((c.totalSize : ℚ) / (((row.map KFileInfo.totalSize).sum : Nat) : ℚ) *
            ((max rect.width rect.height : Int) : ℚ) * (1 - 1 / 2 ^ 50) + 1 / 2) *
          (1 - 1 / 2 ^ 53) - 1 <
        ((Ieee.rowChildSize (row.map KFileInfo.totalSize).sum
          (max rect.width rect.height) c : Int) : ℚ) ∧
      ((Ieee.rowChildSize (row.map KFileInfo.totalSize).sum
          (max rect.width rect.height) c : Int) : ℚ) ≤
        ((c.totalSize : ℚ) / (((row.map KFileInfo.totalSize).sum : Nat) : ℚ) *
            ((max rect.width rect.height : Int) : ℚ) * (1 + 1 / 2 ^ 50) + 1 / 2) *
          (1 + 1 / 2 ^ 53)) ∧
    (∀ i : Nat,
      ((Ieee.layoutRowSizes (row.map KFileInfo.totalSize).sum (max rect.width rect.height)
        row (max rect.width rect.height)).take i).sum ≤ max rect.width rect.height) ∧
    (view.minTileSize ≤ Ieee.rowSecondary p rect scale row →
      (Ieee.layoutRow p view rect scale row).1.map
          (fun t => (t.1, primaryExtent
            (if rect.width > rect.height then KTreemapHorizontal else KTreemapVertical)
            t.2)) =
        (row.zip (Ieee.layoutRowSizes (row.map KFileInfo.totalSize).sum
          (max rect.width rect.height) row (max rect.width rect.height))).filter
          (fun q => decide (view.minTileSize ≤ q.2))) ∧
    (∀ t ∈ (Ieee.layoutRow p view rect scale row).1,
      0 ≤ primaryOffset
          (if rect.width > rect.height then KTreemapHorizontal else KTreemapVertical)
          rect t.2 ∧
        primaryOffset
            (if rect.width > rect.height then KTreemapHorizontal else KTreemapVertical)
            rect t.2 +
          primaryExtent
            (if rect.width > rect.height then KTreemapHorizontal else KTreemapVertical)
            t.2 ≤ max rect.width rect.height) := by
  obtain ⟨_, _, s3, s4⟩ := ieee_layoutRowSizes_spec (row.map KFileInfo.totalSize).sum
    (max rect.width rect.height) hprim.le row (max rect.width rect.height) hprim.le
  refine ⟨s4, ?_, s3, ?_, ?_⟩
  · intro c
    exact ieee_rowChildSize_bounds _ _ hsum hprim.le c
  · intro hsec
    rw [ieee_layoutRow_eq_loop p view rect scale row hsum hsec]
    exact ieee_layoutRowLoop_sizes _ _ _ _ _ _ _ _ _
  · intro t ht
    by_cases hsec : view.minTileSize ≤ Ieee.rowSecondary p rect scale row
    · rw [ieee_layoutRow_eq_loop p view rect scale row hsum hsec] at ht
      obtain ⟨g1, g2, _⟩ := ieee_layoutRowLoop_geometry view _ rect _ _ _ hprim.le row 0
        (max rect.width rect.height) (le_refl _) hprim.le (by omega) t ht
      exact ⟨g1, g2⟩
    · have h2 : Ieee.rowSecondary p rect scale row < view.minTileSize := by omega
      have hne : row.isEmpty = false := by
        cases row with
        | nil => simp at hsum
        | cons a t => rfl
      have h1 : ¬ (row.map KFileInfo.totalSize).sum = 0 := by omega
      unfold Ieee.layoutRow at ht
      simp only [hne, Bool.false_eq_true, if_false, h1, h2, if_true] at ht
      simp at ht

theorem layoutRow_extents_witness :
    ((Ieee.layoutRowSizes ([KFileInfo.leaf 1 7, KFileInfo.leaf 2 3].map KFileInfo.totalSize).sum
        (max (⟨0, 0, 45, 10⟩ : Rect).width (⟨0, 0, 45, 10⟩ : Rect).height)
        [.leaf 1 7, .leaf 2 3]
        (max (⟨0, 0, 45, 10⟩ : Rect).width (⟨0, 0, 45, 10⟩ : Rect).height)).take 2).sum ≤
      max (⟨0, 0, 45, 10⟩ : Rect).width (⟨0, 0, 45, 10⟩ : Rect).height :=
  (layoutRow_extents Platform.release ⟨true, 1, 1 / 2⟩ ⟨0, 0, 45, 10⟩ 45
    [.leaf 1 7, .leaf 2 3] (by decide) (by decide)).2.2.1 2

/-! ## C16: the stopping rule of squarify -/

theorem roundDouble_pos (x : ℚ) (hx : 0 < x) : 0 < roundDouble x := by
  obtain ⟨d, a, _, e⟩ := roundDouble_factor x hx.le
  rw [e]
  exact mul_pos hx (lt_of_lt_of_le (by norm_num) a)

theorem ieee_rowSum_snoc (row : List KFileInfo) (c : KFileInfo) :
    Ieee.rowSum (row ++ [c]) =
      roundDouble (Ieee.rowSum row + Ieee.toDouble (c.totalSize : Int)) := by
  unfold Ieee.rowSum
  rw [List.foldl_append]
  rfl

theorem ieee_rowSum_nonneg (row : List KFileInfo) : 0 ≤ Ieee.rowSum row := by
  induction row using List.reverseRecOn with
  | nil => exact le_refl _
  | append_singleton l c ih =>
    rw [ieee_rowSum_snoc]
    apply roundDouble_nonneg
    have : 0 ≤ Ieee.toDouble (c.totalSize : Int) :=
      roundDouble_nonneg _ (by exact_mod_cast Int.natCast_nonneg _)
    linarith

theorem ieee_rowWorst_snoc (length : Int) (scale : ℚ) (first : KFileInfo) (tl : List KFileInfo)
    (c : KFileInfo) :
    Ieee.rowWorst length scale (first :: tl ++ [c]) =
      Ieee.worstAspectRatio length scale first.totalSize
        (roundDouble (Ieee.rowSum (first :: tl) + Ieee.toDouble (c.totalSize : Int)))
        c.totalSize := by
  unfold Ieee.rowWorst
  have h1 : (first :: tl ++ [c]).head? = some first := rfl
  have h2 : (first :: tl ++ [c]).getLast? = some c := by
    rw [List.getLast?_append]; simp
  rw [h1, h2]
  simp only [ieee_rowSum_snoc]

/-- What the loop of `squarify` does on a range of children of positive weight,
started with the row `row`, `sum` its accumulated weight and `lastWorst` the
ratio recorded for it (none, i.e. -1, while the row has fewer than two
members). -/
theorem ieee_squarifyLoop_spec (length : Int) (scale : ℚ) :
    ∀ (it row : List KFileInfo) (sum : ℚ) (lastWorst : AspectValue),
      (∀ c ∈ it, 0 < c.totalSize) →
      sum = Ieee.rowSum row →
      (row.length ≤ 1 → lastWorst = AspectValue.fin (-1)) →
      (2 ≤ row.length → lastWorst = Ieee.rowWorst length scale row) →
      (∃ more, (Ieee.squarifyLoop length scale row sum lastWorst it).1 = row ++ more ∧
        more ++ (Ieee.squarifyLoop length scale row sum lastWorst it).2 = it) ∧
      (∀ k, 2 ≤ k → row.length ≤ k →
        k < (Ieee.squarifyLoop length scale row sum lastWorst it).1.length →
        ¬ ((Ieee.rowWorst length scale
              ((Ieee.squarifyLoop length scale row sum lastWorst it).1.take k)).geZero = true ∧
          (Ieee.rowWorst length scale
              ((Ieee.squarifyLoop length scale row sum lastWorst it).1.take (k + 1))).gt
            (Ieee.rowWorst length scale
              ((Ieee.squarifyLoop length scale row sum lastWorst it).1.take k)) = true)) ∧
      (∀ c rest, (Ieee.squarifyLoop length scale row sum lastWorst it).2 = c :: rest →
        2 ≤ (Ieee.squarifyLoop length scale row sum lastWorst it).1.length ∧
        (Ieee.rowWorst length scale
          (Ieee.squarifyLoop length scale row sum lastWorst it).1).geZero = true ∧
        (Ieee.rowWorst length scale
            ((Ieee.squarifyLoop length scale row sum lastWorst it).1 ++ [c])).gt
          (Ieee.rowWorst length scale (Ieee.squarifyLoop length scale row sum lastWorst it).1) =
            true) := by
  intro it
  induction it with
  | nil =>
    intro row sum lastWorst _ _ _ _
    simp only [Ieee.squarifyLoop]
    refine ⟨⟨[], by simp, rfl⟩, ?_, ?_⟩
    · intro k _ h1 h2; omega
    · intro c rest h; simp at h
  | cons c rest ih =>
    intro row sum lastWorst hpos hsum h1 h2
    have hc : 0 < c.totalSize := hpos c (List.mem_cons_self _ _)
    have hrest : ∀ d ∈ rest, 0 < d.totalSize := fun d hd => hpos d (List.mem_cons_of_mem _ hd)
    have hsum1 : roundDouble (sum + Ieee.toDouble (c.totalSize : Int)) =
        Ieee.rowSum (row ++ [c]) := by
      rw [hsum, ieee_rowSum_snoc]
    cases row with
    | nil =>
      simp only [Ieee.squarifyLoop, List.nil_append]
      have h := ih [c] (roundDouble (sum + Ieee.toDouble (c.totalSize : Int))) lastWorst hrest
        hsum1 (fun _ => h1 (by simp)) (fun h => by simp at h)
      obtain ⟨⟨more, hm1, hm2⟩, hb, hcc⟩ := h
      refine ⟨⟨c :: more, by simpa using hm1, by simp [hm2]⟩, ?_, hcc⟩
      intro k hk2 _ hlt
      exact hb k hk2 (by simp; omega) hlt
    | cons first tl =>
      have hne : roundDouble (sum + Ieee.toDouble (c.totalSize : Int)) ≠ 0 ∧
          c.totalSize ≠ 0 := by
        constructor
        · have hcq : (0 : ℚ) < (((c.totalSize : Int)) : ℚ) := by exact_mod_cast hc
          have hcd : 0 < Ieee.toDouble (c.totalSize : Int) := roundDouble_pos _ hcq
          have h0 : 0 ≤ sum := by rw [hsum]; exact ieee_rowSum_nonneg _
          exact ne_of_gt (roundDouble_pos _ (by linarith))
        · omega
      have hworst : Ieee.worstAspectRatio length scale first.totalSize
          (roundDouble (sum + Ieee.toDouble (c.totalSize : Int)))
          c.totalSize = Ieee.rowWorst length scale (first :: tl ++ [c]) := by
        rw [ieee_rowWorst_snoc, hsum]
      have hstep : Ieee.squarifyLoop length scale (first :: tl) sum lastWorst (c :: rest) =
          if (lastWorst.geZero &&
              (Ieee.rowWorst length scale (first :: tl ++ [c])).gt lastWorst) = true then
            (first :: tl, c :: rest)
          else Ieee.squarifyLoop length scale (first :: tl ++ [c])
            (roundDouble (sum + Ieee.toDouble (c.totalSize : Int)))
            (Ieee.rowWorst length scale (first :: tl ++ [c])) rest := by
        simp only [Ieee.squarifyLoop]
        rw [if_pos hne, hworst]
      rw [hstep]
      by_cases hstop : (lastWorst.geZero &&
          (Ieee.rowWorst length scale (first :: tl ++ [c])).gt lastWorst) = true
      · rw [if_pos hstop]
        simp only [Bool.and_eq_true] at hstop
        have hlen2 : 2 ≤ (first :: tl).length := by
          by_contra hlt
          have := h1 (by omega)
          rw [this] at hstop
          norm_num [AspectValue.geZero] at hstop
        have hlast := h2 hlen2
        refine ⟨⟨[], by simp, rfl⟩, ?_, ?_⟩
        · intro k _ hk1 hk2
          simp only at hk2
          omega
        · intro d rest2 hd
          simp only [List.cons.injEq] at hd
          obtain ⟨rfl, _⟩ := hd
          rw [← hlast]
          exact ⟨hlen2, hstop.1, hstop.2⟩
      · rw [if_neg hstop]
        have h := ih (first :: tl ++ [c])
          (roundDouble (sum + Ieee.toDouble (c.totalSize : Int)))
          (Ieee.rowWorst length scale (first :: tl ++ [c])) hrest
          hsum1
          (fun hl => by simp at hl) (fun _ => rfl)
        obtain ⟨⟨more, hm1, hm2⟩, hb, hcc⟩ := h
        refine ⟨⟨c :: more, by rw [hm1]; simp, by rw [List.cons_append, hm2]⟩, ?_, hcc⟩
        intro k hk2 hk1 hlt
        by_cases hk : k = (first :: tl).length
        · subst hk
          rw [hm1]
          have e1 : (first :: tl ++ [c] ++ more).take (first :: tl).length = first :: tl := by
            rw [List.append_assoc, List.take_left']
            rfl
          have e2 : (first :: tl ++ [c] ++ more).take ((first :: tl).length + 1) =
              first :: tl ++ [c] := by
            rw [List.take_left']
            simp
          rw [e1, e2]
          rw [← h2 hk2]
          simpa [Bool.and_eq_true] using hstop
        · exact hb k hk2 (by simp at hk1 hk ⊢; omega) hlt

/-- C16, amended: in `squarify`, on a rectangle whose longer side is not zero
and a range of children of positive weight, the row is a prefix of the range
and the rest of the range is left for the next row; from the third member on,
a child was appended only if the worst aspect ratio of the candidate row, as
the code computes it in doubles, was not strictly greater than that of the
previous candidate (a ratio that comes out equal still appends); and the row is
committed at the first child, the third of the row or later, whose addition
makes the computed worst ratio strictly greater than that of the previous
candidate. The first two children are appended without a test. -/
theorem squarify_stopping_rule (rect : Rect) (scale : ℚ) (it : List KFileInfo)
    (hlen : max rect.width rect.height ≠ 0) (hpos : ∀ c ∈ it, 0 < c.totalSize) :
    (Ieee.squarify rect scale it).1 ++ (Ieee.squarify rect scale it).2 = it ∧
    min 2 it.length ≤ (Ieee.squarify rect scale it).1.length ∧
    (∀ k, 2 ≤ k → k < (Ieee.squarify rect scale it).1.length →
      ¬ ((Ieee.rowWorst (max rect.width rect.height) scale
            ((Ieee.squarify rect scale it).1.take k)).geZero = true ∧
        (Ieee.rowWorst (max rect.width rect.height) scale
            ((Ieee.squarify rect scale it).1.take (k + 1))).gt
          (Ieee.rowWorst (max rect.width rect.height) scale
            ((Ieee.squarify rect scale it).1.take k)) = true)) ∧
    (∀ c rest, (Ieee.squarify rect scale it).2 = c :: rest →
      2 ≤ (Ieee.squarify rect scale it).1.length ∧
      (Ieee.rowWorst (max rect.width rect.height) scale
        (Ieee.squarify rect scale it).1).geZero = true ∧
      (Ieee.rowWorst (max rect.width rect.height) scale
          ((Ieee.squarify rect scale it).1 ++ [c])).gt
        (Ieee.rowWorst (max rect.width rect.height) scale (Ieee.squarify rect scale it).1) =
          true) := by
  have hsq : Ieee.squarify rect scale it =
      Ieee.squarifyLoop (max rect.width rect.height) scale [] 0 (AspectValue.fin (-1)) it := by
    unfold Ieee.squarify
    simp only [hlen, if_false]
  rw [hsq]
  obtain ⟨⟨more, hm1, hm2⟩, hb, hcc⟩ := ieee_squarifyLoop_spec (max rect.width rect.height)
    scale it [] 0 (AspectValue.fin (-1)) hpos rfl (fun _ => rfl) (fun h => by simp at h)
  refine ⟨?_, ?_, ?_, hcc⟩
  · rw [hm1]; simpa using hm2
  · rcases Nat.lt_or_ge (Ieee.squarifyLoop (max rect.width rect.height) scale [] 0
        (AspectValue.fin (-1)) it).1.length 2 with hlt | hge
    · have hrest : (Ieee.squarifyLoop (max rect.width rect.height) scale [] 0
          (AspectValue.fin (-1)) it).2 = [] := by
        cases hr : (Ieee.squarifyLoop (max rect.width rect.height) scale [] 0
            (AspectValue.fin (-1)) it).2 with
        | nil => rfl
        | cons c rest => have := (hcc c rest hr).1; omega
      rw [hrest, List.append_nil] at hm2
      rw [hm1, List.nil_append, hm2]
      exact min_le_right _ _
    · exact le_trans (min_le_left _ _) hge
  · intro k hk2 hlt
    exact hb k hk2 (by simp) hlt

theorem squarify_stopping_rule_witness :
    (Ieee.squarify ⟨0, 0, 100, 50⟩ 50 [.leaf 1 50, .leaf 2 30, .leaf 3 15, .leaf 4 5]).1 ++
        (Ieee.squarify ⟨0, 0, 100, 50⟩ 50 [.leaf 1 50, .leaf 2 30, .leaf 3 15, .leaf 4 5]).2 =
      [.leaf 1 50, .leaf 2 30, .leaf 3 15, .leaf 4 5] :=
  (squarify_stopping_rule ⟨0, 0, 100, 50⟩ 50 [.leaf 1 50, .leaf 2 30, .leaf 3 15, .leaf 4 5]
    (by decide) (by simp [KFileInfo.leaf, KFileInfo.totalSize])).1

/-! ## C16: the code against the claim -/

theorem ieee_squarify_equal_ratio :
    Ieee.squarify ⟨0, 0, 12, 8⟩ 24 [.leaf 1 1, .leaf 2 1, .leaf 3 1, .leaf 4 1] =
      ([.leaf 1 1, .leaf 2 1, .leaf 3 1], [.leaf 4 1]) ∧
    Ieee.rowWorst 12 24 [.leaf 1 1, .leaf 2 1] = AspectValue.fin (3 / 2) ∧
    Ieee.rowWorst 12 24 [.leaf 1 1, .leaf 2 1, .leaf 3 1] = AspectValue.fin (3 / 2) := by
  have a0 : roundDouble (12) = 12 := by
    rw [roundDouble_eval (12) (-49) 6755399441055744 (by norm_num) (by norm_num)
      (by norm_num) (by norm_num)]
    norm_num
  have a1 : roundDouble (144) = 144 := by
    rw [roundDouble_eval (144) (-45) 5066549580791808 (by norm_num) (by norm_num)
      (by norm_num) (by norm_num)]
    norm_num
  have a2 : roundDouble (6) = 6 := by
    rw [roundDouble_eval (6) (-50) 6755399441055744 (by norm_num) (by norm_num)
      (by norm_num) (by norm_num)]
    norm_num
  have a3 : roundDouble (1) = 1 := by
    rw [roundDouble_eval (1) (-52) 4503599627370496 (by norm_num) (by norm_num)
      (by norm_num) (by norm_num)]
    norm_num
  have a4 : roundDouble (2) = 2 := by
    rw [roundDouble_eval (2) (-51) 4503599627370496 (by norm_num) (by norm_num)
      (by norm_num) (by norm_num)]
    norm_num
  have a5 : roundDouble (4) = 4 := by
    rw [roundDouble_eval (4) (-50) 4503599627370496 (by norm_num) (by norm_num)
      (by norm_num) (by norm_num)]
    norm_num
  have a6 : roundDouble (3 / 2) = 3 / 2 := by
    rw [roundDouble_eval (3 / 2) (-52) 6755399441055744 (by norm_num) (by norm_num)
      (by norm_num) (by norm_num)]
    norm_num
  have a7 : roundDouble (2 / 3) = 6004799503160661 / 9007199254740992 := by
    rw [roundDouble_eval (2 / 3) (-53) 6004799503160661 (by norm_num) (by norm_num)
      (by norm_num) (by norm_num)]
    norm_num
  have a8 : roundDouble (3) = 3 := by
    rw [roundDouble_eval (3) (-51) 6755399441055744 (by norm_num) (by norm_num)
      (by norm_num) (by norm_num)]
    norm_num
  have a9 : roundDouble (9) = 9 := by
    rw [roundDouble_eval (9) (-49) 5066549580791808 (by norm_num) (by norm_num)
      (by norm_num) (by norm_num)]
    norm_num
  have a10 : roundDouble (16) = 16 := by
    rw [roundDouble_eval (16) (-48) 4503599627370496 (by norm_num) (by norm_num)
      (by norm_num) (by norm_num)]
    norm_num
  have a11 : roundDouble (3 / 8) = 3 / 8 := by
    rw [roundDouble_eval (3 / 8) (-54) 6755399441055744 (by norm_num) (by norm_num)
      (by norm_num) (by norm_num)]
    norm_num
  have a12 : roundDouble (8 / 3) = 6004799503160661 / 2251799813685248 := by
    rw [roundDouble_eval (8 / 3) (-51) 6004799503160661 (by norm_num) (by norm_num)
      (by norm_num) (by norm_num)]
    norm_num
  refine ⟨?_, ?_, ?_⟩
  · norm_num [Ieee.squarify, Ieee.squarifyLoop, Ieee.worstAspectRatio, Ieee.toDouble, Ieee.rowWorst, Ieee.rowSum,
      KFileInfo.totalSize, KFileInfo.leaf, AspectValue.geZero, AspectValue.gt, roundDouble_zero,
      a0, a1, a2, a3, a4, a5, a6, a7, a8, a9, a10, a11, a12]
  · norm_num [Ieee.squarify, Ieee.squarifyLoop, Ieee.worstAspectRatio, Ieee.toDouble, Ieee.rowWorst, Ieee.rowSum,
      KFileInfo.totalSize, KFileInfo.leaf, AspectValue.geZero, AspectValue.gt, roundDouble_zero,
      a0, a1, a2, a3, a4, a5, a6, a7, a8, a9, a10, a11, a12]
  · norm_num [Ieee.squarify, Ieee.squarifyLoop, Ieee.worstAspectRatio, Ieee.toDouble, Ieee.rowWorst, Ieee.rowSum,
      KFileInfo.totalSize, KFileInfo.leaf, AspectValue.geZero, AspectValue.gt, roundDouble_zero,
      a0, a1, a2, a3, a4, a5, a6, a7, a8, a9, a10, a11, a12]

theorem ieee_squarify_second_child :
    Ieee.squarify ⟨0, 0, 10, 10⟩ 1 [.leaf 1 99, .leaf 2 1] = ([.leaf 1 99, .leaf 2 1], []) ∧
    Ieee.rowWorst 10 1 [.leaf 1 99] = AspectValue.fin (4549090532697471 / 4503599627370496) ∧
    Ieee.rowWorst 10 1 [.leaf 1 99, .leaf 2 1] = AspectValue.fin 100 := by
  have b0 : roundDouble (10) = 10 := by
    rw [roundDouble_eval (10) (-49) 5629499534213120 (by norm_num) (by norm_num)
      (by norm_num) (by norm_num)]
    norm_num
  have b1 : roundDouble (100) = 100 := by
    rw [roundDouble_eval (100) (-46) 7036874417766400 (by norm_num) (by norm_num)
      (by norm_num) (by norm_num)]
    norm_num
  have b2 : roundDouble (99) = 99 := by
    rw [roundDouble_eval (99) (-46) 6966505673588736 (by norm_num) (by norm_num)
      (by norm_num) (by norm_num)]
    norm_num
  have b3 : roundDouble (1) = 1 := by
    rw [roundDouble_eval (1) (-52) 4503599627370496 (by norm_num) (by norm_num)
      (by norm_num) (by norm_num)]
    norm_num
  have b4 : roundDouble (10000) = 10000 := by
    rw [roundDouble_eval (10000) (-39) 5497558138880000 (by norm_num) (by norm_num)
      (by norm_num) (by norm_num)]
    norm_num
  have b5 : roundDouble (9900) = 9900 := by
    rw [roundDouble_eval (9900) (-39) 5442582557491200 (by norm_num) (by norm_num)
      (by norm_num) (by norm_num)]
    norm_num
  have b6 : roundDouble (99 / 100) = 4458563631096791 / 4503599627370496 := by
    rw [roundDouble_eval (99 / 100) (-53) 8917127262193582 (by norm_num) (by norm_num)
      (by norm_num) (by norm_num)]
    norm_num
  have b7 : roundDouble (9801) = 9801 := by
    rw [roundDouble_eval (9801) (-39) 5388156731916288 (by norm_num) (by norm_num)
      (by norm_num) (by norm_num)]
    norm_num
  have b8 : roundDouble (100 / 99) = 4549090532697471 / 4503599627370496 := by
    rw [roundDouble_eval (100 / 99) (-52) 4549090532697471 (by norm_num) (by norm_num)
      (by norm_num) (by norm_num)]
    norm_num
  refine ⟨?_, ?_, ?_⟩
  · norm_num [Ieee.squarify, Ieee.squarifyLoop, Ieee.worstAspectRatio, Ieee.toDouble, Ieee.rowWorst, Ieee.rowSum,
      KFileInfo.totalSize, KFileInfo.leaf, AspectValue.geZero, AspectValue.gt, roundDouble_zero,
      b0, b1, b2, b3, b4, b5, b6, b7, b8]
  · norm_num [Ieee.squarify, Ieee.squarifyLoop, Ieee.worstAspectRatio, Ieee.toDouble, Ieee.rowWorst, Ieee.rowSum,
      KFileInfo.totalSize, KFileInfo.leaf, AspectValue.geZero, AspectValue.gt, roundDouble_zero,
      b0, b1, b2, b3, b4, b5, b6, b7, b8]
  · norm_num [Ieee.squarify, Ieee.squarifyLoop, Ieee.worstAspectRatio, Ieee.toDouble, Ieee.rowWorst, Ieee.rowSum,
      KFileInfo.totalSize, KFileInfo.leaf, AspectValue.geZero, AspectValue.gt, roundDouble_zero,
      b0, b1, b2, b3, b4, b5, b6, b7, b8]

/-- Whether two candidate rows of equal exact worst ratio pass the test depends
on the rounding. Node of weight 20 in the rectangle 6x9 (`scale = 2.7`),
children of weights 5, 5, 5, 3, 1, 1: the rows of two and of three children
both have the exact worst ratio 3/2, but the doubles the code computes are
`1.4999999999999998` and `1.5000000000000002`, so the third child is not
appended. -/
theorem ieee_squarify_tie_by_rounding :
    Ieee.squarifiedScale tieRowNode ⟨0, 0, 6, 9⟩ = 3039929748475085 / 1125899906842624 ∧
    Ieee.squarify ⟨0, 0, 6, 9⟩ (3039929748475085 / 1125899906842624)
        [.leaf 1 5, .leaf 2 5, .leaf 3 5, .leaf 4 3, .leaf 5 1, .leaf 6 1] =
      ([.leaf 1 5, .leaf 2 5], [.leaf 3 5, .leaf 4 3, .leaf 5 1, .leaf 6 1]) ∧
    Ieee.rowWorst 9 (3039929748475085 / 1125899906842624) [.leaf 1 5, .leaf 2 5] =
      AspectValue.fin (6755399441055743 / 4503599627370496) ∧
    Ieee.rowWorst 9 (3039929748475085 / 1125899906842624) [.leaf 1 5, .leaf 2 5, .leaf 3 5] =
      AspectValue.fin (6755399441055745 / 4503599627370496) := by
  have c0 : roundDouble (6) = 6 := by
    rw [roundDouble_eval (6) (-50) 6755399441055744 (by norm_num) (by norm_num)
      (by norm_num) (by norm_num)]
    norm_num
  have c1 : roundDouble (9) = 9 := by
    rw [roundDouble_eval (9) (-49) 5066549580791808 (by norm_num) (by norm_num)
      (by norm_num) (by norm_num)]
    norm_num
  have c2 : roundDouble (54) = 54 := by
    rw [roundDouble_eval (54) (-47) 7599824371187712 (by norm_num) (by norm_num)
      (by norm_num) (by norm_num)]
    norm_num
  have c3 : roundDouble (20) = 20 := by
    rw [roundDouble_eval (20) (-48) 5629499534213120 (by norm_num) (by norm_num)
      (by norm_num) (by norm_num)]
    norm_num
  have c4 : roundDouble (27 / 10) = 3039929748475085 / 1125899906842624 := by
    rw [roundDouble_eval (27 / 10) (-51) 6079859496950170 (by norm_num) (by norm_num)
      (by norm_num) (by norm_num)]
    norm_num
  have c5 : roundDouble (81) = 81 := by
    rw [roundDouble_eval (81) (-46) 5699868278390784 (by norm_num) (by norm_num)
      (by norm_num) (by norm_num)]
    norm_num
  have c6 : roundDouble (91197892454252544 / 3039929748475085) = 8444249301319679 / 281474976710656 := by
    rw [roundDouble_eval (91197892454252544 / 3039929748475085) (-48) 8444249301319679 (by norm_num) (by norm_num)
      (by norm_num) (by norm_num)]
    norm_num
  have c7 : roundDouble (5) = 5 := by
    rw [roundDouble_eval (5) (-50) 5629499534213120 (by norm_num) (by norm_num)
      (by norm_num) (by norm_num)]
    norm_num
  have c8 : roundDouble (10) = 10 := by
    rw [roundDouble_eval (10) (-49) 5629499534213120 (by norm_num) (by norm_num)
      (by norm_num) (by norm_num)]
    norm_num
  have c9 : roundDouble (100) = 100 := by
    rw [roundDouble_eval (100) (-46) 7036874417766400 (by norm_num) (by norm_num)
      (by norm_num) (by norm_num)]
    norm_num
  have c10 : roundDouble (42221246506598395 / 281474976710656) = 5277655813324799 / 35184372088832 := by
    rw [roundDouble_eval (42221246506598395 / 281474976710656) (-45) 5277655813324799 (by norm_num) (by norm_num)
      (by norm_num) (by norm_num)]
    norm_num
  have c11 : roundDouble (5277655813324799 / 3518437208883200) = 6755399441055743 / 4503599627370496 := by
    rw [roundDouble_eval (5277655813324799 / 3518437208883200) (-52) 6755399441055743 (by norm_num) (by norm_num)
      (by norm_num) (by norm_num)]
    norm_num
  have c12 : roundDouble (3518437208883200 / 5277655813324799) = 3002399751580331 / 4503599627370496 := by
    rw [roundDouble_eval (3518437208883200 / 5277655813324799) (-53) 6004799503160662 (by norm_num) (by norm_num)
      (by norm_num) (by norm_num)]
    norm_num
  have c13 : roundDouble (15) = 15 := by
    rw [roundDouble_eval (15) (-49) 8444249301319680 (by norm_num) (by norm_num)
      (by norm_num) (by norm_num)]
    norm_num
  have c14 : roundDouble (225) = 225 := by
    rw [roundDouble_eval (225) (-45) 7916483719987200 (by norm_num) (by norm_num)
      (by norm_num) (by norm_num)]
    norm_num
  have c15 : roundDouble (5277655813324799 / 7916483719987200) = 1501199875790165 / 2251799813685248 := by
    rw [roundDouble_eval (5277655813324799 / 7916483719987200) (-53) 6004799503160660 (by norm_num) (by norm_num)
      (by norm_num) (by norm_num)]
    norm_num
  have c16 : roundDouble (7916483719987200 / 5277655813324799) = 6755399441055745 / 4503599627370496 := by
    rw [roundDouble_eval (7916483719987200 / 5277655813324799) (-52) 6755399441055745 (by norm_num) (by norm_num)
      (by norm_num) (by norm_num)]
    norm_num
  refine ⟨?_, ?_, ?_, ?_⟩
  · norm_num [Ieee.squarifiedScale, tieRowNode, Ieee.squarify, Ieee.squarifyLoop, Ieee.worstAspectRatio, Ieee.toDouble, Ieee.rowWorst, Ieee.rowSum,
      KFileInfo.totalSize, KFileInfo.leaf, AspectValue.geZero, AspectValue.gt, roundDouble_zero,
      c0, c1, c2, c3, c4, c5, c6, c7, c8, c9, c10, c11, c12, c13, c14, c15, c16]
  · norm_num [Ieee.squarify, Ieee.squarifyLoop, Ieee.worstAspectRatio, Ieee.toDouble, Ieee.rowWorst, Ieee.rowSum,
      KFileInfo.totalSize, KFileInfo.leaf, AspectValue.geZero, AspectValue.gt, roundDouble_zero,
      c0, c1, c2, c3, c4, c5, c6, c7, c8, c9, c10, c11, c12, c13, c14, c15, c16]
  · norm_num [Ieee.squarify, Ieee.squarifyLoop, Ieee.worstAspectRatio, Ieee.toDouble, Ieee.rowWorst, Ieee.rowSum,
      KFileInfo.totalSize, KFileInfo.leaf, AspectValue.geZero, AspectValue.gt, roundDouble_zero,
      c0, c1, c2, c3, c4, c5, c6, c7, c8, c9, c10, c11, c12, c13, c14, c15, c16]
  · norm_num [Ieee.squarify, Ieee.squarifyLoop, Ieee.worstAspectRatio, Ieee.toDouble, Ieee.rowWorst, Ieee.rowSum,
      KFileInfo.totalSize, KFileInfo.leaf, AspectValue.geZero, AspectValue.gt, roundDouble_zero,
      c0, c1, c2, c3, c4, c5, c6, c7, c8, c9, c10, c11, c12, c13, c14, c15, c16]

/-- C16 fails as stated, in two ways. On the rectangle 12x8 with `scale = 24`
and four children of weight 1 the candidate rows of two and of three children
have the same worst aspect ratio 3/2 (also as doubles), and the third child is
appended all the same: the row ends before the fourth child only. On the
rectangle 10x10 with `scale = 1` and children of weight 99 and 1 the second
child is appended although the worst ratio rises from 100/99 to 100. The
layout in double arithmetic and the layout in exact arithmetic agree on both
inputs. -/
theorem squarify_appends_on_equal_ratio :
    (Ieee.squarify ⟨0, 0, 12, 8⟩ 24 [.leaf 1 1, .leaf 2 1, .leaf 3 1, .leaf 4 1] =
      ([.leaf 1 1, .leaf 2 1, .leaf 3 1], [.leaf 4 1]) ∧
    Ieee.rowWorst 12 24 [.leaf 1 1, .leaf 2 1] = AspectValue.fin (3 / 2) ∧
    Ieee.rowWorst 12 24 [.leaf 1 1, .leaf 2 1, .leaf 3 1] = AspectValue.fin (3 / 2)) ∧
    (Ieee.squarify ⟨0, 0, 10, 10⟩ 1 [.leaf 1 99, .leaf 2 1] = ([.leaf 1 99, .leaf 2 1], []) ∧
    Ieee.rowWorst 10 1 [.leaf 1 99] =
      AspectValue.fin (4549090532697471 / 4503599627370496) ∧
    Ieee.rowWorst 10 1 [.leaf 1 99, .leaf 2 1] = AspectValue.fin 100) ∧
    squarify ⟨0, 0, 12, 8⟩ 24 [.leaf 1 1, .leaf 2 1, .leaf 3 1, .leaf 4 1] =
      ([.leaf 1 1, .leaf 2 1, .leaf 3 1], [.leaf 4 1]) ∧
    rowWorst 12 24 [.leaf 1 1, .leaf 2 1] = AspectValue.fin (3 / 2) ∧
    rowWorst 12 24 [.leaf 1 1, .leaf 2 1, .leaf 3 1] = AspectValue.fin (3 / 2) ∧
    squarify ⟨0, 0, 10, 10⟩ 1 [.leaf 1 99, .leaf 2 1] = ([.leaf 1 99, .leaf 2 1], []) ∧
    rowWorst 10 1 [.leaf 1 99] = AspectValue.fin (100 / 99) ∧
    rowWorst 10 1 [.leaf 1 99, .leaf 2 1] = AspectValue.fin 100 := by
  refine ⟨ieee_squarify_equal_ratio, ieee_squarify_second_child, ?_, ?_, ?_, ?_, ?_, ?_⟩
  · norm_num [squarify, squarifyLoop, worstAspectRatio, KFileInfo.totalSize, KFileInfo.leaf,
      AspectValue.geZero, AspectValue.gt]
  · norm_num [rowWorst, worstAspectRatio, KFileInfo.totalSize, KFileInfo.leaf]
  · norm_num [rowWorst, worstAspectRatio, KFileInfo.totalSize, KFileInfo.leaf]
  · norm_num [squarify, squarifyLoop, worstAspectRatio, KFileInfo.totalSize, KFileInfo.leaf,
      AspectValue.geZero, AspectValue.gt]
  · norm_num [rowWorst, worstAspectRatio, KFileInfo.totalSize, KFileInfo.leaf]
  · norm_num [rowWorst, worstAspectRatio, KFileInfo.totalSize, KFileInfo.leaf]

/-! ## C8: the order of equal children -/

/-- C8 fails as stated. With `std::sort` of libstdc++, which partitions every
range of more than 16 elements around a median of three, the 17 children of
weight 1 of a node come back in the order 9, 17, 16, ..., 10, 1, 8, 7, ..., 2:
elements of equal `totalSize()` do not keep their input order. (A stable sort
leaves the 17 children as they are.) -/
theorem sortedChildBySize_not_stable :
    (sortCandidates equalChildrenNode 0).map KFileInfo.ident =
      [1, 2, 3, 4, 5, 6, 7, 8, 9, 10, 11, 12, 13, 14, 15, 16, 17] ∧
    (sortCandidates equalChildrenNode 0).map KFileInfo.totalSize =
      [1, 1, 1, 1, 1, 1, 1, 1, 1, 1, 1, 1, 1, 1, 1, 1, 1] ∧
    (stableSort (sortCandidates equalChildrenNode 0)).map KFileInfo.ident =
      [1, 2, 3, 4, 5, 6, 7, 8, 9, 10, 11, 12, 13, 14, 15, 16, 17] ∧
    (sortedChildBySize Platform.gcc equalChildrenNode 0).map KFileInfo.ident =
      [9, 17, 16, 15, 14, 13, 12, 11, 10, 1, 8, 7, 6, 5, 4, 3, 2] := by
  refine ⟨by decide, by decide, by decide, ?_⟩
  set_option maxRecDepth 100000 in decide

end KDirStat
